import Mathlib

/-!
# Somato: the Soma cube solver of `src/puzzle.cc`

A shallow embedding of the placement generator, the canonicalizer, the pruner,
the backtracking search (`PuzzleSolver`) and the background runner
(`PuzzleThread`), followed by the properties proved about them.

`class Cube` (cube.h / cube.cc) and the helpers `Util::Intersect`,
`Util::DoesIntersect` are used by `puzzle.cc` but are not among the sources;
they are modelled from the specification and marked as such.
-/

namespace Somato

/-! ## The cube bitmask -/

/-- Modelled from the spec: `class Cube` (cube.h is not among the sources), "a 3×3×3
occupancy bitmask with equality, a total order, bitwise AND/OR, axis-aligned
rotation, and single-cell translation".  The mask is a natural number whose
bit `9 * x + 3 * y + z` is the cell `(x, y, z)`. -/
abbrev Cube := Nat

/-- `Somato::CUBE_PIECE_COUNT` (puzzle.h is not among the sources; the table
`cube_piece_data` has seven entries). -/
def CUBE_PIECE_COUNT : Nat := 7

namespace Cube

/-- `Cube::N`, the edge length of the cube. -/
def N : Nat := 3

/-- `Cube::AXIS_X`. -/
def AXIS_X : Nat := 0
/-- `Cube::AXIS_Y`; the source computes it as `Cube::AXIS_X + 1`. -/
def AXIS_Y : Nat := 1
/-- `Cube::AXIS_Z`. -/
def AXIS_Z : Nat := 2

/-- Modelled from the spec: `Cube()`, the empty mask. -/
def empty : Cube := 0

/-- Modelled from the spec: `~Cube()`, the full cube mask of 27 cells. -/
def full : Cube := 134217727

/-- Modelled from the spec: the mask whose bit `i` is `g i`, for `i < n`. -/
def ofBits (n : Nat) (g : Nat → Bool) : Cube :=
  (List.range n).foldl (fun acc i => cond (g i) (acc ||| 1 <<< i) acc) 0

/-- Modelled from the spec: the mask whose cell `(x, y, z)` is `f x y z`. -/
def ofCells (f : Nat → Nat → Nat → Bool) : Cube :=
  ofBits 27 (fun i => f (i / 9) (i / 3 % 3) (i % 3))

/-- Modelled from the spec: `Cube::get(x, y, z)`, whether a cell is occupied. -/
def get (c : Cube) (x y z : Nat) : Bool :=
  Nat.testBit c (9 * x + 3 * y + z)

/-- Modelled from the spec: `Cube::Cube(const bool data[3][3][3])`; cell
`(x, y, z)` is `data[x][y][z]`. -/
def ofData (data : List (List (List Bool))) : Cube :=
  ofCells (fun x y z => ((data.getD x []).getD y []).getD z false)

/-- Modelled from the spec: `Cube::rotate(axis)`, a quarter turn of the whole
cube about the given axis through its centre ("axis-aligned rotation"). -/
def rotate (c : Cube) (axis : Nat) : Cube :=
  if axis = AXIS_X then ofCells (fun x y z => get c x z (2 - y))
  else if axis = AXIS_Y then ofCells (fun x y z => get c (2 - z) y x)
  else if axis = AXIS_Z then ofCells (fun x y z => get c y (2 - x) z)
  else c

/-- Modelled from the spec: the cells of the far face along an axis. -/
def farFace (axis : Nat) : Cube :=
  if axis = AXIS_X then ofCells (fun x _ _ => x == 2)
  else if axis = AXIS_Y then ofCells (fun _ y _ => y == 2)
  else ofCells (fun _ _ z => z == 2)

/-- Modelled from the spec: `Cube::shift(axis)`, "single-cell translation".
The shape slides by one cell "while it remains fully inside the cube": when a
cell would leave the cube the result is the empty mask, which is what ends
the loops of `shuffle_cube_piece`. -/
def shift (c : Cube) (axis : Nat) : Cube :=
  if c &&& farFace axis ≠ 0 then empty
  else if axis = AXIS_X then ofCells (fun x y z => decide (1 ≤ x) && get c (x - 1) y z)
  else if axis = AXIS_Y then ofCells (fun x y z => decide (1 ≤ y) && get c x (y - 1) z)
  else if axis = AXIS_Z then ofCells (fun x y z => decide (1 ≤ z) && get c x y (z - 1))
  else c

/-- Modelled from the spec: `Cube::SortPredicate`, the strict total order on
masks ("a total order"). -/
def SortPredicate (a b : Cube) : Bool := decide (a < b)

/-- Modelled from the spec: the number of occupied cells inside the 3×3×3
volume. -/
def count (c : Cube) : Nat :=
  ((List.range 27).filter (fun i => Nat.testBit c i)).length

end Cube

/-- `PieceStore`, a `std::vector<Cube>`. -/
abbrev PieceStore := List Cube

/-- `ColumnStore`, a `std::vector<PieceStore>`. -/
abbrev ColumnStore := List PieceStore

/-- `Somato::Solution`, an array of `CUBE_PIECE_COUNT` cubes. -/
abbrev Solution := List Cube

/-- The ways in which the C++ code can leave defined behaviour. -/
inductive Fault where
  /-- an iterator or index is used outside its container -/
  | out_of_range
  /-- a loop of the model ran longer than the bound given to it -/
  | out_of_fuel
  deriving DecidableEq, Repr

/-! ## The piece table -/

/-- The table `cube_piece_data[CUBE_PIECE_COUNT][3][3][3]`. -/
def cube_piece_data : List (List (List (List Bool))) :=
  let o := false
  let l := true
  [ [ -- Piece #6
      [ [l,l,o], [o,o,o], [o,o,o] ],
      [ [o,l,o], [o,l,o], [o,o,o] ],
      [ [o,o,o], [o,o,o], [o,o,o] ] ],
    [ -- Piece #7
      [ [l,l,o], [o,l,o], [o,o,o] ],
      [ [o,l,o], [o,o,o], [o,o,o] ],
      [ [o,o,o], [o,o,o], [o,o,o] ] ],
    [ -- Piece #5
      [ [l,l,o], [l,o,o], [o,o,o] ],
      [ [o,l,o], [o,o,o], [o,o,o] ],
      [ [o,o,o], [o,o,o], [o,o,o] ] ],
    [ -- Piece #4
      [ [l,o,o], [l,o,o], [o,o,o] ],
      [ [o,o,o], [l,o,o], [l,o,o] ],
      [ [o,o,o], [o,o,o], [o,o,o] ] ],
    [ -- Piece #3
      [ [l,o,o], [l,o,o], [l,o,o] ],
      [ [o,o,o], [l,o,o], [o,o,o] ],
      [ [o,o,o], [o,o,o], [o,o,o] ] ],
    [ -- Piece #2
      [ [l,o,o], [l,o,o], [l,o,o] ],
      [ [l,o,o], [o,o,o], [o,o,o] ],
      [ [o,o,o], [o,o,o], [o,o,o] ] ],
    [ -- Piece #1
      [ [l,o,o], [l,o,o], [o,o,o] ],
      [ [l,o,o], [o,o,o], [o,o,o] ],
      [ [o,o,o], [o,o,o], [o,o,o] ] ] ]

/-! ## Placement generator -/

/-- The loop of `compute_rotations`, entered with loop counter `i` and
`remaining = 5 - i` face changes still to come: four pushes (the cube and its
three successive turns about Z), then `break` when `i == 5`, else the cube is
turned about `AXIS_X + i % 2`. -/
def compute_rotations_loop : Nat → Nat → Cube → PieceStore → PieceStore
  | remaining, i, cube, store =>
    let temp0 := cube
    let temp1 := Cube.rotate temp0 Cube.AXIS_Z
    let temp2 := Cube.rotate temp1 Cube.AXIS_Z
    let temp3 := Cube.rotate temp2 Cube.AXIS_Z
    let store1 := store ++ [temp0, temp1, temp2, temp3]
    match remaining with
    | 0 => store1
    | r + 1 => compute_rotations_loop r (i + 1) (Cube.rotate cube (Cube.AXIS_X + i % 2)) store1

/-- `compute_rotations(cube, store)`. -/
def compute_rotations (cube : Cube) (store : PieceStore) : PieceStore :=
  compute_rotations_loop 5 0 cube store

/-- One loop `for (Cube c = start; c != Cube(); c.shift(axis)) body(c)` of
`shuffle_cube_piece`, run for at most `fuel` iterations. -/
def shift_loop (axis : Nat) (body : Cube → PieceStore → Except Fault PieceStore) :
    Nat → Cube → PieceStore → Except Fault PieceStore
  | 0, c, store => if c = Cube.empty then .ok store else .error Fault.out_of_fuel
  | fuel + 1, c, store =>
    if c = Cube.empty then .ok store
    else
      match body c store with
      | .error e => .error e
      | .ok store1 => shift_loop axis body fuel (Cube.shift c axis) store1

/-- `shuffle_cube_piece(cube, store)`.  `g_return_if_fail` returns from the
function, leaving the store as it is, when its condition is false. -/
def shuffle_cube_piece (cube : Cube) (store : PieceStore) : Except Fault PieceStore :=
  if Cube.get cube 0 0 0 = false then .ok store
  else
    shift_loop Cube.AXIS_Z (fun z store1 =>
      shift_loop Cube.AXIS_Y (fun y store2 =>
        shift_loop Cube.AXIS_X (fun x store3 => .ok (compute_rotations x store3))
          Cube.N y store2)
        Cube.N z store1)
      Cube.N cube store

/-! ## Canonicalizer -/

/-- `std::min_element` over a non-empty range whose first element is `m`:
the first smallest element by the predicate. -/
def min_element (m : Cube) : List Cube → Cube
  | [] => m
  | x :: xs => if Cube.SortPredicate x m then min_element x xs else min_element m xs

/-- The loop of `filter_rotations`: `groups` times, the minimum of the next 24
elements is written to the destination and the source advances by 24. -/
def filter_rotations_loop : Nat → List Cube → Except Fault (List Cube)
  | 0, _ => .ok []
  | groups + 1, p =>
    match p.take 24 with
    | [] => .error Fault.out_of_range
    | x :: xs =>
      match filter_rotations_loop groups (p.drop 24) with
      | .error e => .error e
      | .ok dest => .ok (min_element x xs :: dest)

/-- `filter_rotations(store)`. -/
def filter_rotations (store : PieceStore) : Except Fault PieceStore :=
  if store.length % 24 ≠ 0 then .ok store
  else filter_rotations_loop (store.length / 24) store

/-- Insertion of one element into a list sorted by `Cube::SortPredicate`. -/
def sort_insert (a : Cube) : List Cube → List Cube
  | [] => [a]
  | b :: l => if Cube.SortPredicate b a then b :: sort_insert a l else a :: b :: l

/-- `std::sort(store.begin(), store.end(), Cube::SortPredicate())`: the
ordered rearrangement of the store. -/
def sort : List Cube → List Cube
  | [] => []
  | a :: l => sort_insert a (sort l)

/-- `store.erase(std::unique(store.begin(), store.end()), store.end())`:
every run of equal neighbours is reduced to one element. -/
def unique : List Cube → List Cube
  | [] => []
  | x :: rest =>
    match rest with
    | [] => [x]
    | y :: _ => if x = y then unique rest else x :: unique rest

/-! ## The solver -/

/-- The state of `class PuzzleSolver`. -/
structure PuzzleSolver where
  /-- `columns_` -/
  columns_ : ColumnStore
  /-- `solutions_` -/
  solutions_ : List Solution
  /-- `state_` -/
  state_ : Solution
  deriving DecidableEq, Repr

namespace PuzzleSolver

/-- `PuzzleSolver::PuzzleSolver()`. -/
def new : PuzzleSolver :=
  { columns_ := List.replicate CUBE_PIECE_COUNT [],
    solutions_ := [],
    state_ := List.replicate CUBE_PIECE_COUNT Cube.empty }

/-- `PuzzleSolver::add_solution()`. -/
def add_solution (s : PuzzleSolver) : PuzzleSolver :=
  { s with solutions_ := s.solutions_ ++ [s.state_] }

/-- Modelled from the spec: `Util::Intersect<Cube>`, the bitwise AND. -/
def Intersect (a b : Cube) : Cube := a &&& b

/-- Modelled from the spec: `Util::DoesIntersect<Cube>(common)`, whether a
placement overlaps `common`. -/
def DoesIntersect (common c : Cube) : Bool := (c &&& common) != Cube.empty

/-- The body of the `for (;;)` loop of `recurse`, over the part of the column
from `row` on; `deeper cell` is what the source does with an accepted
cell after storing it in `state_[col]`.  Reading `*row` at the end of the
column and storing into `state_` outside its bounds are faults. -/
def recurse_rows (col : Nat) (cube : Cube)
    (deeper : Cube → PuzzleSolver → Except Fault PuzzleSolver) :
    List Cube → PuzzleSolver → Except Fault PuzzleSolver
  | [], _ => .error Fault.out_of_range
  | cell :: row, s =>
    if cell &&& cube = Cube.empty then
      if cell = Cube.empty then .ok s
      else if s.state_.length ≤ col then .error Fault.out_of_range
      else
        match deeper cell { s with state_ := s.state_.set col cell } with
        | .error e => .error e
        | .ok s1 => recurse_rows col cube deeper row s1
    else recurse_rows col cube deeper row s

/-- `PuzzleSolver::recurse(col, cube)`, with a bound `depth` on the nesting of
calls. -/
def recurse : Nat → Nat → Cube → PuzzleSolver → Except Fault PuzzleSolver
  | 0, _, _, _ => .error Fault.out_of_fuel
  | depth + 1, col, cube, s =>
    match s.columns_.get? col with
    | none => .error Fault.out_of_range
    | some column =>
      recurse_rows col cube
        (fun cell s1 =>
          if col < CUBE_PIECE_COUNT - 1 then recurse depth (col + 1) (cube ||| cell) s1
          else .ok (add_solution s1))
        column s

/-- The first loop of `execute` for one index `i`: the placements of piece
`i`, canonicalized for the anchor, sorted and made unique. -/
def fill_column (data : List (List (List (List Bool)))) (i : Nat) (store : PieceStore) :
    Except Fault PieceStore :=
  match shuffle_cube_piece (Cube.ofData (data.getD i [])) store with
  | .error e => .error e
  | .ok store1 =>
    match (if i = 0 then filter_rotations store1 else .ok store1) with
    | .error e => .error e
    | .ok store2 => .ok (unique (sort store2))

/-- The first loop of `execute`, from index `i` on, `n` iterations. -/
def fill_columns (data : List (List (List (List Bool)))) :
    Nat → Nat → ColumnStore → Except Fault ColumnStore
  | 0, _, columns => .ok columns
  | n + 1, i, columns =>
    match columns.get? i with
    | none => .error Fault.out_of_range
    | some store =>
      match fill_column data i store with
      | .error e => .error e
      | .ok store1 => fill_columns data n (i + 1) (columns.set i store1)

/-- The pruning step of `execute`: `common` is the AND of the anchor's
placements; when it is not empty, the placements that intersect it are
removed from the columns `1 .. CUBE_PIECE_COUNT - 1`. -/
def prune (columns : ColumnStore) : ColumnStore :=
  let common := (columns.getD 0 []).foldl Intersect Cube.full
  if common ≠ Cube.empty then
    columns.enum.map (fun ic =>
      if 1 ≤ ic.1 then ic.2.filter (fun c => !DoesIntersect common c) else ic.2)
  else columns

/-- The zero-termination loop of `execute`. -/
def terminate (columns : ColumnStore) : ColumnStore :=
  columns.map (fun store => store ++ [Cube.empty])

/-- `PuzzleSolver::execute()` on a given piece table. -/
def executeOn (data : List (List (List (List Bool)))) (s : PuzzleSolver) :
    Except Fault PuzzleSolver :=
  match fill_columns data CUBE_PIECE_COUNT 0 s.columns_ with
  | .error e => .error e
  | .ok columns =>
    recurse CUBE_PIECE_COUNT 0 Cube.empty { s with columns_ := terminate (prune columns) }

/-- `PuzzleSolver::execute()`. -/
def execute (s : PuzzleSolver) : Except Fault PuzzleSolver :=
  executeOn cube_piece_data s

end PuzzleSolver

open PuzzleSolver

/-! ## The search, as the specification describes it -/

/-- The placements of a column that the scan of `recurse` can reach: those
before the first empty cube. -/
def scanned (column : List Cube) : List Cube :=
  column.takeWhile (fun c => c != Cube.empty)

/-- The completions of a partial assignment that occupies `cube`: one
placement from the scanned part of each remaining column, in column order,
each disjoint from `cube` and from the placements chosen before it. -/
def extensions : List (List Cube) → Cube → List (List Cube)
  | [], _ => [[]]
  | column :: rest, cube =>
    ((scanned column).filter (fun cell => cell &&& cube = Cube.empty)).flatMap
      (fun cell => (extensions rest (cube ||| cell)).map (fun t => cell :: t))

/-- The solver state holds the columns `cols` and has the partial assignment
`p` in the first entries of `state_`. -/
def Holds (cols : ColumnStore) (p : List Cube) (s : PuzzleSolver) : Prop :=
  s.columns_ = cols ∧ s.state_.length = CUBE_PIECE_COUNT ∧ s.state_.take p.length = p

/-- Run from a state that holds `p`, the computation `f` returns normally, in
a state that still holds `p` and has the solutions `A` appended. -/
def Appends (cols : ColumnStore) (p : List Cube) (A : List Solution)
    (f : PuzzleSolver → Except Fault PuzzleSolver) : Prop :=
  ∀ s, Holds cols p s → ∃ s2, f s = .ok s2 ∧ Holds cols p s2 ∧ s2.solutions_ = s.solutions_ ++ A

/-- All ways to choose one cube from each column, in lexicographic order of
the chosen positions (first column most significant). -/
def tuples : List (List Cube) → List (List Cube)
  | [] => [[]]
  | column :: rest => column.flatMap (fun c => (tuples rest).map (fun t => c :: t))

/-- No two cubes of the list overlap. -/
def PairwiseDisjoint (t : List Cube) : Prop :=
  t.Pairwise (fun a b => a &&& b = Cube.empty)

instance instDecidablePairwiseDisjoint (t : List Cube) : Decidable (PairwiseDisjoint t) := by
  unfold PairwiseDisjoint; infer_instance

/-! ## Auxiliary notions for the cube model and the generator -/

namespace Cube

/-- The coordinate of a cell along an axis. -/
def coord (axis x y z : Nat) : Nat :=
  if axis = AXIS_X then x else if axis = AXIS_Y then y else z

/-- No cell of the mask has coordinate `k` along the axis. -/
def PlaneEmpty (axis k : Nat) (c : Cube) : Prop :=
  ∀ x y z, x < 3 → y < 3 → z < 3 → coord axis x y z = k → get c x y z = false

end Cube

/-- The positions visited by one loop of `shuffle_cube_piece`: the start and
its successive shifts, up to the first empty one. -/
def slides (axis : Nat) (c : Cube) : List Cube :=
  [c, Cube.shift c axis, Cube.shift (Cube.shift c axis) axis].takeWhile
    (fun x => x != Cube.empty)

/-- The 24 entries that `compute_rotations` appends for a cube. -/
def rotations (cube : Cube) : List Cube := compute_rotations cube []

/-- The entries that `shuffle_cube_piece` appends for a shape. -/
def placements (cube : Cube) : List Cube :=
  if Cube.get cube 0 0 0 = false then []
  else
    (slides Cube.AXIS_Z cube).flatMap (fun z =>
      (slides Cube.AXIS_Y z).flatMap (fun y =>
        (slides Cube.AXIS_X y).flatMap rotations))

/-! ## The pipeline of `execute` as a function of the piece table -/

/-- The list that the loop of `filter_rotations` writes: the minimum of each
of the first `k` consecutive groups of 24 elements. -/
def group_minima : Nat → List Cube → List Cube
  | 0, _ => []
  | k + 1, p => min_element (p.headD Cube.empty) (p.take 24).tail :: group_minima k (p.drop 24)

/-- The store that `filter_rotations` leaves. -/
def canonical (store : PieceStore) : PieceStore :=
  if store.length % 24 ≠ 0 then store else group_minima (store.length / 24) store

/-- The column that the first loop of `execute` builds for piece `i`. -/
def column (data : List (List (List (List Bool)))) (i : Nat) : PieceStore :=
  unique (sort (if i = 0 then canonical (placements (Cube.ofData (data.getD i [])))
    else placements (Cube.ofData (data.getD i []))))

/-- The columns that `execute` passes to `recurse`. -/
def prepared (data : List (List (List (List Bool)))) : ColumnStore :=
  terminate (prune ((List.range CUBE_PIECE_COUNT).map (column data)))

/-- The Solution Set that a fresh solver computes for a piece table: what
`solver.execute(); solver.result()` yields. -/
def solve (data : List (List (List (List Bool)))) : Except Fault (List Solution) :=
  match executeOn data new with
  | .error e => .error e
  | .ok s => .ok s.solutions_

/-! ## The search without the pruning step -/

/-- The variant of `execute` with the pruning step (the computation of
`common` and the `remove_if` loop over the columns 1 .. 6) skipped. -/
def PuzzleSolver.executeOn_without_pruning (data : List (List (List (List Bool))))
    (s : PuzzleSolver) : Except Fault PuzzleSolver :=
  match fill_columns data CUBE_PIECE_COUNT 0 s.columns_ with
  | .error e => .error e
  | .ok columns =>
    recurse CUBE_PIECE_COUNT 0 Cube.empty { s with columns_ := terminate columns }

/-! ## The background runner -/

/-- What a member function of `PuzzleThread` does to its environment. -/
inductive Event where
  /-- a `g_return_if_fail` check failed: a critical warning is logged and the
  function returns at once -/
  | return_if_fail
  /-- `Glib::Thread::create`: a joinable worker thread with this handle is
  started on `PuzzleThread::execute` -/
  | thread_create (handle : Nat)
  /-- `Glib::Thread::join` on the worker with this handle: the caller waits
  until the worker has finished -/
  | thread_join (handle : Nat)
  /-- `signal_exit_()`, the exit notification of the worker -/
  | signal_exit
  /-- `signal_done_()`, the completion signal for the controller -/
  | signal_done
  /-- `throw;` in the handler of `execute`: the caught exception leaves the
  function -/
  | rethrow
  /-- `thread_exit_.disconnect()` -/
  | disconnect
  deriving DecidableEq, Repr

/-- The state of `class PuzzleThread`: the result vector and the worker
handle (`none` is the null pointer). -/
structure PuzzleThread where
  /-- `solutions_` -/
  solutions_ : List Solution
  /-- `thread_` -/
  thread_ : Option Nat
  deriving DecidableEq, Repr

/-- `PuzzleThread::PuzzleThread()`. -/
def PuzzleThread.new : PuzzleThread :=
  { solutions_ := [], thread_ := none }

/-- `PuzzleThread::run()`; `handle` is what `Glib::Thread::create` returns. -/
def PuzzleThread.run (t : PuzzleThread) (handle : Nat) : PuzzleThread × List Event :=
  if t.thread_ ≠ none then (t, [Event.return_if_fail])
  else ({ t with thread_ := some handle }, [Event.thread_create handle])

/-- `PuzzleThread::swap_result(result)`: the new state, the caller's vector
after the call, and what the call did. -/
def PuzzleThread.swap_result (t : PuzzleThread) (result : List Solution) :
    PuzzleThread × List Solution × List Event :=
  if t.thread_ ≠ none then (t, result, [Event.return_if_fail])
  else ({ t with solutions_ := result }, t.solutions_, [])

/-- `PuzzleThread::execute()`, the body of the worker.  `body` is the outcome
of the statements `PuzzleSolver solver; solver.execute();` of the `try` block:
the solver, or the exception that they raise.  The function yields the new
state, what it did, and the exception that leaves it, if any. -/
def PuzzleThread.execute {ε : Type} (body : Except ε PuzzleSolver) (t : PuzzleThread) :
    PuzzleThread × List Event × Option ε :=
  match body with
  | .ok solver => ({ t with solutions_ := solver.solutions_ }, [Event.signal_exit], none)
  | .error e => (t, [Event.signal_exit, Event.rethrow], some e)

/-- `PuzzleThread::on_thread_exit()`, the handler of the exit notification,
statement by statement: `thread_->join(); thread_ = 0; signal_done_();`.
`slots` is what the emission of `signal_done_` does: the slots connected to
the signal (they are outside `puzzle.cc`) act on the runner as it is when the
signal is emitted, and `fun r => (r, [])` is the emission with no slot.
`none` when `thread_` is null, which the function dereferences. -/
def PuzzleThread.on_thread_exit (slots : PuzzleThread → PuzzleThread × List Event)
    (t : PuzzleThread) : Option (PuzzleThread × List Event) :=
  match t.thread_ with
  | none => none
  | some handle =>
    let joined := [Event.thread_join handle]
    let reset := { t with thread_ := none }
    let done := slots reset
    some (done.1, joined ++ [Event.signal_done] ++ done.2)

/-- `PuzzleThread::~PuzzleThread()`: what the destructor does. -/
def PuzzleThread.destroy (t : PuzzleThread) : List Event :=
  Event.disconnect ::
    (match t.thread_ with
     | none => []
     | some handle => [Event.thread_join handle])

/-- A completed run: `run`, then the body of the worker, then the handler of
its exit notification, in which the emission of `signal_done_` leaves the
runner alone; the state that the controller sees afterwards. -/
def PuzzleThread.completed_run {ε : Type} (t : PuzzleThread) (handle : Nat)
    (body : Except ε PuzzleSolver) : Option PuzzleThread :=
  match PuzzleThread.on_thread_exit (fun r => (r, []))
      (PuzzleThread.execute body (PuzzleThread.run t handle).1).1 with
  | none => none
  | some r => some r.1

/-- A call of a member function of a runner: `run` and `swap_result` by the
controller, `execute` by the worker thread, and `on_thread_exit` by the main
loop when it delivers the exit notification. -/
inductive Call where
  /-- `run()`; `handle` is the thread that `Glib::Thread::create` would start -/
  | run (handle : Nat)
  /-- `swap_result(result)` -/
  | swap_result (result : List Solution)
  /-- the worker runs `execute()`, and its `try` block has this outcome -/
  | execute (body : Except Fault PuzzleSolver)
  /-- the exit notification is delivered: `on_thread_exit()` -/
  | on_thread_exit

/-- A runner and the worker threads around it: the handles of the threads
created and not yet joined, each with the flag whether its body has run and
emitted the exit notification. -/
structure World where
  /-- the `PuzzleThread` object -/
  runner : PuzzleThread
  /-- the threads created and not joined -/
  workers : List (Nat × Bool)
  deriving DecidableEq, Repr

/-- A fresh runner; no thread exists. -/
def World.new : World :=
  { runner := PuzzleThread.new, workers := [] }

/-- One call on the runner and what it does to the threads: `thread_create`
adds a worker, the body of a worker that has not run yet runs and emits the
exit notification, and a notification that has been emitted is delivered, upon
which `thread_join` removes the worker.  What the slots of `signal_done_` do
with the runner are calls of their own, which follow the delivery.  `none`
when the call cannot happen in this state, or dereferences a null `thread_`. -/
def World.step (w : World) : Call → Option World
  | .run handle =>
    let r := PuzzleThread.run w.runner handle
    some { runner := r.1,
           workers := if Event.thread_create handle ∈ r.2 then w.workers ++ [(handle, false)]
                      else w.workers }
  | .swap_result result =>
    some { w with runner := (PuzzleThread.swap_result w.runner result).1 }
  | .execute body =>
    match w.workers.find? (fun x => !x.2) with
    | none => none
    | some x =>
      some { runner := (PuzzleThread.execute body w.runner).1,
             workers := w.workers.map (fun y => if y = x then (y.1, true) else y) }
  | .on_thread_exit =>
    if w.workers.any (fun x => x.2) then
      match PuzzleThread.on_thread_exit (fun r => (r, [])) w.runner with
      | none => none
      | some r =>
        some { runner := r.1,
               workers := w.workers.filter (fun x => decide (Event.thread_join x.1 ∉ r.2)) }
    else none

/-- The state after a sequence of calls on a fresh runner; the list holds the
latest call first. -/
def World.run : List Call → Option World
  | [] => some World.new
  | call :: calls =>
    match World.run calls with
    | none => none
    | some w => World.step w call

/-! ## A fast form of the search, used to evaluate it -/

/-- The width of one field of a packed column, `2 ^ 28`: 27 cell bits and a
guard bit. -/
def FIELD : Nat := 268435456

/-- The full cube mask, `2 ^ 27 - 1`, as a number. -/
def FULL : Nat := 134217727

/-- The guard bit of a field, `2 ^ 27`. -/
def GUARD : Nat := 134217728

/-- The width of the low field that precedes the rows, `2 ^ 64`. -/
def SALT : Nat := 18446744073709551616

/-- The number whose fields of 28 bits, from the lowest up, are the values of
`f` on the list. -/
def pack (f : Nat → Nat) : List Nat → Nat
  | [] => 0
  | x :: xs => f x + FIELD * pack f xs

/-- A column prepared for the fast search: the rows packed above a low field,
the three masks used to test all rows at once, and the number of rows. -/
structure Packed where
  /-- the low field is the full cube, the rows follow -/
  P : Nat
  /-- a one in every field -/
  ones : Nat
  /-- the low field is zero, every other field is the full cube -/
  K : Nat
  /-- the low field is the full cube, every other field is the guard bit -/
  G : Nat
  /-- the number of rows -/
  n : Nat
  deriving DecidableEq

/-- The packed form of a column. -/
def Packed.ofColumn (c : List Nat) : Packed :=
  { P := FULL + SALT * pack (fun x => x) c,
    ones := 1 + SALT * pack (fun _ => 1) c,
    K := SALT * pack (fun _ => FULL) c,
    G := FULL + SALT * pack (fun _ => GUARD) c,
    n := c.length }

/-- The rows of a packed column that do not overlap `cube`, as one number:
the guard bit of a field is set when its row is disjoint from `cube`; the low
field is the complement of `cube`. -/
def flags (col : Packed) (cube : Nat) : Nat :=
  col.G - (((col.P &&& (cube * col.ones)) + col.K) &&& col.G)

/-- The scan of one packed column: `F` holds the rows still to visit that do
not overlap the occupied cells; the lowest of them is visited, its
continuations `k` are listed with the row in front, and the scan goes on
with that row removed from `F`. -/
def fast_rows (P : Nat) (k : Nat → List (List Nat)) : Nat → Nat → List (List Nat)
  | 0, _ => []
  | fuel + 1, F =>
    cond (Nat.ble SALT F)
      ((k ((P / ((F - (F &&& (F - SALT))) / GUARD)) &&& FULL)).map
          (fun t => ((P / ((F - (F &&& (F - SALT))) / GUARD)) &&& FULL) :: t) ++
        fast_rows P k fuel (F &&& (F - SALT)))
      []

/-- The search over packed columns; it lists what `extensions` lists. -/
def fast_extensions : List Packed → Nat → List (List Nat)
  | [], _ => [[]]
  | col :: rest, cube =>
    fast_rows col.P (fun x => fast_extensions rest (cube ||| x)) col.n (flags col cube)

/-! ## The built-in table, evaluated -/

/-- The columns of the built-in table after sorting and duplicate removal,
before the pruning step (computed by `column`, see `column_eq_raw_table`). -/
def raw_table : List (List Nat) := [
  [
    531, 1050, 8214, 9264],
  [
    523, 1043, 1046, 2086, 4121, 4184, 5633, 8218, 8242, 8344, 8368, 9730, 11266, 12808, 13328,
    16436, 16688, 19460, 25616, 26656, 32968, 45064, 65744, 65936, 77840, 90128, 102464, 106624,
    131488, 155680, 204928, 213248, 267776, 534016, 535552, 1068032, 2109952, 2142208, 2884096,
    4207616, 4219904, 4272128, 4284416, 4981760, 5768192, 6557696, 6823936, 8415232, 8544256,
    9963520, 13115392, 13647872, 16879616, 23072768, 33660928, 33759232, 39854080, 46145536,
    52461568, 54591488, 67321856, 79708160, 104923136, 109182976],
  [
    537, 1035, 1074, 1554, 2070, 3108, 4122, 4296, 4611, 5640, 8211, 8244, 8280, 8592, 9222,
    9240, 9729, 11280, 12297, 12432, 12816, 13314, 16422, 16560, 18480, 19458, 24594, 24864,
    25632, 26628, 32976, 36888, 45120, 65688, 65952, 73776, 73920, 77832, 90240, 98376, 102528,
    106512, 131376, 147840, 155664, 196752, 205056, 213024, 274944, 529920, 549888, 795648,
    1059840, 1591296, 2110464, 2199552, 2360832, 2887680, 4204032, 4220928, 4239360, 4399104,
    4721664, 4730880, 4981248, 5775360, 6296064, 6365184, 6561792, 6816768, 8408064, 8478720,
    9461760, 9962496, 12592128, 12730368, 13123584, 13633536, 16883712, 18886656, 23101440,
    33632256, 33767424, 37773312, 37847040, 39849984, 46202880, 50368512, 52494336, 54534144,
    67264512, 75694080, 79699968, 100737024, 104988672, 109068288],
  [
    30, 51, 90, 153, 180, 240, 306, 408, 1542, 3075, 4680, 9360, 12336, 15360, 18720, 24600,
    26112, 36873, 46080, 73746, 78336, 92160, 98688, 122880, 147492, 156672, 196800, 208896,
    263682, 266760, 525825, 527364, 533520, 789504, 1051650, 1067040, 1574400, 2101761, 2109456,
    2134080, 2396160, 4203522, 4206600, 4218912, 4268160, 4792320, 6316032, 7864320, 8407044,
    8413200, 8536320, 9584640, 12595200, 13369344, 16814088, 16875648, 18878976, 23592960,
    33628176, 33652800, 33751296, 37757952, 40108032, 47185920, 50528256, 62914560, 67256352,
    67305600, 75515904, 80216064, 100761600, 106954752],
  [
    23, 58, 89, 154, 178, 184, 308, 464, 1031, 3586, 4169, 8248, 8338, 11776, 16676, 28688,
    29696, 37384, 45568, 65984, 74768, 78848, 91136, 94208, 149536, 157696, 229504, 237568,
    263681, 266753, 525826, 527362, 527872, 533506, 1051652, 1067012, 1836032, 2101768, 2109448,
    2134024, 2134528, 4203536, 4206608, 4218896, 4222976, 4268048, 4269056, 6029312, 8407072,
    8413216, 8536096, 8538112, 14688256, 15204352, 16814144, 16875584, 19140608, 23330816,
    33628288, 33652864, 33751168, 33783808, 38281216, 40370176, 46661632, 48234496, 67256576,
    67305728, 76562432, 80740352, 117506048, 121634816],
  [
    15, 39, 57, 60, 75, 120, 147, 150, 201, 210, 294, 312, 402, 420, 456, 480, 519, 585, 1170,
    2055, 2340, 3585, 3588, 4152, 7680, 16440, 19968, 28680, 28704, 29184, 30720, 32841, 33216,
    37377, 37440, 38400, 61440, 65682, 74754, 74880, 75264, 76800, 102912, 107520, 131364,
    131520, 149508, 149760, 150528, 159744, 205824, 215040, 229440, 229632, 233472, 245760,
    262659, 262665, 265728, 299520, 525315, 525318, 525330, 599040, 786945, 787458, 1050630,
    1050660, 1052160, 1198080, 1573890, 1574916, 1835520, 1837056, 2101257, 2101272, 2101320,
    2125824, 2359809, 2363400, 3932160, 4202514, 4202520, 4202544, 4202640, 4719618, 4726800,
    6295560, 6299664, 8405028, 8405040, 8405280, 8417280, 9439236, 9453600, 10223616, 12591120,
    12599328, 14684160, 14696448, 14942208, 15728640, 16810056, 16810176, 16814592, 17006592,
    18878472, 18907200, 19137024, 19169280, 19660800, 31457280, 33620112, 33620160, 33620352,
    33629184, 37756944, 37814400, 38274048, 38338560, 38535168, 39321600, 50364480, 50397312,
    52690944, 55050240, 67240224, 67240320, 67258368, 67338240, 75513888, 75628800, 76548096,
    76677120, 77070336, 81788928, 100728960, 100794624, 105381888, 110100480, 117473280,
    117571584, 119537664, 125829120],
  [
    11, 19, 22, 25, 26, 38, 50, 52, 88, 152, 176, 200, 208, 304, 400, 416, 515, 521, 1027, 1030,
    1042, 1537, 1538, 2054, 2084, 3074, 3076, 4105, 4120, 4168, 4609, 4616, 5632, 8210, 8216,
    8240, 8336, 9218, 9232, 9728, 11264, 12296, 12304, 12800, 13312, 16420, 16432, 16672, 18436,
    18464, 19456, 24592, 24608, 25600, 26624, 32840, 32960, 36872, 36928, 45056, 65680, 65728,
    65920, 73744, 73856, 77824, 90112, 98368, 98432, 102400, 106496, 131360, 131456, 147488,
    147712, 155648, 196736, 196864, 204800, 212992, 263680, 266752, 525824, 527360, 533504,
    786944, 787456, 1051648, 1067008, 1573888, 1574912, 2101760, 2109440, 2134016, 2359808,
    2363392, 2883584, 4203520, 4206592, 4218880, 4268032, 4719616, 4726784, 4980736, 5767168,
    6295552, 6299648, 6553600, 6815744, 8407040, 8413184, 8536064, 9439232, 9453568, 9961472,
    12591104, 12599296, 13107200, 13631488, 16814080, 16875520, 18878464, 18907136, 23068672,
    33628160, 33652736, 33751040, 37756928, 37814272, 39845888, 46137344, 50364416, 50397184,
    52428800, 54525952, 67256320, 67305472, 75513856, 75628544, 79691776, 100728832, 100794368,
    104857600, 109051904]]

/-- The columns of the built-in table as `recurse` scans them: pruned, without
the sentinels. -/
def column_table : List (List Nat) := [
  [
    531, 1050, 8214, 9264],
  [
    523, 2086, 5633, 9730, 11266, 12808, 19460, 26656, 32968, 45064, 102464, 106624, 131488,
    155680, 204928, 213248, 267776, 534016, 535552, 1068032, 2109952, 2142208, 2884096, 4207616,
    4219904, 4272128, 4284416, 4981760, 5768192, 6557696, 6823936, 8415232, 8544256, 9963520,
    13115392, 13647872, 16879616, 23072768, 33660928, 33759232, 39854080, 46145536, 52461568,
    54591488, 67321856, 79708160, 104923136, 109182976],
  [
    1035, 3108, 4296, 4611, 5640, 9222, 9729, 12297, 13314, 16422, 19458, 24864, 25632, 26628,
    45120, 65952, 73920, 77832, 90240, 98376, 102528, 147840, 205056, 213024, 274944, 529920,
    549888, 795648, 1059840, 1591296, 2110464, 2199552, 2360832, 2887680, 4204032, 4220928,
    4239360, 4399104, 4721664, 4730880, 4981248, 5775360, 6296064, 6365184, 6561792, 6816768,
    8408064, 8478720, 9461760, 9962496, 12592128, 12730368, 13123584, 13633536, 16883712,
    18886656, 23101440, 33632256, 33767424, 37773312, 37847040, 39849984, 46202880, 50368512,
    52494336, 54534144, 67264512, 75694080, 79699968, 100737024, 104988672, 109068288],
  [
    1542, 3075, 4680, 15360, 18720, 26112, 36873, 46080, 78336, 92160, 98688, 122880, 147492,
    156672, 196800, 208896, 263682, 266760, 525825, 527364, 789504, 1051650, 1067040, 1574400,
    2101761, 2134080, 2396160, 4203522, 4206600, 4218912, 4268160, 4792320, 6316032, 7864320,
    8407044, 8536320, 9584640, 12595200, 13369344, 16814088, 16875648, 18878976, 23592960,
    33652800, 33751296, 37757952, 40108032, 47185920, 50528256, 62914560, 67256352, 67305600,
    75515904, 80216064, 100761600, 106954752],
  [
    1031, 3586, 4169, 11776, 16676, 29696, 37384, 45568, 65984, 78848, 91136, 94208, 149536,
    157696, 229504, 237568, 263681, 266753, 525826, 527362, 527872, 533506, 1051652, 1067012,
    1836032, 2101768, 2109448, 2134024, 2134528, 4222976, 4269056, 6029312, 8407072, 8413216,
    8536096, 8538112, 14688256, 15204352, 16814144, 16875584, 19140608, 23330816, 33628288,
    33652864, 33751168, 33783808, 38281216, 40370176, 46661632, 48234496, 67256576, 67305728,
    76562432, 80740352, 117506048, 121634816],
  [
    15, 39, 75, 201, 294, 420, 456, 480, 519, 585, 2055, 2340, 3585, 3588, 7680, 19968, 28680,
    28704, 29184, 30720, 32841, 33216, 37377, 37440, 38400, 61440, 74754, 74880, 75264, 76800,
    102912, 107520, 131364, 131520, 149508, 149760, 150528, 159744, 205824, 215040, 229440,
    229632, 233472, 245760, 262659, 262665, 265728, 299520, 525315, 525318, 599040, 786945,
    787458, 1050630, 1050660, 1052160, 1198080, 1573890, 1574916, 1835520, 1837056, 2101257,
    2101320, 2125824, 2359809, 2363400, 3932160, 4719618, 6295560, 8405028, 8405280, 8417280,
    9439236, 9453600, 10223616, 12599328, 14684160, 14696448, 14942208, 15728640, 16810056,
    16810176, 16814592, 17006592, 18878472, 18907200, 19137024, 19169280, 19660800, 31457280,
    33620160, 33620352, 33629184, 37814400, 38274048, 38338560, 38535168, 39321600, 50364480,
    50397312, 52690944, 55050240, 67240224, 67240320, 67258368, 67338240, 75513888, 75628800,
    76548096, 76677120, 77070336, 81788928, 100728960, 100794624, 105381888, 110100480,
    117473280, 117571584, 119537664, 125829120],
  [
    11, 38, 200, 416, 515, 521, 1027, 1030, 1537, 1538, 2054, 2084, 3074, 3076, 4105, 4168, 4609,
    4616, 5632, 9218, 9728, 11264, 12296, 12800, 13312, 16420, 16672, 18436, 18464, 19456, 24608,
    25600, 26624, 32840, 32960, 36872, 36928, 45056, 65728, 65920, 73856, 77824, 90112, 98368,
    98432, 102400, 106496, 131360, 131456, 147488, 147712, 155648, 196736, 196864, 204800,
    212992, 263680, 266752, 525824, 527360, 533504, 786944, 787456, 1051648, 1067008, 1573888,
    1574912, 2101760, 2109440, 2134016, 2359808, 2363392, 2883584, 4203520, 4206592, 4218880,
    4268032, 4719616, 4726784, 4980736, 5767168, 6295552, 6299648, 6553600, 6815744, 8407040,
    8413184, 8536064, 9439232, 9453568, 9961472, 12591104, 12599296, 13107200, 13631488,
    16814080, 16875520, 18878464, 18907136, 23068672, 33628160, 33652736, 33751040, 37756928,
    37814272, 39845888, 46137344, 50364416, 50397184, 52428800, 54525952, 67256320, 67305472,
    75513856, 75628544, 79691776, 100728832, 100794368, 104857600, 109051904]]

/-- The packed form of `column_table`. -/
def packed_table : List Packed := [
  { P := 3305505667225281847107637460070720186721419395071,
    ones := 356811924505717971001247540854446017682079745,
    K := 47890485473653064570839359097823382337490551872421888,
    G := 47890485830464989076557330099070923191936569688719359,
    n := 4 },
  { P := 2881037728113648279391234973217364806193090965238053884728639767765080603660740619743581832375011168874756100640724876522669999696666703343828797362461610278942466989068550913192430559949539555124932453200032323487915843108855457899092295354621785882773819308260858395802601475365602099100667597080970661191374180761716714913088826110766895982225669329734068706055316890666603197011974342931336497113810578218811580911452159,
    ones := 26387243085702217531219701212121812810595538032604612696459695505323696713191899474505248496241081470175859475174379700439268350805159189737157549946045261774692895554184506800191315316968323377177554650623630933125296375985197283845365633554485467499678374207951872910259268686861347611362236070337221770590015817001358698531479689458691550846954239945872134715040212811389235917892283005665138256922411752707063809,
    K := 3541635788759417835899859834310134562557614631078243005834161277836662972081987662280588902735645998948822149029318172027899499588107086319683013794647167674519266564331049841337721506983772894685735060624982876330966285786070565084298794819597970102339204617246725707407874023832804840553918698998074029543507371851970320428573441865811440348783122958547560954090490077140942957166260855861102979984868120806428201153724416,
    G := 3541635815146660921602077365529835774679427441673781038438773974296358477405684375472488377240894495189903619205177647202279200027375437124842203531804717620564528339023945395522228307175088211654058437802537526954597218911366941069496078664963603656824672116925099915359746934092073527415266310360310099880729142441986137429932140397291129807474673805501800899962624792181155768555496773753385985650006377728839953995005951,
    n := 48 },
  { P := 56396168609969724988007913210694290568448884096795182612928521480727482978049932177801834023385194580702531019525354608869233782310185282388021386821600339906228184697160279192660767248759112421785681675184896521026897474292289140066207372248297463889072648840701017984586333353226420593138608207285954054205826168716858811875801718779828437838228680208006711495327729296635073901845849894282122299442989705263989659216773394700886188210443413256985790443143970405164034948996707664718594623831795450997871689448595365243324612999719303818592075358187031710893008871031743956475809411105184172862131737213239924788105310109695,
    ones := 517072099067219791071889638417958676166672940437373645529835270159828671123626086765543727974443431405814582750729995797218418747498522683780054764885136837078613334368756757568745584443963734431081642693550166438345745553087737104171239594377418983816683601025617071202021416503594581755056286632641802316304654887046371556929286560252927118635377417991768240627556400588999969232090562372951988351518690726936582847117485537721914921047443171344061922186509324845687373018272046135281983895828198837371414249346696619618944488995618946590599279775123564642387308910894367301855310227602926670533398314350263540908033,
    K := 69400241831921060567083920863310289495019915217910676552718200645283130947643629363576061087836111453368847880256387626622209086823438650474898718478402482356660802050865511816767078585355371305771416233754460899826451608255793905695425997129739156134525057607833192069132472328432752092679325548893666712077745818458805733968499941848796422959899698829984037967819673651357037073401130739849342156671315667385405822887297410828408178790372281619471526143124151645092784959113603499916682382548665630456033875322724855243838335452168487969524634899254155990438792455667087516358142621628717476266670599337723854311647571083264,
    G := 69400242348993159634303711935199927912978591384583616990091846175118401107472300487202147853379839427812279286070970377352204884041857397973421402258457247241797639129478846185523836154100955749735150664836103593376618046601539458783163101300978750511944041424516793094749543530454168596273907303949953344719548134763460621014871498778082983212826817465361455959587914278913437662401099971939904529623304018904096549823880257945893716512287202666914697487186073831602109804800976518188728517830649526284232712694139104590534955071112976965143581489853435765562357098054396427252509923484027703869597269871122168661911246209023,
    n := 72 },
  { P := 76087467909087937194227362840243672152550608318858643488154646833577382116138744883489387238121861893729357261722169389388773501897680888301755114714279790187306495456675581305116353945922010263836622035978000949815962817430543738504079491129611904542924956725561437556017560206548945464493789437609373634749746917747117119762098884075270941764528204553325501412624839566785274378047130843265089912175919182620840795409730779984961843074653417756247399252171716653398398483137729800127381503,
    ones := 711398666283671263765574347775743264080227508238010269250774514618808497797756988308734468054295687038086458857220823181893721183344690356035919635421635379418039814218625760214775942966971297271192428692390385978496879807759959772833775222806938671607735888067851865580743245619569478004262682962048395042969540976225676566019683809042085025569331763896868814664118002306135223779966529741276526140616203639835310779721222576777481245490974394559099624192357142610244322822975389697,
    K := 95482311979425894237832849807967766640408881798579513341496948341664748022699448669163914548801679700155326937295196424542682812800274597105961863820960587248271886659926230599674258879308523593980750358702219802686522084389738762321185659234065868331589746512793499170956893397661322056308633618087762846665439120062371347728327398108330699472652590259138394721402186729310227890383455757952033417049589231907822067192780187916156517554927582252923518725652386453361839923953980181936340992,
    G := 95482312690824560521504113573542114416152145878807021579507217592439262641507946466920902857536147754451013975381655281763505994693995780450652219856880222669907266077966044818300019094084466560952047629894648495076908062886618570081145432067841091138528418120529387238808758978404567675878111622350445808713834163031912323954003964128014508514737615828470158618271001393428230196518679537918563158326115372524025707028090967637379094332408827743897913284752010645718982534198303005045948415,
    n := 56 },
  { P := 86530845865117834763966929901162126537040628663042939014232820049388892316325287338514876273723429887151729587291202332129699189385460784872796699638340550720795249551715120753563591717074714119295944494101448133558239246430200625686657000225082442916433935828405479740565747650765184684282169651289904726772762657009392939169331332481054600151677345478935051581624370373681551750334222574552192208348720427334193329552454402983430020417028620327117624770252933386135431502904994530389393407,
    ones := 711398666283671263765574347775743264080227508238010269250774514618808497797756988308734468054295687038086458857220823181893721183344690356035919635421635379418039814218625760214775942966971297271192428692390385978496879807759959772833775222806938671607735888067851865580743245619569478004262682962048395042969540976225676566019683809042085025569331763896868814664118002306135223779966529741276526140616203639835310779721222576777481245490974394559099624192357142610244322822975389697,
    K := 95482311979425894237832849807967766640408881798579513341496948341664748022699448669163914548801679700155326937295196424542682812800274597105961863820960587248271886659926230599674258879308523593980750358702219802686522084389738762321185659234065868331589746512793499170956893397661322056308633618087762846665439120062371347728327398108330699472652590259138394721402186729310227890383455757952033417049589231907822067192780187916156517554927582252923518725652386453361839923953980181936340992,
    G := 95482312690824560521504113573542114416152145878807021579507217592439262641507946466920902857536147754451013975381655281763505994693995780450652219856880222669907266077966044818300019094084466560952047629894648495076908062886618570081145432067841091138528418120529387238808758978404567675878111622350445808713834163031912323954003964128014508514737615828470158618271001393428230196518679537918563158326115372524025707028090967637379094332408827743897913284752010645718982534198303005045948415,
    n := 56 },
  { P := 24983106294344521001144293898659888034247222914777352386360642066311061395025433802875390991447891946322523345724558776355111423043847893346648774873943748524359926157714145660450410425990732860822268545080080496081352135098692154276447924920267129046513034130269634108343401387108861317746963046775560669320765245192792476289607531648575743131952754736668715272092378710551326764924869053831596999039459306859676905135200580702669000169230180871545207900304890612489297271091882317042485497626619684965557446092904309753446115601508954163380654975385751311685117789570898600453898029055929798159789513896807399902677715045142660996593244160818842581728557610537974331867700983498621181198573191681526994951289555285036586784458446986934881421463825714824013236774689305795901572441547004003543799833569069748923436303994181010079332625510815217167272848731420638066221914814195592207782156113901974619436531126219700549056538309032907422767226602603790133472548484760318282871399760698691148796256459525215813217877721545497903103,
    ones := 198547890178346532047721849834914290120658808926486741464241474626500584584729690249572980251715777539940093105588299804003533001293165934213250503008906394333277573827157523141774261521301841080933678656628431613716832399723391492856248816998371720965271443933188164743957526654435716883931910960678574297868315176250220594144819694448586938154282144146587793723222208247504962604237312529043903437006679122395567691605525259400221610122416848207908052195410903627895301609771699997044183005808001664679294061536153316491310262948062441547221133842089516037911656944144687463626333364773082316980885019782890690214670076452341142531239810563956759676754378540401875572355725777246150169257008571569725461580708593250988325062534953014258128128703634760123120213020412631333773597211776219834520288008179492722972320289483599115905263706904293644961487480735981836422260634318739602526829251172654899666088231762241655208035799935717145004723802361512618556990734812379910712696852034417942998751974286526505160681843589121,
    K := 26648646520383296149777882213077521259813381076640360534967142503497082427133657934711748130001179511448411012800432597487899699403056792323934015795462077003178196419155773627038840128492695190798141387041081574768015266330829034902302453963960415089036979142720455335235516212100276387776863911908664619860506208275908991394707208213723857200957324704041368479475751906900769501960732656236894202522524155626287890441930580957783127806910981112969442190665411315952161176042998562529176961611577781845471032903980626462975278744661259958538383750648031773138548421846865910493321641564104979369067889803609621930074159716349451979126033865804864410099227424990317405858409549257286595218340969295605373467388534435515193493430574251625524548709365314141915435139355587979708070550378141858841629191843208921290385513170470677116014042076288499567275852203339769197881634539839422956034478609505825188595421448577279386740277201998701317463433015759455944537316386577403076321121520114902077308053825500034247920486816701208330240,
    G := 26648646718931186328124414260799371094727671197299169461453883967738557053634242519441438379574159763164188552740525703076199503406589793617099950008712580012084590752433347454196363270266956712099982467974760231396446880047661434625693946820209232087408700107991899268423680956057803042212580795840575580539080506144224167644927802358543551649544262858323512626063545630122977749465695260474206731566427592632967012837498272563308387207132591235386290398573463511363064803938300172300876958655760787653472697583274687999128595235971522906600825297869165615228064459758522854638009105190438344142150206784494641712964849931019528431467176397044674974055987101744695946260285121613012372464491138552613945037113996016223786744418899314160477562967493442845550195262475801000120701884151739070617849026363496929469878236142790966599613157981552206471569497164827249933863470962100057274774081136335076361250321114665511148981932410034501253180578020483258306049934943568137888701032232811754111725996824252008534446991977383186137087,
    n := 120 },
  { P := 21652025456029278096368570264726365910347053449487326929258946612102625640730429322599166743636395379019438481996367059957467074248003245513842606836414165389633212607122557884803592105863041515346759893531780667322470437238912594549443415638688550465252502657122644514996604852682841469974065528765049278334063060635862625889527213867896600450437761718498238022362977709037240194221197056494748896253750798931356402474654360580400350016116324677945502402415011054065283289328626832774340819472416658184717785466385706975563112274743309889234136973721974543114902863847172672450666900441354230849315909563703731206084140198967215495482308942554485169801357249421628412966324724124945064474534247983740067378822261349365675638622136082100819136124891579922856387807294686123591034106215054074457405906704832056673760387512133684189262542788592904723472762927326201378957756156770674495430211463171760078937572661900116067392172705192955187873035550346030137564755669053067829846759658777271229616513077579818353330609371359519703039,
    ones := 198547890178346532047721849834914290120658808926486741464241474626500584584729690249572980251715777539940093105588299804003533001293165934213250503008906394333277573827157523141774261521301841080933678656628431613716832399723391492856248816998371720965271443933188164743957526654435716883931910960678574297868315176250220594144819694448586938154282144146587793723222208247504962604237312529043903437006679122395567691605525259400221610122416848207908052195410903627895301609771699997044183005808001664679294061536153316491310262948062441547221133842089516037911656944144687463626333364773082316980885019782890690214670076452341142531239810563956759676754378540401875572355725777246150169257008571569725461580708593250988325062534953014258128128703634760123120213020412631333773597211776219834520288008179492722972320289483599115905263706904293644961487480735981836422260634318739602526829251172654899666088231762241655208035799935717145004723802361512618556990734812379910712696852034417942998751974286526505160681843589121,
    K := 26648646520383296149777882213077521259813381076640360534967142503497082427133657934711748130001179511448411012800432597487899699403056792323934015795462077003178196419155773627038840128492695190798141387041081574768015266330829034902302453963960415089036979142720455335235516212100276387776863911908664619860506208275908991394707208213723857200957324704041368479475751906900769501960732656236894202522524155626287890441930580957783127806910981112969442190665411315952161176042998562529176961611577781845471032903980626462975278744661259958538383750648031773138548421846865910493321641564104979369067889803609621930074159716349451979126033865804864410099227424990317405858409549257286595218340969295605373467388534435515193493430574251625524548709365314141915435139355587979708070550378141858841629191843208921290385513170470677116014042076288499567275852203339769197881634539839422956034478609505825188595421448577279386740277201998701317463433015759455944537316386577403076321121520114902077308053825500034247920486816701208330240,
    G := 26648646718931186328124414260799371094727671197299169461453883967738557053634242519441438379574159763164188552740525703076199503406589793617099950008712580012084590752433347454196363270266956712099982467974760231396446880047661434625693946820209232087408700107991899268423680956057803042212580795840575580539080506144224167644927802358543551649544262858323512626063545630122977749465695260474206731566427592632967012837498272563308387207132591235386290398573463511363064803938300172300876958655760787653472697583274687999128595235971522906600825297869165615228064459758522854638009105190438344142150206784494641712964849931019528431467176397044674974055987101744695946260285121613012372464491138552613945037113996016223786744418899314160477562967493442845550195262475801000120701884151739070617849026363496929469878236142790966599613157981552206471569497164827249933863470962100057274774081136335076361250321114665511148981932410034501253180578020483258306049934943568137888701032232811754111725996824252008534446991977383186137087,
    n := 120 }]

/-- The lexicographic order on solutions induced by the order of the masks. -/
def lex_lt : List Nat → List Nat → Bool
  | [], [] => false
  | [], _ :: _ => true
  | _ :: _, [] => false
  | a :: s, b :: t => Nat.blt a b || (Nat.beq a b && lex_lt s t)

/-- One pass over a list of solutions: their number, and whether each covers
the full cube and is greater than the one before it. -/
def summarize : List (List Nat) → Nat → Bool → Option (List Nat) → Nat × Bool
  | [], n, ok, _ => (n, ok)
  | s :: rest, n, ok, prev =>
    summarize rest (n + 1)
      (ok && Nat.beq (s.foldl Nat.lor 0) FULL &&
        (match prev with
         | none => true
         | some p => lex_lt p s))
      (some s)

/-- Each element of the list is smaller, by `Cube::SortPredicate`, than its
successor. -/
def increasing : List Cube → Bool
  | [] => true
  | a :: rest =>
    match rest with
    | [] => true
    | b :: _ => Cube.SortPredicate a b && increasing rest

/-! ## Whole-cube rotations -/

/-- The cube after the quarter turns of the word `w`, applied in order. -/
def rotate_word (c : Cube) (w : List Nat) : Cube := w.foldl Cube.rotate c

/-- The cell that a quarter turn about an axis moves to the cell `(x, y, z)`. -/
def src (axis : Nat) (cell : Nat × Nat × Nat) : Nat × Nat × Nat :=
  if axis = Cube.AXIS_X then (cell.1, cell.2.2, 2 - cell.2.1)
  else if axis = Cube.AXIS_Y then (2 - cell.2.2, cell.2.1, cell.1)
  else (cell.2.1, 2 - cell.1, cell.2.2)

/-- The cell that the turns of the word `w` move to a given cell. -/
def pull : List Nat → Nat × Nat × Nat → Nat × Nat × Nat
  | [], cell => cell
  | a :: w, cell => src a (pull w cell)

/-- The 27 cells of the cube. -/
def cells : List (Nat × Nat × Nat) :=
  (List.range 27).map (fun i => (i / 9, i / 3 % 3, i % 3))

/-- A cell of the 3×3×3 volume. -/
def InCube (cell : Nat × Nat × Nat) : Prop := cell.1 < 3 ∧ cell.2.1 < 3 ∧ cell.2.2 < 3

/-- The turns that bring the six faces to the front in `compute_rotations`:
the zigzag X, Y, X, Y, X. -/
def face_words : List (List Nat) :=
  [[], [0], [0, 1], [0, 1, 0], [0, 1, 0, 1], [0, 1, 0, 1, 0]]

/-- The words of the 24 entries that `compute_rotations` appends, in order. -/
def words24 : List (List Nat) :=
  face_words.flatMap (fun f => [f, f ++ [2], f ++ [2, 2], f ++ [2, 2, 2]])

/-- The word of entry `k` of `compute_rotations`. -/
def word (k : Nat) : List Nat := words24.getD k []

/-- For each of the 24 words and each axis, the index of the word that moves
the cells like the word followed by a quarter turn about the axis. -/
def next_table : List (List Nat) :=
  [[4, 9, 1], [21, 5, 2], [17, 22, 3], [8, 18, 0], [15, 8, 5], [22, 12, 6], [2, 23, 7],
   [11, 3, 4], [12, 17, 9], [5, 13, 10], [1, 6, 11], [16, 2, 8], [23, 16, 13], [6, 20, 14],
   [10, 7, 15], [19, 11, 12], [20, 1, 17], [13, 21, 18], [9, 14, 19], [0, 10, 16], [7, 0, 21],
   [14, 4, 22], [18, 15, 23], [3, 19, 20]]

/-- For each of the 24 words, the index of the word that undoes it. -/
def inverse_table : List Nat :=
  [0, 3, 2, 1, 19, 23, 6, 10, 16, 20, 7, 11, 12, 13, 14, 15, 8, 17, 21, 4, 9, 18, 22, 5]

/-- The translated positions that `shuffle_cube_piece` visits for a shape. -/
def positions (cube : Cube) : List Cube :=
  if Cube.get cube 0 0 0 = false then []
  else
    (slides Cube.AXIS_Z cube).flatMap (fun z =>
      (slides Cube.AXIS_Y z).flatMap (fun y => slides Cube.AXIS_X y))

/-- An exact tiling of the cube by the seven pieces of `cube_piece_data`:
piece `i` sits at `t[i]`, one of its translated and rotated placements, no two
pieces overlap, and together they fill the cube. -/
def IsTiling (t : List Cube) : Prop :=
  t.length = CUBE_PIECE_COUNT ∧
  (∀ i, i < CUBE_PIECE_COUNT →
    t.getD i Cube.empty ∈ placements (Cube.ofData (cube_piece_data.getD i []))) ∧
  PairwiseDisjoint t ∧
  t.foldl (fun a b => a ||| b) Cube.empty = Cube.full

/-! ## Translations of a shape -/

namespace Cube

/-- The offset of `k` cells along an axis. -/
def step (axis k : Nat) : Nat × Nat × Nat :=
  if axis = AXIS_X then (k, 0, 0) else if axis = AXIS_Y then (0, k, 0) else (0, 0, k)

/-- The shape moved by the offset `(dx, dy, dz)`: the cell `(x, y, z)` of the
result is the cell `(x - dx, y - dy, z - dz)` of the shape. -/
def translate (c : Cube) (d : Nat × Nat × Nat) : Cube :=
  ofCells (fun x y z =>
    decide (d.1 ≤ x) && decide (d.2.1 ≤ y) && decide (d.2.2 ≤ z) &&
      get c (x - d.1) (y - d.2.1) (z - d.2.2))

/-- The shape moved by the offset remains fully inside the cube: each of its
cells arrives at a cell of the 3×3×3 volume. -/
def fits (c : Cube) (d : Nat × Nat × Nat) : Bool :=
  cells.all (fun cell => !get c cell.1 cell.2.1 cell.2.2 ||
    (decide (cell.1 + d.1 < 3) && decide (cell.2.1 + d.2.1 < 3) &&
      decide (cell.2.2 + d.2.2 < 3)))

end Cube

/-- The offsets `(dx, dy, dz)` within the volume in the order of three nested
loops: `dz` in the outermost, `dy` in the middle, `dx` in the innermost. -/
def offsets : List (Nat × Nat × Nat) :=
  (List.range 3).flatMap (fun dz =>
    (List.range 3).flatMap (fun dy => (List.range 3).map (fun dx => (dx, dy, dz))))

/-- A piece table whose last shape does not touch the origin corner: the
table `cube_piece_data` with its last shape moved by one cell along X. -/
def misplaced_piece_data : List (List (List (List Bool))) :=
  let o := false
  let l := true
  cube_piece_data.take 6 ++
    [ [ [ [o,o,o], [o,o,o], [o,o,o] ],
        [ [l,o,o], [l,o,o], [o,o,o] ],
        [ [l,o,o], [o,o,o], [o,o,o] ] ] ]

/-! ## Theorems -/

/-! ### The cube model -/

namespace Cube

theorem ofBits_succ (n : Nat) (g : Nat → Bool) :
    ofBits (n + 1) g = cond (g n) (ofBits n g ||| 1 <<< n) (ofBits n g) := by
  simp [ofBits, List.range_succ, List.foldl_append]

theorem testBit_ofBits (n : Nat) (g : Nat → Bool) (j : Nat) :
    Nat.testBit (ofBits n g) j = (decide (j < n) && g j) := by
  induction n with
  | zero => simp [ofBits]
  | succ n ih =>
    rw [ofBits_succ]
    cases hg : g n
    · simp only [cond_false, ih]
      by_cases h : j < n
      · simp [h, Nat.lt_succ_of_lt h]
      · by_cases h2 : j = n
        · subst h2; simp [hg]
        · have : ¬ j < n + 1 := by omega
          simp [h, this]
    · simp only [cond_true, Nat.testBit_or, ih, Nat.one_shiftLeft, Nat.testBit_two_pow]
      by_cases h : j < n
      · have : n ≠ j := by omega
        simp [h, Nat.lt_succ_of_lt h, this]
      · by_cases h2 : j = n
        · subst h2; simp [hg]
        · have h3 : ¬ j < n + 1 := by omega
          have h4 : n ≠ j := fun e => h2 e.symm
          simp [h, h3, h4]

theorem ofBits_lt (n : Nat) (g : Nat → Bool) : ofBits n g < 2 ^ n := by
  apply Nat.lt_pow_two_of_testBit
  intro i hi
  rw [testBit_ofBits]
  have : ¬ i < n := by omega
  simp [this]

theorem ofBits_congr (n : Nat) (g h : Nat → Bool) (e : ∀ i, i < n → g i = h i) :
    ofBits n g = ofBits n h := by
  apply Nat.eq_of_testBit_eq
  intro j
  rw [testBit_ofBits, testBit_ofBits]
  by_cases hj : j < n
  · simp [hj, e j hj]
  · simp [hj]

theorem get_ofCells (f : Nat → Nat → Nat → Bool) (x y z : Nat) (hx : x < 3) (hy : y < 3)
    (hz : z < 3) : get (ofCells f) x y z = f x y z := by
  unfold get ofCells
  rw [testBit_ofBits]
  have h1 : 9 * x + 3 * y + z < 27 := by omega
  have h2 : (9 * x + 3 * y + z) / 9 = x := by omega
  have h3 : (9 * x + 3 * y + z) / 3 % 3 = y := by omega
  have h4 : (9 * x + 3 * y + z) % 3 = z := by omega
  simp [h1, h2, h3, h4]

theorem ofCells_congr (f g : Nat → Nat → Nat → Bool)
    (e : ∀ x y z, x < 3 → y < 3 → z < 3 → f x y z = g x y z) : ofCells f = ofCells g := by
  unfold ofCells
  apply ofBits_congr
  intro i hi
  apply e <;> omega

theorem ofCells_false : ofCells (fun _ _ _ => false) = 0 := by decide

theorem ofCells_lt (f : Nat → Nat → Nat → Bool) : ofCells f < 2 ^ 27 := ofBits_lt _ _

theorem get_zero (x y z : Nat) : get 0 x y z = false := by simp [get]

theorem shift_plane_zero (c : Cube) (axis : Nat) (ha : axis < 3) :
    PlaneEmpty axis 0 (shift c axis) := by
  intro x y z hx hy hz hk
  unfold shift
  split
  · exact get_zero _ _ _
  · have h3 : axis = 0 ∨ axis = 1 ∨ axis = 2 := by omega
    rcases h3 with h | h | h <;> subst h <;>
      simp [AXIS_X, AXIS_Y, AXIS_Z, coord] at hk ⊢ <;> subst hk <;>
      rw [get_ofCells _ _ _ _ hx hy hz] <;> simp

theorem shift_plane_one (c : Cube) (axis : Nat) (ha : axis < 3) (h0 : PlaneEmpty axis 0 c) :
    PlaneEmpty axis 1 (shift c axis) := by
  intro x y z hx hy hz hk
  unfold shift
  split
  · exact get_zero _ _ _
  · have h3 : axis = 0 ∨ axis = 1 ∨ axis = 2 := by omega
    rcases h3 with h | h | h <;> subst h <;>
      simp [AXIS_X, AXIS_Y, AXIS_Z, coord] at hk ⊢ <;> subst hk <;>
      rw [get_ofCells _ _ _ _ hx hy hz] <;> simp
    · exact h0 0 y z (by omega) hy hz (by simp [coord, AXIS_X])
    · exact h0 x 0 z hx (by omega) hz (by simp [coord, AXIS_X, AXIS_Y])
    · exact h0 x y 0 hx hy (by omega) (by simp [coord, AXIS_X, AXIS_Y])

theorem shift_eq_zero (c : Cube) (axis : Nat) (ha : axis < 3) (h0 : PlaneEmpty axis 0 c)
    (h1 : PlaneEmpty axis 1 c) : shift c axis = 0 := by
  unfold shift
  split
  · rfl
  · have h3 : axis = 0 ∨ axis = 1 ∨ axis = 2 := by omega
    rcases h3 with h | h | h <;> subst h <;> simp only [AXIS_X, AXIS_Y, AXIS_Z] <;>
      simp only [OfNat.ofNat_ne_zero, OfNat.zero_ne_ofNat, OfNat.ofNat_ne_one, OfNat.one_ne_ofNat,
        if_true, if_false, one_ne_zero, zero_ne_one] <;>
      rw [← ofCells_false] <;> apply ofCells_congr <;> intro x y z hx hy hz
    · have hx3 : x = 0 ∨ x = 1 ∨ x = 2 := by omega
      rcases hx3 with h | h | h <;> subst h <;> simp
      · exact h0 0 y z (by omega) hy hz (by simp [coord, AXIS_X])
      · exact h1 1 y z (by omega) hy hz (by simp [coord, AXIS_X])
    · have hx3 : y = 0 ∨ y = 1 ∨ y = 2 := by omega
      rcases hx3 with h | h | h <;> subst h <;> simp
      · exact h0 x 0 z hx (by omega) hz (by simp [coord, AXIS_X, AXIS_Y])
      · exact h1 x 1 z hx (by omega) hz (by simp [coord, AXIS_X, AXIS_Y])
    · have hx3 : z = 0 ∨ z = 1 ∨ z = 2 := by omega
      rcases hx3 with h | h | h <;> subst h <;> simp
      · exact h0 x y 0 hx hy (by omega) (by simp [coord, AXIS_X, AXIS_Y])
      · exact h1 x y 1 hx hy (by omega) (by simp [coord, AXIS_X, AXIS_Y])

theorem shift_shift_shift (c : Cube) (axis : Nat) (ha : axis < 3) :
    shift (shift (shift c axis) axis) axis = empty :=
  shift_eq_zero _ axis ha (shift_plane_zero _ axis ha)
    (shift_plane_one _ axis ha (shift_plane_zero _ axis ha))

end Cube

/-! ### The placement generator -/

theorem compute_rotations_loop_append (r i : Nat) (cube : Cube) (store : PieceStore) :
    compute_rotations_loop r i cube store = store ++ compute_rotations_loop r i cube [] := by
  induction r generalizing i cube store with
  | zero => simp [compute_rotations_loop]
  | succ r ih =>
    rw [compute_rotations_loop, ih]
    conv_rhs => rw [compute_rotations_loop, ih]
    simp

theorem compute_rotations_eq (cube : Cube) (store : PieceStore) :
    compute_rotations cube store = store ++ rotations cube :=
  compute_rotations_loop_append 5 0 cube store

theorem shift_loop_eq (axis : Nat) (ha : axis < 3)
    (body : Cube → PieceStore → Except Fault PieceStore) (f : Cube → List Cube)
    (hb : ∀ c st, body c st = .ok (st ++ f c)) (c : Cube) (store : PieceStore) :
    shift_loop axis body Cube.N c store = .ok (store ++ (slides axis c).flatMap f) := by
  have h3 := Cube.shift_shift_shift c axis ha
  simp only [Cube.N, shift_loop, slides, hb]
  by_cases h0 : c = Cube.empty
  · simp [h0]
  · by_cases h1 : Cube.shift c axis = Cube.empty
    · simp [h0, h1]
    · by_cases h2 : Cube.shift (Cube.shift c axis) axis = Cube.empty
      · simp [h0, h1, h2]
      · simp [h0, h1, h2, h3]

theorem shuffle_cube_piece_eq (cube : Cube) (store : PieceStore) :
    shuffle_cube_piece cube store = .ok (store ++ placements cube) := by
  unfold shuffle_cube_piece placements
  split
  · simp
  · apply shift_loop_eq _ (by decide)
    intro z st
    apply shift_loop_eq _ (by decide)
    intro y st
    apply shift_loop_eq _ (by decide)
    intro x st
    rw [compute_rotations_eq]

/-! ### The backtracking search -/

theorem Holds.set {cols : ColumnStore} {p : List Cube} {s : PuzzleSolver}
    (h : Holds cols p s) (hp : p.length < CUBE_PIECE_COUNT) (cell : Cube) :
    Holds cols (p ++ [cell]) { s with state_ := s.state_.set p.length cell } := by
  obtain ⟨h1, h2, h3⟩ := h
  refine ⟨h1, by simpa using h2, ?_⟩
  have hlt : p.length < s.state_.length := by omega
  simp only [List.length_append, List.length_singleton]
  rw [List.take_succ, List.getElem?_set_self hlt, List.set_take,
    List.set_eq_of_length_le (by simp), h3]
  rfl

theorem Holds.shorten {cols : ColumnStore} {p : List Cube} {cell : Cube} {s : PuzzleSolver}
    (h : Holds cols (p ++ [cell]) s) : Holds cols p s := by
  obtain ⟨h1, h2, h3⟩ := h
  refine ⟨h1, h2, ?_⟩
  have := congrArg (List.take p.length) h3
  simpa [List.take_take] using this

theorem recurse_rows_appends (cols : ColumnStore) (p : List Cube) (cube : Cube)
    (deeper : Cube → PuzzleSolver → Except Fault PuzzleSolver)
    (E : Cube → List Solution) (hp : p.length < CUBE_PIECE_COUNT)
    (hd : ∀ cell, Appends cols (p ++ [cell]) (E cell) (deeper cell))
    (row : List Cube) (h0 : Cube.empty ∈ row) :
    Appends cols p (((scanned row).filter (fun cell => cell &&& cube = Cube.empty)).flatMap E)
      (recurse_rows p.length cube deeper row) := by
  induction row with
  | nil => simp at h0
  | cons cell row ih =>
    intro s hs
    unfold recurse_rows
    by_cases hc0 : cell = Cube.empty
    · subst hc0
      refine ⟨s, ?_, hs, ?_⟩
      · simp [Cube.empty]
      · simp [scanned]
    · have hrow : Cube.empty ∈ row := by
        rcases List.mem_cons.1 h0 with h | h
        · exact absurd h.symm hc0
        · exact h
      have hsc : scanned (cell :: row) = cell :: scanned row := by
        simp [scanned, hc0]
      by_cases hcc : cell &&& cube = Cube.empty
      · obtain ⟨s1, e1, hs1, hsol1⟩ := hd cell _ (hs.set hp cell)
        obtain ⟨s2, e2, hs2, hsol2⟩ := ih hrow s1 hs1.shorten
        have hst : ¬ s.state_.length ≤ p.length := by rw [hs.2.1]; omega
        refine ⟨s2, ?_, hs2, ?_⟩
        · simp only [hcc, hc0, hst, if_true, if_false, e1, e2]
        · rw [hsol2, hsol1, hsc]
          simp [List.filter_cons, hcc]
      · obtain ⟨s2, e2, hs2, hsol2⟩ := ih hrow s hs
        refine ⟨s2, ?_, hs2, ?_⟩
        · simp only [hcc, if_false, e2]
        · rw [hsol2, hsc]
          simp [List.filter_cons, hcc]

theorem recurse_appends (cols : ColumnStore) (hlen : cols.length = CUBE_PIECE_COUNT)
    (hz : ∀ column ∈ cols, Cube.empty ∈ column) :
    ∀ (depth : Nat) (cube : Cube) (p : List Cube), p.length < CUBE_PIECE_COUNT →
      CUBE_PIECE_COUNT ≤ depth + p.length →
      Appends cols p ((extensions (cols.drop p.length) cube).map (fun t => p ++ t))
        (recurse depth p.length cube) := by
  intro depth
  induction depth with
  | zero => intro cube p h1 h2; omega
  | succ depth ih =>
    intro cube p hcol hdepth s hs
    have hlt : p.length < cols.length := by omega
    have hdrop : cols.drop p.length = cols[p.length] :: cols.drop (p.length + 1) :=
      List.drop_eq_getElem_cons hlt
    have hget : s.columns_.get? p.length = some cols[p.length] := by
      rw [hs.1]; simp [List.getElem?_eq_getElem hlt]
    have hd : ∀ cell, Appends cols (p ++ [cell])
        ((extensions (cols.drop (p.length + 1)) (cube ||| cell)).map (fun t => p ++ cell :: t))
        (fun s1 => if p.length < CUBE_PIECE_COUNT - 1 then
            recurse depth (p.length + 1) (cube ||| cell) s1
          else .ok (add_solution s1)) := by
      intro cell
      by_cases hc : p.length < CUBE_PIECE_COUNT - 1
      · have := ih (cube ||| cell) (p ++ [cell])
          (by simp only [CUBE_PIECE_COUNT, List.length_append, List.length_singleton] at hc ⊢; omega)
          (by simp only [List.length_append, List.length_singleton]; omega)
        simpa [hc, List.append_assoc] using this
      · intro s1 hs1
        have hc6 : p.length + 1 = cols.length := by
          simp only [CUBE_PIECE_COUNT] at hc hcol hlen; omega
        refine ⟨add_solution s1, by simp [hc], ?_, ?_⟩
        · exact ⟨hs1.1, hs1.2.1, hs1.2.2⟩
        · have hst : s1.state_ = p ++ [cell] := by
            have h3 := hs1.2.2
            have h2 := hs1.2.1
            rw [List.take_of_length_le] at h3
            · exact h3
            · simp [h2, hc6, hlen]
          have hnil : cols.drop (p.length + 1) = [] := by
            rw [hc6]; exact List.drop_length cols
          simp [add_solution, hst, hnil, extensions]
    have hrows := recurse_rows_appends cols p cube _ _ (by omega) hd cols[p.length]
      (hz _ (List.getElem_mem hlt))
    obtain ⟨s2, e2, hs2, hsol2⟩ := hrows s hs
    refine ⟨s2, ?_, hs2, ?_⟩
    · unfold recurse
      simp only [hget]
      exact e2
    · rw [hsol2, hdrop]
      simp [extensions, List.map_flatMap]
      rfl

theorem lor_eq_zero_iff (a b : Nat) : a ||| b = 0 ↔ a = 0 ∧ b = 0 := by
  constructor
  · intro h
    constructor <;> apply Nat.eq_of_testBit_eq <;> intro i <;>
      have h2 := congrArg (fun n => Nat.testBit n i) h <;>
      simp only [Nat.testBit_or, Nat.zero_testBit, Bool.or_eq_false_iff] at h2 ⊢
    · exact h2.1
    · exact h2.2
  · rintro ⟨rfl, rfl⟩
    rfl

theorem land_lor_eq_zero (d cube cell : Nat) :
    d &&& (cube ||| cell) = 0 ↔ d &&& cube = 0 ∧ cell &&& d = 0 := by
  rw [Nat.land_comm cell d, Nat.and_or_distrib_left]
  exact lor_eq_zero_iff _ _

theorem flatMap_filter_eq {α β : Type} (q : α → Bool) (f : α → List β) (l : List α) :
    (l.filter q).flatMap f = l.flatMap (fun x => if q x then f x else []) := by
  induction l with
  | nil => rfl
  | cons a l ih =>
    by_cases h : q a <;> simp [List.filter_cons, h, ih]

theorem extensions_eq_filter (cols : List (List Cube)) (cube : Cube) :
    extensions cols cube =
      (tuples (cols.map scanned)).filter
        (fun t => decide ((∀ c ∈ t, c &&& cube = Cube.empty) ∧ PairwiseDisjoint t)) := by
  induction cols generalizing cube with
  | nil => simp [extensions, tuples, PairwiseDisjoint]
  | cons column rest ih =>
    simp only [extensions, List.map_cons, tuples, List.filter_flatMap, flatMap_filter_eq]
    congr 1
    funext cell
    rw [List.filter_map]
    by_cases hc : cell &&& cube = Cube.empty
    · simp only [hc, decide_True, if_true, ih]
      congr 1
      apply List.filter_congr
      intro t _
      simp only [Function.comp, PairwiseDisjoint, List.pairwise_cons, List.forall_mem_cons,
        Cube.empty, land_lor_eq_zero, hc, true_and, decide_eq_decide]
      constructor
      · rintro ⟨h1, h2⟩
        exact ⟨fun c hm => (h1 c hm).1, fun c hm => (h1 c hm).2, h2⟩
      · rintro ⟨h1, h2, h3⟩
        exact ⟨fun c hm => ⟨h1 c hm, h2 c hm⟩, h3⟩
    · have hnil : List.filter ((fun t => decide ((∀ c ∈ t, c &&& cube = Cube.empty) ∧
          PairwiseDisjoint t)) ∘ fun t => cell :: t) (tuples (List.map scanned rest)) = [] := by
        rw [List.filter_eq_nil_iff]
        intro t _
        simp [hc]
      simp [hc, hnil]

theorem scanned_append_sentinel (column : List Cube) (h : ∀ c ∈ column, c ≠ Cube.empty) :
    scanned (column ++ [Cube.empty]) = column := by
  induction column with
  | nil => simp [scanned]
  | cons a l ih =>
    have ha : a ≠ Cube.empty := h a (List.mem_cons_self _ _)
    have hl : scanned (l ++ [Cube.empty]) = l := ih (fun c hc => h c (List.mem_cons_of_mem _ hc))
    simp only [scanned] at hl ⊢
    simp [ha, hl]

/-- What `recurse(0, Cube())` does on any seven columns that each contain an
empty cube: it returns, and it has appended the non-overlapping choices from
the scanned parts of the columns, in lexicographic order. -/
theorem recurse_solutions (cols : ColumnStore) (hlen : cols.length = CUBE_PIECE_COUNT)
    (hz : ∀ column ∈ cols, Cube.empty ∈ column) (sols : List Solution) (st : Solution)
    (hst : st.length = CUBE_PIECE_COUNT) :
    ∃ st2, recurse CUBE_PIECE_COUNT 0 Cube.empty ⟨cols, sols, st⟩ =
      .ok ⟨cols, sols ++ (tuples (cols.map scanned)).filter (fun t => decide (PairwiseDisjoint t)),
        st2⟩ := by
  have h := recurse_appends cols hlen hz CUBE_PIECE_COUNT Cube.empty [] (by decide) (by simp)
    ⟨cols, sols, st⟩ ⟨rfl, hst, rfl⟩
  obtain ⟨s2, e2, hs2, hsol2⟩ := h
  refine ⟨s2.state_, ?_⟩
  rw [show ([] : List Cube).length = 0 from rfl] at e2
  rw [e2]
  congr 1
  obtain ⟨c2, so2, st2⟩ := s2
  have hc : c2 = cols := hs2.1
  simp only at hsol2
  subst hc
  simp only [PuzzleSolver.mk.injEq, true_and, and_true]
  rw [hsol2, extensions_eq_filter]
  simp [Cube.empty]

/-! ### The pipeline of `execute` -/

theorem filter_rotations_loop_eq (k : Nat) (p : List Cube) (h : 24 * k ≤ p.length) :
    filter_rotations_loop k p = .ok (group_minima k p) := by
  induction k generalizing p with
  | zero => rfl
  | succ k ih =>
    cases p with
    | nil => simp at h
    | cons x p =>
      have hd : 24 * k ≤ (p.drop 23).length := by
        simp only [List.length_drop, List.length_cons] at h ⊢; omega
      simp [filter_rotations_loop, group_minima, ih _ hd]

theorem filter_rotations_eq (store : PieceStore) :
    filter_rotations store = .ok (canonical store) := by
  unfold filter_rotations canonical
  split
  · rfl
  · exact filter_rotations_loop_eq _ _ (Nat.mul_div_le _ _)

theorem fill_column_eq (data : List (List (List (List Bool)))) (i : Nat) :
    fill_column data i [] = .ok (column data i) := by
  unfold fill_column column
  rw [shuffle_cube_piece_eq]
  by_cases h : i = 0
  · simp [h, filter_rotations_eq]
  · simp [h]

theorem fill_columns_eq (data : List (List (List (List Bool)))) :
    fill_columns data CUBE_PIECE_COUNT 0 new.columns_ =
      .ok ((List.range CUBE_PIECE_COUNT).map (column data)) := by
  simp [fill_columns, CUBE_PIECE_COUNT, new, fill_column_eq, List.replicate, List.range,
    List.range.loop]

theorem prune_length (columns : ColumnStore) : (prune columns).length = columns.length := by
  unfold prune
  simp only
  split <;> simp

theorem prepared_length (data : List (List (List (List Bool)))) :
    (prepared data).length = CUBE_PIECE_COUNT := by
  simp [prepared, terminate, prune_length]

theorem prepared_sentinel (data : List (List (List (List Bool)))) :
    ∀ column ∈ prepared data, Cube.empty ∈ column := by
  intro c hc
  simp only [prepared, terminate, List.mem_map] at hc
  obtain ⟨store, _, rfl⟩ := hc
  simp

/-- On every piece table `execute` returns, and the solver then holds the
prepared columns and the non-overlapping choices from them. -/
theorem executeOn_eq (data : List (List (List (List Bool)))) :
    ∃ st2, executeOn data new = .ok ⟨prepared data,
      (tuples ((prepared data).map scanned)).filter (fun t => decide (PairwiseDisjoint t)), st2⟩ := by
  obtain ⟨st2, h⟩ := recurse_solutions (prepared data) (prepared_length data)
    (prepared_sentinel data) [] new.state_ (by simp [new])
  refine ⟨st2, ?_⟩
  unfold executeOn
  rw [fill_columns_eq]
  simpa [prepared, new] using h

/-! ### Pruning -/

theorem enumFrom_map_pos (f : PieceStore → PieceStore) (n : Nat) (hn : 1 ≤ n)
    (l : List PieceStore) :
    (l.enumFrom n).map (fun ic => if 1 ≤ ic.1 then f ic.2 else ic.2) = l.map f := by
  induction l generalizing n with
  | nil => rfl
  | cons a l ih =>
    simp only [List.enumFrom_cons, List.map_cons, hn, if_true]
    rw [ih (n + 1) (by omega)]

theorem prune_cons (c0 : PieceStore) (rest : List PieceStore) :
    prune (c0 :: rest) =
      if c0.foldl Intersect Cube.full ≠ Cube.empty then
        c0 :: rest.map (fun store =>
          store.filter (fun c => !DoesIntersect (c0.foldl Intersect Cube.full) c))
      else c0 :: rest := by
  unfold prune
  simp only [List.getD_cons_zero, List.enum_cons, List.map_cons]
  split
  · rw [enumFrom_map_pos _ 1 (le_refl 1)]
    simp
  · rfl

theorem scanned_append (l : List Cube) :
    scanned (l ++ [Cube.empty]) = scanned l := by
  induction l with
  | nil => simp [scanned]
  | cons a l ih =>
    simp only [scanned] at ih ⊢
    by_cases h : a = Cube.empty
    · simp [h]
    · simp [h, ih]

theorem scanned_filter (q : Cube → Bool) (hq : q Cube.empty = true) (l : List Cube) :
    scanned (l.filter q) = (scanned l).filter q := by
  induction l with
  | nil => rfl
  | cons a l ih =>
    simp only [scanned] at ih ⊢
    by_cases h : a = Cube.empty
    · subst h
      simp [List.filter_cons, hq]
    · by_cases h2 : q a = true
      · simp [List.filter_cons, h, h2, ih]
      · simp [List.filter_cons, h, h2, ih]

theorem mem_scanned {x : Cube} {l : List Cube} (h : x ∈ scanned l) : x ∈ l := by
  unfold scanned at h
  exact (List.takeWhile_sublist _).subset h

theorem foldl_Intersect_land_init (l : List Cube) (init : Cube) :
    l.foldl Intersect init &&& init = l.foldl Intersect init := by
  induction l generalizing init with
  | nil => simp
  | cons a l ih =>
    simp only [List.foldl_cons, Intersect]
    have h := ih (init &&& a)
    calc List.foldl Intersect (init &&& a) l &&& init
        = (List.foldl Intersect (init &&& a) l &&& (init &&& a)) &&& init := by rw [h]
      _ = List.foldl Intersect (init &&& a) l &&& ((init &&& a) &&& init) := by
          rw [Nat.land_assoc]
      _ = List.foldl Intersect (init &&& a) l &&& (init &&& a) := by
          congr 1
          rw [Nat.land_comm (init &&& a) init, ← Nat.land_assoc, Nat.and_self]
      _ = List.foldl Intersect (init &&& a) l := h

theorem foldl_Intersect_land_mem (l : List Cube) (init x : Cube) (hx : x ∈ l) :
    l.foldl Intersect init &&& x = l.foldl Intersect init := by
  induction l generalizing init with
  | nil => simp at hx
  | cons a l ih =>
    simp only [List.foldl_cons, Intersect]
    rcases List.mem_cons.1 hx with h | h
    · subst h
      have h := foldl_Intersect_land_init l (init &&& x)
      calc List.foldl Intersect (init &&& x) l &&& x
          = (List.foldl Intersect (init &&& x) l &&& (init &&& x)) &&& x := by rw [h]
        _ = List.foldl Intersect (init &&& x) l &&& ((init &&& x) &&& x) := by
            rw [Nat.land_assoc]
        _ = List.foldl Intersect (init &&& x) l &&& (init &&& x) := by
            congr 1
            rw [Nat.land_assoc, Nat.and_self]
        _ = List.foldl Intersect (init &&& x) l := h
    · exact ih (init &&& a) h

theorem land_common_eq_zero (c0 : List Cube) (x y : Cube) (hx : x ∈ c0) (h : x &&& y = 0) :
    y &&& c0.foldl Intersect Cube.full = 0 := by
  rw [← foldl_Intersect_land_mem c0 Cube.full x hx, Nat.land_comm _ x, ← Nat.land_assoc,
    Nat.land_comm y x, h, Nat.zero_and]

theorem tuples_map_filter (q : Cube → Bool) (cols : List (List Cube)) :
    tuples (cols.map (List.filter q)) = (tuples cols).filter (fun t => t.all q) := by
  induction cols with
  | nil => simp [tuples]
  | cons c rest ih =>
    simp only [List.map_cons, tuples, ih, List.filter_flatMap, flatMap_filter_eq]
    congr 1
    funext x
    rw [List.filter_map]
    by_cases hx : q x = true
    · simp only [hx, if_true, List.filter_filter]
      congr 1
      apply List.filter_congr
      intro t _
      simp [hx]
    · have hnil : List.filter ((fun t => t.all q) ∘ fun t => x :: t) (tuples rest) = [] := by
        rw [List.filter_eq_nil_iff]
        intro t _
        simp [hx]
      simp [hx, hnil]

theorem flatMap_congr_mem {α β : Type} (l : List α) (f g : α → List β)
    (h : ∀ x ∈ l, f x = g x) : l.flatMap f = l.flatMap g := by
  induction l with
  | nil => rfl
  | cons a l ih =>
    simp only [List.flatMap_cons]
    rw [h a (List.mem_cons_self _ _), ih (fun x hx => h x (List.mem_cons_of_mem _ hx))]

theorem terminate_map_scanned (cols : ColumnStore) :
    (terminate cols).map scanned = cols.map scanned := by
  simp [terminate, Function.comp_def, scanned_append]

/-- The pruning step removes no placement that occurs in a non-overlapping
choice: the solutions found in the pruned columns are those found in the
unpruned ones. -/
theorem pruned_solutions_eq (cols : ColumnStore) :
    (tuples ((terminate (prune cols)).map scanned)).filter (fun t => decide (PairwiseDisjoint t)) =
      (tuples ((terminate cols).map scanned)).filter (fun t => decide (PairwiseDisjoint t)) := by
  rw [terminate_map_scanned, terminate_map_scanned]
  cases cols with
  | nil => simp [prune, Intersect]
  | cons c0 rest =>
    rw [prune_cons]
    split
    · have hq : (fun c => !DoesIntersect (c0.foldl Intersect Cube.full) c) Cube.empty = true := by
        simp [DoesIntersect, Cube.empty]
      have hrest : List.map scanned (List.map (fun store => List.filter
            (fun c => !DoesIntersect (c0.foldl Intersect Cube.full) c) store) rest) =
          (rest.map scanned).map (List.filter
            (fun c => !DoesIntersect (c0.foldl Intersect Cube.full) c)) := by
        simp only [List.map_map]
        apply List.map_congr_left
        intro store _
        exact scanned_filter (fun c => !DoesIntersect (c0.foldl Intersect Cube.full) c) hq store
      simp only [List.map_cons]
      rw [hrest]
      simp only [tuples, tuples_map_filter, List.filter_flatMap]
      apply flatMap_congr_mem
      intro x hx
      rw [List.filter_map, List.filter_map, List.filter_filter]
      congr 1
      apply List.filter_congr
      intro t _
      simp only [Function.comp, PairwiseDisjoint, List.pairwise_cons, DoesIntersect, Cube.empty]
      by_cases hpd : (∀ a' ∈ t, x &&& a' = 0) ∧ List.Pairwise (fun a b => a &&& b = 0) t
      · have hall : (t.all fun c => !c &&& List.foldl Intersect Cube.full c0 != 0) = true := by
          rw [List.all_eq_true]
          intro y hy
          simp [land_common_eq_zero c0 x y (mem_scanned hx) (hpd.1 y hy)]
        simp [hpd, hall]
      · simp [hpd]
    · rfl

theorem executeOn_without_pruning_eq (data : List (List (List (List Bool)))) :
    ∃ st2, executeOn_without_pruning data new =
      .ok ⟨terminate ((List.range CUBE_PIECE_COUNT).map (column data)),
        (tuples ((prepared data).map scanned)).filter (fun t => decide (PairwiseDisjoint t)),
        st2⟩ := by
  have hlen : (terminate ((List.range CUBE_PIECE_COUNT).map (column data))).length =
      CUBE_PIECE_COUNT := by simp [terminate]
  have hz : ∀ store ∈ terminate ((List.range CUBE_PIECE_COUNT).map (column data)),
      Cube.empty ∈ store := by
    intro c hc
    simp only [terminate, List.mem_map] at hc
    obtain ⟨store, _, rfl⟩ := hc
    simp
  obtain ⟨st2, h⟩ := recurse_solutions _ hlen hz [] new.state_ (by simp [new])
  refine ⟨st2, ?_⟩
  unfold executeOn_without_pruning
  rw [fill_columns_eq]
  simp only [prepared, pruned_solutions_eq]
  simpa [new] using h

/-- C8 (pruning soundness): on every piece table, `execute` with the pruning
step and `execute` with that step skipped both return, and they have
recorded the same solutions, in the same order. -/
theorem pruning_sound (data : List (List (List (List Bool)))) :
    ∃ sols cols1 st1 cols2 st2,
      executeOn data new = .ok ⟨cols1, sols, st1⟩ ∧
      executeOn_without_pruning data new = .ok ⟨cols2, sols, st2⟩ := by
  obtain ⟨st1, h1⟩ := executeOn_eq data
  obtain ⟨st2, h2⟩ := executeOn_without_pruning_eq data
  exact ⟨_, _, st1, _, st2, h1, h2⟩

/-! ### Disjointness of the recorded placements -/

theorem solve_eq (data : List (List (List (List Bool)))) :
    solve data = .ok ((tuples ((prepared data).map scanned)).filter
      (fun t => decide (PairwiseDisjoint t))) := by
  obtain ⟨st2, h⟩ := executeOn_eq data
  unfold solve
  rw [h]

theorem getD_mem_or_default (l : List Cube) (i : Nat) : l.getD i 0 ∈ l ∨ l.getD i 0 = 0 := by
  induction l generalizing i with
  | nil => right; rfl
  | cons a l ih =>
    cases i with
    | zero => left; simp
    | succ i =>
      rcases ih i with h | h
      · left; simpa using List.mem_cons_of_mem a h
      · right; simpa using h

theorem PairwiseDisjoint.getD_lt {t : List Cube} (h : PairwiseDisjoint t) (i j : Nat)
    (hij : i < j) : t.getD i 0 &&& t.getD j 0 = 0 := by
  induction t generalizing i j with
  | nil => simp
  | cons a l ih =>
    obtain ⟨h1, h2⟩ := List.pairwise_cons.1 h
    cases j with
    | zero => omega
    | succ j =>
      cases i with
      | zero =>
        rcases getD_mem_or_default l j with hm | hm
        · simpa using h1 _ hm
        · simp only [List.getD_cons_zero, List.getD_cons_succ, hm, Nat.and_zero]
      | succ i =>
        simpa using ih h2 i j (by omega)

theorem PairwiseDisjoint.getD_ne {t : List Cube} (h : PairwiseDisjoint t) (i j : Nat)
    (hij : i ≠ j) : t.getD i 0 &&& t.getD j 0 = 0 := by
  rcases Nat.lt_or_gt_of_ne hij with h1 | h1
  · exact h.getD_lt i j h1
  · rw [Nat.land_comm]; exact h.getD_lt j i h1

theorem solve_disjoint (data : List (List (List (List Bool)))) (sols : List Solution)
    (h : solve data = .ok sols) (s : Solution) (hs : s ∈ sols) (i j : Nat) (hij : i ≠ j) :
    s.getD i Cube.empty &&& s.getD j Cube.empty = Cube.empty := by
  rw [solve_eq] at h
  have h := Except.ok.inj h
  subst h
  have hpd : PairwiseDisjoint s := by
    have := (List.mem_filter.1 hs).2
    simpa using this
  exact hpd.getD_ne i j hij

/-- C1: in every Solution that `execute` records on the built-in table, the
placements of two distinct pieces `i ≠ j` in `[0, 7)` have an empty bitwise
AND. -/
theorem recorded_solutions_disjoint (sols : List Solution)
    (h : solve cube_piece_data = .ok sols) (s : Solution) (hs : s ∈ sols) (i j : Nat)
    (_hi : i < CUBE_PIECE_COUNT) (_hj : j < CUBE_PIECE_COUNT) (hij : i ≠ j) :
    s.getD i Cube.empty &&& s.getD j Cube.empty = Cube.empty :=
  solve_disjoint cube_piece_data sols h s hs i j hij

/-! ### Exhaustiveness of the search -/

theorem mem_tuples (cols : List (List Cube)) (t : List Cube) :
    t ∈ tuples cols ↔ List.Forall₂ (fun c col => c ∈ col) t cols := by
  induction cols generalizing t with
  | nil =>
    simp only [tuples, List.mem_singleton]
    constructor
    · rintro rfl; exact List.Forall₂.nil
    · intro h; cases h; rfl
  | cons col rest ih =>
    simp only [tuples, List.mem_flatMap, List.mem_map]
    constructor
    · rintro ⟨c, hc, t2, ht2, rfl⟩
      exact List.Forall₂.cons hc ((ih t2).1 ht2)
    · intro h
      cases h with
      | cons hc hrest => exact ⟨_, hc, _, (ih _).2 hrest, rfl⟩

theorem map_scanned_sentinel (cols : List (List Cube))
    (hne : ∀ store ∈ cols, ∀ c ∈ store, c ≠ Cube.empty) :
    (cols.map (fun store => store ++ [Cube.empty])).map scanned = cols := by
  rw [List.map_map]
  conv_rhs => rw [← List.map_id cols]
  apply List.map_congr_left
  intro store hs
  exact scanned_append_sentinel store (hne store hs)

/-- C3: the backtracking search is exhaustive and ordered.  For any seven
columns, each a list of non-empty cubes followed by one empty sentinel,
`recurse(0, Cube())` returns and has appended to the Solution Set exactly the
list of all tuples with one cube from each column (sentinel excluded) and
pairwise empty AND, one per choice of positions, in lexicographic order of the
positions with column 0 most significant. -/
theorem recurse_exhaustive_ordered (cols : List (List Cube))
    (hlen : cols.length = CUBE_PIECE_COUNT)
    (hne : ∀ store ∈ cols, ∀ c ∈ store, c ≠ Cube.empty)
    (sols : List Solution) (st : Solution) (hst : st.length = CUBE_PIECE_COUNT) :
    ∃ st2, recurse CUBE_PIECE_COUNT 0 Cube.empty
        ⟨cols.map (fun store => store ++ [Cube.empty]), sols, st⟩ =
      .ok ⟨cols.map (fun store => store ++ [Cube.empty]),
        sols ++ (tuples cols).filter (fun t => decide (PairwiseDisjoint t)), st2⟩ := by
  have hz : ∀ store ∈ cols.map (fun store => store ++ [Cube.empty]), Cube.empty ∈ store := by
    intro store hs
    obtain ⟨s0, _, rfl⟩ := List.mem_map.1 hs
    simp
  obtain ⟨st2, h⟩ := recurse_solutions (cols.map (fun store => store ++ [Cube.empty]))
    (by simpa using hlen) hz sols st hst
  rw [map_scanned_sentinel cols hne] at h
  exact ⟨st2, h⟩

/-- Witness for C3: seven small columns, the last with two candidates of which
one overlaps the first column. -/
theorem recurse_exhaustive_ordered_witness :
    ([[1], [2], [4], [8], [16], [32], [1, 64, 128]] : List (List Cube)).length = CUBE_PIECE_COUNT ∧
    (∀ store ∈ ([[1], [2], [4], [8], [16], [32], [1, 64, 128]] : List (List Cube)),
      ∀ c ∈ store, c ≠ Cube.empty) ∧
    ∃ st2, recurse CUBE_PIECE_COUNT 0 Cube.empty
        ⟨([[1], [2], [4], [8], [16], [32], [1, 64, 128]] : List (List Cube)).map
          (fun store => store ++ [Cube.empty]), [], List.replicate 7 0⟩ =
      .ok ⟨([[1], [2], [4], [8], [16], [32], [1, 64, 128]] : List (List Cube)).map
          (fun store => store ++ [Cube.empty]),
        [] ++ (tuples [[1], [2], [4], [8], [16], [32], [1, 64, 128]]).filter
          (fun t => decide (PairwiseDisjoint t)), st2⟩ :=
  ⟨by decide, by decide,
    recurse_exhaustive_ordered [[1], [2], [4], [8], [16], [32], [1, 64, 128]] (by decide)
      (by decide) [] (List.replicate 7 0) (by decide)⟩

/-! ### The background runner -/

/-- C10: when `run` is called while a run is in flight (`thread_` non-null),
the precondition check fails: the call returns with the runner's state
(`thread_`, `solutions_`) unchanged and without creating a worker thread. -/
theorem run_in_flight_fails (t : PuzzleThread) (handle : Nat) (h : t.thread_ ≠ none) :
    PuzzleThread.run t handle = (t, [Event.return_if_fail]) ∧
    (∀ k, Event.thread_create k ∉ (PuzzleThread.run t handle).2) := by
  have e : PuzzleThread.run t handle = (t, [Event.return_if_fail]) := by
    simp [PuzzleThread.run, h]
  refine ⟨e, ?_⟩
  intro k
  rw [e]
  simp

/-- Witness for C10: a runner whose worker 1 is still in flight. -/
theorem run_in_flight_fails_witness :
    (⟨[], some 1⟩ : PuzzleThread).thread_ ≠ none ∧
    (PuzzleThread.run ⟨[], some 1⟩ 2 = (⟨[], some 1⟩, [Event.return_if_fail]) ∧
      (∀ k, Event.thread_create k ∉ (PuzzleThread.run ⟨[], some 1⟩ 2).2)) :=
  ⟨by decide, run_in_flight_fails ⟨[], some 1⟩ 2 (by decide)⟩

/-! ### The fast form of the search -/

theorem land_split (k a b c d : Nat) (ha : a < 2 ^ k) (hc : c < 2 ^ k) :
    (a + 2 ^ k * b) &&& (c + 2 ^ k * d) = (a &&& c) + 2 ^ k * (b &&& d) := by
  have hac : a &&& c < 2 ^ k := Nat.and_lt_two_pow a hc
  apply Nat.eq_of_testBit_eq
  intro i
  rw [Nat.testBit_and, Nat.add_comm a, Nat.add_comm c, Nat.add_comm (a &&& c),
    Nat.testBit_mul_pow_two_add _ ha, Nat.testBit_mul_pow_two_add _ hc,
    Nat.testBit_mul_pow_two_add _ hac]
  by_cases h : i < k <;> simp [h, Nat.testBit_and]

theorem two_pow_land_pred (j : Nat) : 2 ^ j &&& (2 ^ j - 1) = 0 := by
  rw [Nat.and_pow_two_sub_one_eq_mod, Nat.mod_self]

/-- Clearing the lowest set bit above a low part: for `l < 2 ^ s` and
`s ≤ q`, the AND of `l + 2 ^ q + 2 ^ (q + 1) * r` with itself minus `2 ^ s`
is `l + 2 ^ (q + 1) * r`. -/
theorem clear_lowest (s q l r : Nat) (hl : l < 2 ^ s) (hsq : s ≤ q) :
    (l + 2 ^ q + 2 ^ (q + 1) * r) &&& (l + 2 ^ q + 2 ^ (q + 1) * r - 2 ^ s) =
      l + 2 ^ (q + 1) * r := by
  obtain ⟨e, rfl⟩ : ∃ e, q = s + e := ⟨q - s, by omega⟩
  have h1 : l + 2 ^ (s + e) + 2 ^ (s + e + 1) * r = l + 2 ^ s * (2 ^ e + 2 ^ (e + 1) * r) := by
    rw [Nat.pow_add, show s + e + 1 = s + (e + 1) by omega, Nat.pow_add 2 s (e + 1)]
    ring
  have hpos : 0 < 2 ^ e := Nat.two_pow_pos e
  have h2 : l + 2 ^ s * (2 ^ e + 2 ^ (e + 1) * r) - 2 ^ s =
      l + 2 ^ s * ((2 ^ e - 1) + 2 ^ (e + 1) * r) := by
    have : 2 ^ e + 2 ^ (e + 1) * r = ((2 ^ e - 1) + 2 ^ (e + 1) * r) + 1 := by omega
    rw [this, Nat.mul_add, Nat.mul_one]
    omega
  have h3 : l + 2 ^ (s + e + 1) * r = l + 2 ^ s * (0 + 2 ^ (e + 1) * r) := by
    rw [show s + e + 1 = s + (e + 1) by omega, Nat.pow_add 2 s (e + 1)]
    ring
  rw [h1, h2, h3, land_split s _ _ _ _ hl hl, Nat.and_self]
  congr 2
  have hlt : 2 ^ e < 2 ^ (e + 1) := Nat.pow_lt_pow_right (by decide) (by omega)
  rw [land_split (e + 1) _ _ _ _ hlt (by omega), Nat.and_self, two_pow_land_pred]

theorem pack_congr (f g : Nat → Nat) (c : List Nat) (h : ∀ x ∈ c, f x = g x) :
    pack f c = pack g c := by
  induction c with
  | nil => rfl
  | cons x xs ih =>
    simp only [pack]
    rw [h x (List.mem_cons_self _ _), ih (fun y hy => h y (List.mem_cons_of_mem _ hy))]

theorem pack_add (f g : Nat → Nat) (c : List Nat) :
    pack f c + pack g c = pack (fun x => f x + g x) c := by
  induction c with
  | nil => rfl
  | cons x xs ih =>
    simp only [pack, ← ih]
    ring

theorem pack_const_mul (a : Nat) (c : List Nat) :
    a * pack (fun _ => 1) c = pack (fun _ => a) c := by
  induction c with
  | nil => rfl
  | cons x xs ih =>
    simp only [pack, ← ih]
    ring

theorem pack_le (f g : Nat → Nat) (c : List Nat) (h : ∀ x ∈ c, g x ≤ f x) :
    pack g c ≤ pack f c := by
  induction c with
  | nil => exact Nat.le_refl _
  | cons x xs ih =>
    simp only [pack]
    have h1 := h x (List.mem_cons_self _ _)
    have h2 := ih (fun y hy => h y (List.mem_cons_of_mem _ hy))
    have h3 := Nat.mul_le_mul_left FIELD h2
    omega

theorem pack_sub (f g : Nat → Nat) (c : List Nat) (h : ∀ x ∈ c, g x ≤ f x) :
    pack f c - pack g c = pack (fun x => f x - g x) c := by
  have hadd : pack (fun x => f x - g x) c + pack g c = pack f c := by
    rw [pack_add]
    apply pack_congr
    intro x hx
    have := h x hx
    show f x - g x + g x = f x
    omega
  omega

theorem pack_land (f g : Nat → Nat) (c : List Nat)
    (h : ∀ x ∈ c, f x < 2 ^ 28 ∧ g x < 2 ^ 28) :
    pack f c &&& pack g c = pack (fun x => f x &&& g x) c := by
  induction c with
  | nil => simp [pack]
  | cons x xs ih =>
    simp only [pack]
    obtain ⟨h1, h2⟩ := h x (List.mem_cons_self _ _)
    rw [show FIELD = 2 ^ 28 from rfl, land_split 28 _ _ _ _ h1 h2,
      ← show FIELD = 2 ^ 28 from rfl, ih (fun y hy => h y (List.mem_cons_of_mem _ hy))]

theorem land_guard (u : Nat) (hu : u < 268435456) :
    u &&& 134217728 = if 134217728 ≤ u then 134217728 else 0 := by
  apply Nat.eq_of_testBit_eq
  intro i
  rw [Nat.testBit_and, show (134217728 : Nat) = 2 ^ 27 from rfl, Nat.testBit_two_pow]
  by_cases hi : 27 = i
  · subst hi
    rw [Nat.testBit_to_div_mod]
    by_cases h : 2 ^ 27 ≤ u
    · simp only [h, if_true, Nat.testBit_two_pow_self, decide_True, Bool.and_true]
      simp only [decide_eq_true_eq]
      norm_num at h ⊢
      omega
    · simp only [h, if_false, Nat.zero_testBit, decide_True, Bool.and_true]
      simp only [decide_eq_false_iff_not]
      norm_num at h ⊢
      omega
  · simp only [hi, decide_False, Bool.and_false]
    split
    · rw [Nat.testBit_two_pow]; simp [hi]
    · simp

theorem flag_field (y : Nat) (hy : y < 134217728) :
    GUARD - ((y + FULL) &&& GUARD) = if y = 0 then GUARD else 0 := by
  simp only [GUARD, FULL]
  rw [land_guard _ (by omega)]
  by_cases h : y = 0
  · subst h; simp
  · have : 134217728 ≤ y + 134217727 := by omega
    simp [this, h]

theorem land_full (cube : Nat) (h : cube < 134217728) : FULL &&& cube = cube := by
  rw [Nat.land_comm, show FULL = 2 ^ 27 - 1 from rfl]
  exact Nat.and_pow_two_sub_one_of_lt_two_pow (n := 27) h

theorem flags_ofColumn (c : List Nat) (cube : Nat) (hcube : cube < 134217728)
    (hc : ∀ x ∈ c, x < 134217728) :
    flags (Packed.ofColumn c) cube =
      (FULL - cube) + SALT * pack (fun x => if x &&& cube = 0 then GUARD else 0) c := by
  have hS : SALT = 2 ^ 64 := rfl
  have hfull : FULL < 2 ^ 64 := by decide
  have hcube64 : cube < 2 ^ 64 := Nat.lt_trans hcube (by decide)
  have hle : ∀ x, x &&& cube ≤ cube := fun x => Nat.and_le_right
  have h28 : ∀ x ∈ c, (fun x => x) x < 2 ^ 28 ∧ (fun _ => cube) x < 2 ^ 28 := by
    intro x hx
    exact ⟨Nat.lt_trans (hc x hx) (by decide), Nat.lt_trans hcube (by decide)⟩
  have h28b : ∀ x ∈ c, (fun x => (fun x => x) x &&& (fun _ => cube) x) x +
      (fun _ => FULL) x < 2 ^ 28 ∧ (fun _ => GUARD) x < 2 ^ 28 := by
    intro x _
    refine ⟨?_, (by decide : GUARD < 2 ^ 28)⟩
    have h1 := hle x
    have h2 : (x &&& cube) + 134217727 < 268435456 := by omega
    exact h2
  simp only [flags, Packed.ofColumn]
  rw [Nat.mul_add, Nat.mul_one, Nat.mul_left_comm, pack_const_mul, hS,
    land_split 64 _ _ _ _ hfull hcube64, land_full cube hcube,
    pack_land _ _ c h28,
    Nat.add_assoc, ← Nat.mul_add, pack_add,
    land_split 64 _ _ _ _ hcube64 hfull, Nat.land_comm cube, land_full cube hcube,
    pack_land _ _ c h28b]
  have hsub : pack (fun _ => GUARD) c -
      pack (fun x => (x &&& cube) + FULL &&& GUARD) c =
      pack (fun x => if x &&& cube = 0 then GUARD else 0) c := by
    rw [pack_sub]
    · apply pack_congr
      intro x _
      exact flag_field (x &&& cube) (Nat.lt_of_le_of_lt (hle x) hcube)
    · intro x _
      exact Nat.and_le_right
  have hle2 : pack (fun x => (x &&& cube) + FULL &&& GUARD) c ≤ pack (fun _ => GUARD) c :=
    pack_le _ _ c (fun x _ => Nat.and_le_right)
  rw [← hsub]
  have h3 := Nat.mul_le_mul_left (2 ^ 64) hle2
  have h5 : 2 ^ 64 * (pack (fun _ => GUARD) c -
      pack (fun x => (x &&& cube) + FULL &&& GUARD) c) =
      2 ^ 64 * pack (fun _ => GUARD) c -
      2 ^ 64 * pack (fun x => (x &&& cube) + FULL &&& GUARD) c := Nat.mul_sub _ _ _
  rw [h5]
  show FULL + 2 ^ 64 * pack (fun _ => GUARD) c -
    (cube + 2 ^ 64 * pack (fun x => (x &&& cube) + FULL &&& GUARD) c) = _
  generalize pack (fun _ => GUARD) c = A at *
  generalize pack (fun x => (x &&& cube) + FULL &&& GUARD) c = B at *
  clear h5
  generalize 2 ^ 64 * A = SA at *
  generalize 2 ^ 64 * B = SB at *
  simp only [FULL]
  omega

theorem enum_step (e salt R : Nat) (hs : salt < 2 ^ 64) :
    (salt + 2 ^ 64 * (2 ^ e * (2 ^ 27 + 2 ^ 28 * R))) &&&
        (salt + 2 ^ 64 * (2 ^ e * (2 ^ 27 + 2 ^ 28 * R)) - 2 ^ 64) =
      salt + 2 ^ 64 * (2 ^ (e + 28) * R) ∧
    (salt + 2 ^ 64 * (2 ^ e * (2 ^ 27 + 2 ^ 28 * R)) -
        (salt + 2 ^ 64 * (2 ^ (e + 28) * R))) / 2 ^ 27 = 2 ^ 64 * 2 ^ e ∧
    2 ^ 64 ≤ salt + 2 ^ 64 * (2 ^ e * (2 ^ 27 + 2 ^ 28 * R)) := by
  have hF : salt + 2 ^ 64 * (2 ^ e * (2 ^ 27 + 2 ^ 28 * R)) =
      salt + 2 ^ (64 + e + 27) + 2 ^ (64 + e + 27 + 1) * R := by
    rw [show 64 + e + 27 + 1 = 64 + e + 28 by omega]
    simp only [Nat.pow_add]
    ring
  have hF2 : salt + 2 ^ 64 * (2 ^ (e + 28) * R) = salt + 2 ^ (64 + e + 27 + 1) * R := by
    rw [show 64 + e + 27 + 1 = 64 + e + 28 by omega]
    simp only [Nat.pow_add]
    ring
  refine ⟨?_, ?_, ?_⟩
  · rw [hF, hF2]
    exact clear_lowest 64 (64 + e + 27) salt R hs (by omega)
  · rw [hF, hF2]
    have : salt + 2 ^ (64 + e + 27) + 2 ^ (64 + e + 27 + 1) * R -
        (salt + 2 ^ (64 + e + 27 + 1) * R) = 2 ^ (64 + e + 27) := by
      clear hF hF2
      generalize 2 ^ (64 + e + 27) = X
      generalize 2 ^ (64 + e + 27 + 1) * R = Y
      omega
    rw [this, show 64 + e + 27 = (64 + e) + 27 by omega, Nat.pow_add (2) (64 + e) 27,
      Nat.mul_div_cancel _ (Nat.two_pow_pos 27), Nat.pow_add]
  · rw [hF]
    have h1 : 2 ^ 64 ≤ 2 ^ (64 + e + 27) := Nat.pow_le_pow_right (by decide) (by omega)
    clear hF hF2
    generalize 2 ^ (64 + e + 27) = X at *
    generalize 2 ^ (64 + e + 27 + 1) * R = Y
    generalize (2 : Nat) ^ 64 = Z at *
    omega

theorem pack_append (f : Nat → Nat) (pre suf : List Nat) :
    pack f (pre ++ suf) = pack f pre + FIELD ^ pre.length * pack f suf := by
  induction pre with
  | nil => simp [pack]
  | cons x xs ih =>
    rw [List.cons_append]
    simp only [pack, List.length_cons, Nat.pow_succ]
    rw [ih]
    ring

theorem pack_lt (c : List Nat) (h : ∀ x ∈ c, x < FIELD) :
    pack (fun x => x) c < FIELD ^ c.length := by
  induction c with
  | nil => simp [pack]
  | cons x xs ih =>
    have h1 := h x (List.mem_cons_self _ _)
    have h2 := ih (fun y hy => h y (List.mem_cons_of_mem _ hy))
    simp only [pack, List.length_cons, Nat.pow_succ]
    have h3 : FIELD * (pack (fun x => x) xs + 1) ≤ FIELD * FIELD ^ xs.length :=
      Nat.mul_le_mul_left _ h2
    rw [Nat.mul_comm (FIELD ^ xs.length)]
    rw [Nat.mul_add, Nat.mul_one] at h3
    omega

theorem low_field (x y : Nat) (hx : x < 134217728) : (x + FIELD * y) &&& FULL = x := by
  rw [show FULL = 2 ^ 27 - 1 from rfl, Nat.and_pow_two_sub_one_eq_mod]
  simp only [FIELD]
  norm_num
  omega

theorem fast_rows_eq (k : Nat → List (List Nat)) (cube salt : Nat) (hsalt : salt < 2 ^ 64)
    (suf : List Nat) :
    ∀ (pre : List Nat) (fuel : Nat), suf.length ≤ fuel →
      (∀ x ∈ pre ++ suf, x < 134217728) →
      fast_rows (FULL + SALT * pack (fun x => x) (pre ++ suf)) k fuel
          (salt + SALT * (FIELD ^ pre.length *
            pack (fun x => if x &&& cube = 0 then GUARD else 0) suf)) =
        (suf.filter (fun x => x &&& cube = 0)).flatMap (fun x => (k x).map (fun t => x :: t)) := by
  induction suf with
  | nil =>
    intro pre fuel _ _
    have hlt : Nat.ble SALT salt = false := by
      cases h : Nat.ble SALT salt
      · rfl
      · have h2 := Nat.le_of_ble_eq_true h
        have h3 : SALT = 2 ^ 64 := rfl
        omega
    cases fuel with
    | zero => simp [fast_rows]
    | succ fuel => simp [fast_rows, pack, hlt]
  | cons x xs ih =>
    intro pre fuel hfuel hlt
    have hx : x < 134217728 := hlt x (by simp)
    have ih2 := ih (pre ++ [x])
    simp only [List.append_assoc, List.singleton_append, List.length_append,
      List.length_singleton] at ih2
    by_cases hc : x &&& cube = 0
    · obtain ⟨fuel, rfl⟩ : ∃ f, fuel = f + 1 := ⟨fuel - 1, by simp at hfuel; omega⟩
      obtain ⟨R, hR⟩ : ∃ R, R = pack (fun x => if x &&& cube = 0 then GUARD else 0) xs :=
        ⟨_, rfl⟩
      obtain ⟨Q, hQ⟩ : ∃ Q, Q = FULL + SALT * pack (fun x => x) (pre ++ x :: xs) := ⟨_, rfl⟩
      rw [← hR, ← hQ] at ih2
      obtain ⟨h1, h2, h3⟩ := enum_step (28 * pre.length) salt R hsalt
      have hB : FIELD ^ pre.length = 2 ^ (28 * pre.length) := by
        rw [show FIELD = 2 ^ 28 from rfl, ← Nat.pow_mul]
      have hF : salt + SALT * (FIELD ^ pre.length *
            pack (fun x => if x &&& cube = 0 then GUARD else 0) (x :: xs)) =
          salt + 2 ^ 64 * (2 ^ (28 * pre.length) * (2 ^ 27 + 2 ^ 28 * R)) := by
        simp only [pack, hc, if_true, hB, ← hR]
        rfl
      have hF2 : salt + 2 ^ 64 * (2 ^ (28 * pre.length + 28) * R) =
          salt + SALT * (FIELD ^ (pre.length + 1) * R) := by
        rw [show FIELD = 2 ^ 28 from rfl, ← Nat.pow_mul, Nat.mul_add, Nat.mul_one]
        rfl
      have hP : Q / (2 ^ 64 * 2 ^ (28 * pre.length)) = pack (fun x => x) (x :: xs) := by
        rw [hQ, pack_append, ← hB]
        have hpre := pack_lt pre (fun y hy =>
          Nat.lt_trans (hlt y (List.mem_append_left _ hy)) (by decide))
        have hpos : 0 < 2 ^ 64 * FIELD ^ pre.length :=
          Nat.mul_pos (by decide) (Nat.pos_pow_of_pos _ (by decide))
        have e1 : FULL + SALT * (pack (fun x => x) pre + FIELD ^ pre.length *
              pack (fun x => x) (x :: xs)) =
            (FULL + 2 ^ 64 * pack (fun x => x) pre) +
              (2 ^ 64 * FIELD ^ pre.length) * pack (fun x => x) (x :: xs) := by
          rw [show SALT = 2 ^ 64 from rfl]; ring
        rw [e1, Nat.add_mul_div_left _ _ hpos, Nat.div_eq_of_lt, Nat.zero_add]
        have h5 : 2 ^ 64 * (pack (fun x => x) pre + 1) ≤ 2 ^ 64 * FIELD ^ pre.length :=
          Nat.mul_le_mul_left _ hpre
        have h6 : FULL < 2 ^ 64 := by decide
        rw [Nat.mul_add, Nat.mul_one] at h5
        omega
      rw [hF, ← hQ]
      generalize salt + 2 ^ 64 * (2 ^ (28 * pre.length) * (2 ^ 27 + 2 ^ 28 * R)) = F at *
      have h1' : F &&& (F - SALT) = salt + 2 ^ 64 * (2 ^ (28 * pre.length + 28) * R) := h1
      have h2' : (F - (F &&& (F - SALT))) / GUARD = 2 ^ 64 * 2 ^ (28 * pre.length) := by
        rw [h1']; exact h2
      have hble : Nat.ble SALT F = true := Nat.ble_eq_true_of_le h3
      unfold fast_rows
      simp only [hble, cond_true, h2', hP]
      rw [h1', hF2, show pack (fun x => x) (x :: xs) = x + FIELD * pack (fun x => x) xs from rfl,
        low_field x _ hx, ih2 fuel (by simp at hfuel; omega) hlt]
      simp [List.filter_cons, hc]
    · have hF : salt + SALT * (FIELD ^ pre.length *
            pack (fun x => if x &&& cube = 0 then GUARD else 0) (x :: xs)) =
          salt + SALT * (FIELD ^ (pre.length + 1) *
            pack (fun x => if x &&& cube = 0 then GUARD else 0) xs) := by
        simp only [pack, hc, if_false, Nat.pow_succ]
        ring
      rw [hF, ih2 fuel (by simp at hfuel; omega) hlt]
      simp [List.filter_cons, hc]

theorem scanned_eq_self (c : List Cube) (h : ∀ x ∈ c, x ≠ Cube.empty) : scanned c = c := by
  induction c with
  | nil => rfl
  | cons a l ih =>
    have ha := h a (List.mem_cons_self _ _)
    have hl := ih (fun x hx => h x (List.mem_cons_of_mem _ hx))
    simp only [scanned] at hl ⊢
    simp [ha, hl]

/-- The fast search lists the same completions as `extensions`, for columns of
non-empty 27-bit masks. -/
theorem fast_extensions_eq (cols : List (List Nat))
    (h : ∀ c ∈ cols, ∀ x ∈ c, x < 134217728 ∧ x ≠ 0) (cube : Nat) (hcube : cube < 134217728) :
    fast_extensions (cols.map Packed.ofColumn) cube = extensions cols cube := by
  induction cols generalizing cube with
  | nil => rfl
  | cons c rest ih =>
    have hc := h c (List.mem_cons_self _ _)
    have hrest := ih (fun d hd => h d (List.mem_cons_of_mem _ hd))
    have hsalt : FULL - cube < 2 ^ 64 := by
      have : FULL < 2 ^ 64 := by decide
      omega
    have hrows := fast_rows_eq (fun x => fast_extensions (rest.map Packed.ofColumn) (cube ||| x))
      cube (FULL - cube) hsalt c [] c.length (Nat.le_refl _) (fun x hx => (hc x hx).1)
    simp only [List.nil_append, List.length_nil, Nat.pow_zero, Nat.one_mul] at hrows
    simp only [List.map_cons, fast_extensions, extensions]
    rw [flags_ofColumn c cube hcube (fun x hx => (hc x hx).1)]
    rw [show (Packed.ofColumn c).P = FULL + SALT * pack (fun x => x) c from rfl,
      show (Packed.ofColumn c).n = c.length from rfl, hrows,
      scanned_eq_self c (fun x hx => (hc x hx).2)]
    apply flatMap_congr_mem
    intro x hx
    have hxc : x ∈ c := (List.mem_filter.1 hx).1
    have hor : cube ||| x < 134217728 :=
      Nat.or_lt_two_pow (n := 27) hcube (hc x hxc).1
    rw [hrest (cube ||| x) hor]

/-! ### Evaluation of the built-in table -/

theorem column_eq_0 : column cube_piece_data 0 = raw_table.getD 0 [] := by decide!

theorem column_eq_1 : column cube_piece_data 1 = raw_table.getD 1 [] := by decide!

theorem column_eq_2 : column cube_piece_data 2 = raw_table.getD 2 [] := by decide!

theorem column_eq_3 : column cube_piece_data 3 = raw_table.getD 3 [] := by decide!

theorem column_eq_4 : column cube_piece_data 4 = raw_table.getD 4 [] := by decide!

theorem column_eq_5 : column cube_piece_data 5 = raw_table.getD 5 [] := by decide!

theorem column_eq_6 : column cube_piece_data 6 = raw_table.getD 6 [] := by decide!

theorem columns_eq_raw_table :
    (List.range CUBE_PIECE_COUNT).map (column cube_piece_data) = raw_table := by
  have h : raw_table = [raw_table.getD 0 [], raw_table.getD 1 [], raw_table.getD 2 [],
      raw_table.getD 3 [], raw_table.getD 4 [], raw_table.getD 5 [], raw_table.getD 6 []] := by
    decide!
  rw [h, ← column_eq_0, ← column_eq_1, ← column_eq_2, ← column_eq_3, ← column_eq_4,
    ← column_eq_5, ← column_eq_6]
  rfl

theorem prune_raw_table :
    terminate (prune raw_table) = column_table.map (fun store => store ++ [Cube.empty]) := by
  decide!

theorem prepared_eq : prepared cube_piece_data =
    column_table.map (fun store => store ++ [Cube.empty]) := by
  unfold prepared
  rw [columns_eq_raw_table, prune_raw_table]

theorem column_table_bounds : ∀ c ∈ column_table, ∀ x ∈ c, x < 134217728 ∧ x ≠ 0 := by
  decide!

theorem packed_table_eq : column_table.map Packed.ofColumn = packed_table := by decide!

theorem search_summary : summarize (fast_extensions packed_table 0) 0 true none = (480, true) := by
  decide!

theorem lex_lt_irrefl (s : List Nat) : lex_lt s s = false := by
  induction s with
  | nil => rfl
  | cons a s ih =>
    have h : Nat.blt a a = false := by
      cases h : Nat.blt a a
      · rfl
      · rw [Nat.blt_eq] at h; omega
    simp [lex_lt, ih, h]

theorem lex_lt_trans (s t u : List Nat) (h1 : lex_lt s t = true) (h2 : lex_lt t u = true) :
    lex_lt s u = true := by
  induction s generalizing t u with
  | nil =>
    cases t with
    | nil => simp [lex_lt] at h1
    | cons b t =>
      cases u with
      | nil => simp [lex_lt] at h2
      | cons c u => simp [lex_lt]
  | cons a s ih =>
    cases t with
    | nil => simp [lex_lt] at h1
    | cons b t =>
      cases u with
      | nil => simp [lex_lt] at h2
      | cons c u =>
        simp only [lex_lt, Bool.or_eq_true, Bool.and_eq_true, Nat.blt_eq, Nat.beq_eq] at h1 h2 ⊢
        rcases h1 with h1 | ⟨h1, h1'⟩
        · rcases h2 with h2 | ⟨h2, _⟩
          · left; omega
          · left; omega
        · rcases h2 with h2 | ⟨h2, h2'⟩
          · left; omega
          · right; exact ⟨by omega, ih t u h1' h2'⟩

theorem summarize_spec (l : List (List Nat)) :
    ∀ (n m : Nat) (ok : Bool) (prev : Option (List Nat)),
      summarize l n ok prev = (m, true) →
      m = n + l.length ∧ ok = true ∧ (∀ s ∈ l, s.foldl Nat.lor 0 = FULL) ∧
      (∀ p, prev = some p → ∀ s ∈ l, lex_lt p s = true) ∧
      l.Pairwise (fun s t => lex_lt s t = true) := by
  induction l with
  | nil =>
    intro n m ok prev h
    simp only [summarize, Prod.mk.injEq] at h
    simp [h.1, h.2]
  | cons s rest ih =>
    intro n m ok prev h
    simp only [summarize] at h
    obtain ⟨h1, h2, h3, h4, h5⟩ := ih _ _ _ _ h
    simp only [Bool.and_eq_true, Nat.beq_eq] at h2
    obtain ⟨⟨hok, hcov⟩, hprev⟩ := h2
    refine ⟨by simp only [List.length_cons]; omega, hok, ?_, ?_, ?_⟩
    · intro t ht
      rcases List.mem_cons.1 ht with rfl | ht
      · exact hcov
      · exact h3 t ht
    · intro p hp t ht
      subst hp
      simp only at hprev
      rcases List.mem_cons.1 ht with rfl | ht
      · exact hprev
      · exact lex_lt_trans p s t hprev (h4 s rfl t ht)
    · exact List.pairwise_cons.2 ⟨fun t ht => h4 s rfl t ht, h5⟩

theorem extensions_zero (cols : List (List Cube)) (h : ∀ c ∈ cols, ∀ x ∈ c, x ≠ Cube.empty) :
    extensions cols Cube.empty =
      (tuples cols).filter (fun t => decide (PairwiseDisjoint t)) := by
  rw [extensions_eq_filter]
  have hs : cols.map scanned = cols := by
    conv_rhs => rw [← List.map_id cols]
    apply List.map_congr_left
    intro c hc
    exact scanned_eq_self c (h c hc)
  rw [hs]
  apply List.filter_congr
  intro t _
  simp [Cube.empty]

/-- The Solution Set of the built-in table is what the fast search lists. -/
theorem solve_eq_fast : solve cube_piece_data = .ok (fast_extensions packed_table 0) := by
  have hne : ∀ c ∈ column_table, ∀ x ∈ c, x ≠ Cube.empty :=
    fun c hc x hx => (column_table_bounds c hc x hx).2
  rw [solve_eq, prepared_eq, map_scanned_sentinel column_table hne, ← extensions_zero _ hne,
    ← packed_table_eq, fast_extensions_eq column_table column_table_bounds 0 (by decide)]
  rfl

theorem length_of_mem_tuples (cols : List (List Cube)) (t : List Cube) (h : t ∈ tuples cols) :
    t.length = cols.length :=
  ((mem_tuples cols t).1 h).length_eq

theorem solve_length (data : List (List (List (List Bool)))) (sols : List Solution)
    (h : solve data = .ok sols) (s : Solution) (hs : s ∈ sols) : s.length = CUBE_PIECE_COUNT := by
  rw [solve_eq] at h
  have h := Except.ok.inj h
  subst h
  have h1 := length_of_mem_tuples _ _ (List.mem_filter.1 hs).1
  rw [h1, List.length_map, prepared_length]

/-- C4, as stated, fails: the Solution Set of the built-in table does not
have 240 elements. -/
theorem solution_count_ne_240 :
    ¬ ∃ sols, solve cube_piece_data = .ok sols ∧ sols.length = 240 := by
  rintro ⟨sols, h, hlen⟩
  rw [solve_eq_fast] at h
  have h := Except.ok.inj h
  subst h
  have h1 := (summarize_spec _ _ _ _ _ search_summary).1
  omega

/-- C4, amended: on the seven pieces of `cube_piece_data`, `execute` returns
a Solution Set of exactly 480 solutions, no two of them equal. -/
theorem solution_count :
    ∃ sols, solve cube_piece_data = .ok sols ∧ sols.length = 480 ∧ sols.Nodup := by
  refine ⟨_, solve_eq_fast, ?_, ?_⟩
  · have h1 := (summarize_spec _ _ _ _ _ search_summary).1
    omega
  · have h5 := (summarize_spec _ _ _ _ _ search_summary).2.2.2.2
    refine h5.imp ?_
    intro s t hst e
    subst e
    rw [lex_lt_irrefl] at hst
    exact Bool.false_ne_true hst

/-- C2: in every Solution that `execute` records on the built-in table, the
bitwise OR of the seven placements is the full 27-cell cube mask. -/
theorem recorded_solutions_exhaustive (sols : List Solution)
    (h : solve cube_piece_data = .ok sols) (s : Solution) (hs : s ∈ sols) :
    s.length = CUBE_PIECE_COUNT ∧ s.foldl (fun a b => a ||| b) Cube.empty = Cube.full := by
  refine ⟨solve_length cube_piece_data sols h s hs, ?_⟩
  rw [solve_eq_fast] at h
  have h := Except.ok.inj h
  subst h
  exact (summarize_spec _ _ _ _ _ search_summary).2.2.1 s hs

/-- Witness for C2: the first solution found. -/
theorem recorded_solutions_exhaustive_witness :
    solve cube_piece_data = .ok (fast_extensions packed_table 0) ∧
    [531, 32968, 3108, 4792320, 19140608, 100794624, 9453568] ∈ fast_extensions packed_table 0 ∧
    (([531, 32968, 3108, 4792320, 19140608, 100794624, 9453568] : List Nat).length =
        CUBE_PIECE_COUNT ∧
      ([531, 32968, 3108, 4792320, 19140608, 100794624, 9453568] : List Nat).foldl
        (fun a b => a ||| b) Cube.empty = Cube.full) :=
  ⟨solve_eq_fast, by decide!,
    recorded_solutions_exhaustive _ solve_eq_fast
      [531, 32968, 3108, 4792320, 19140608, 100794624, 9453568] (by decide!)⟩

/-- Witness for C1: the first solution found, pieces 0 and 1. -/
theorem recorded_solutions_disjoint_witness :
    solve cube_piece_data = .ok (fast_extensions packed_table 0) ∧
    [531, 32968, 3108, 4792320, 19140608, 100794624, 9453568] ∈ fast_extensions packed_table 0 ∧
    0 < CUBE_PIECE_COUNT ∧ 1 < CUBE_PIECE_COUNT ∧ 0 ≠ 1 ∧
    ([531, 32968, 3108, 4792320, 19140608, 100794624, 9453568] : List Nat).getD 0 Cube.empty &&&
      ([531, 32968, 3108, 4792320, 19140608, 100794624, 9453568] : List Nat).getD 1 Cube.empty =
      Cube.empty :=
  ⟨solve_eq_fast, by decide!, by decide, by decide, by decide,
    recorded_solutions_disjoint _ solve_eq_fast
      [531, 32968, 3108, 4792320, 19140608, 100794624, 9453568] (by decide!) 0 1 (by decide)
      (by decide) (by decide)⟩

/-! ### The columns passed to the search -/

theorem increasing_pairwise (l : List Cube) (h : increasing l = true) :
    l.Pairwise (fun a b => Cube.SortPredicate a b = true) := by
  induction l with
  | nil => exact List.Pairwise.nil
  | cons a rest ih =>
    cases rest with
    | nil => simp
    | cons b l =>
      simp only [increasing, Bool.and_eq_true] at h
      have hp := ih h.2
      refine List.pairwise_cons.2 ⟨?_, hp⟩
      intro c hc
      rcases List.mem_cons.1 hc with rfl | hc
      · exact h.1
      · have hbc := (List.pairwise_cons.1 hp).1 c hc
        simp only [Cube.SortPredicate, decide_eq_true_eq] at h hbc ⊢
        exact Nat.lt_trans h.1 hbc

theorem column_table_increasing : ∀ c ∈ column_table, increasing c = true := by decide!

theorem raw_table_count :
    ∀ p < 7, ∀ x ∈ raw_table.getD p [], Cube.count x = (if p = 6 then 3 else 4) := by decide!

theorem column_table_count :
    ∀ p < 7, ∀ x ∈ column_table.getD p [], Cube.count x = (if p = 6 then 3 else 4) := by decide!

theorem piece_count :
    ∀ p < 7, Cube.count (Cube.ofData (cube_piece_data.getD p [])) = (if p = 6 then 3 else 4) ∧
      ((cube_piece_data.getD p []).flatten.flatten).count true = (if p = 6 then 3 else 4) := by
  decide!

theorem column_eq_raw (p : Nat) (hp : p < 7) :
    column cube_piece_data p = raw_table.getD p [] := by
  interval_cases p
  · exact column_eq_0
  · exact column_eq_1
  · exact column_eq_2
  · exact column_eq_3
  · exact column_eq_4
  · exact column_eq_5
  · exact column_eq_6

theorem prepared_getD (p : Nat) (hp : p < 7) :
    scanned ((prepared cube_piece_data).getD p []) = column_table.getD p [] := by
  have hne : ∀ c ∈ column_table, ∀ x ∈ c, x ≠ Cube.empty :=
    fun c hc x hx => (column_table_bounds c hc x hx).2
  have h := map_scanned_sentinel column_table hne
  rw [← prepared_eq] at h
  have hlen : p < (prepared cube_piece_data).length := by
    rw [prepared_length]; exact hp
  have h2 := congrArg (fun l => l.getD p []) h
  simp only [List.getD_eq_getElem?_getD, List.getElem?_map] at h2 ⊢
  rw [List.getElem?_eq_getElem hlen] at h2 ⊢
  simpa using h2

theorem executeOn_start (data : List (List (List (List Bool)))) :
    executeOn data new =
      recurse CUBE_PIECE_COUNT 0 Cube.empty ⟨prepared data, [], new.state_⟩ := by
  unfold executeOn
  rw [fill_columns_eq]
  rfl

/-- C9: when `execute` calls `recurse`, each of the seven columns is a list of
non-empty placements in strictly increasing `Cube::SortPredicate` order, hence
free of duplicates, followed by one empty sentinel as its last element. -/
theorem columns_at_recurse :
    ∃ cols, execute new = recurse CUBE_PIECE_COUNT 0 Cube.empty ⟨cols, [], new.state_⟩ ∧
      cols.length = CUBE_PIECE_COUNT ∧
      ∀ store ∈ cols, ∃ body, store = body ++ [Cube.empty] ∧
        (∀ x ∈ body, x ≠ Cube.empty) ∧
        body.Pairwise (fun a b => Cube.SortPredicate a b = true) ∧ body.Nodup := by
  refine ⟨prepared cube_piece_data, executeOn_start cube_piece_data,
    prepared_length cube_piece_data, ?_⟩
  intro store hs
  rw [prepared_eq] at hs
  obtain ⟨body, hb, rfl⟩ := List.mem_map.1 hs
  have hp := increasing_pairwise body (column_table_increasing body hb)
  refine ⟨body, rfl, fun x hx => (column_table_bounds body hb x hx).2, hp, ?_⟩
  refine hp.imp ?_
  intro a b hab e
  subst e
  simp [Cube.SortPredicate] at hab

/-- C7: every placement in the Placement Set of piece `p`, before the pruning
step and in the column that `recurse` scans (sentinel excluded), occupies as
many cells of the 3×3×3 volume as there are cells set in `cube_piece_data[p]`:
4 for the pieces 0 .. 5 and 3 for piece 6. -/
theorem placement_cell_count (p : Nat) (hp : p < CUBE_PIECE_COUNT) (x : Cube)
    (hx : x ∈ column cube_piece_data p ∨ x ∈ scanned ((prepared cube_piece_data).getD p [])) :
    Cube.count x = ((cube_piece_data.getD p []).flatten.flatten).count true ∧
    Cube.count x = Cube.count (Cube.ofData (cube_piece_data.getD p [])) ∧
    Cube.count x = (if p = 6 then 3 else 4) := by
  have h1 : Cube.count x = (if p = 6 then 3 else 4) := by
    rcases hx with hx | hx
    · rw [column_eq_raw p hp] at hx
      exact raw_table_count p hp x hx
    · rw [prepared_getD p hp] at hx
      exact column_table_count p hp x hx
  exact ⟨by rw [h1, (piece_count p hp).2], by rw [h1, (piece_count p hp).1], h1⟩

/-- Witness for C7: the first placement of piece 6 in its pruned column. -/
theorem placement_cell_count_witness :
    6 < CUBE_PIECE_COUNT ∧
    (11 : Nat) ∈ scanned ((prepared cube_piece_data).getD 6 []) ∧
    Cube.count (11 : Nat) = ((cube_piece_data.getD 6 []).flatten.flatten).count true ∧
    Cube.count (11 : Nat) = Cube.count (Cube.ofData (cube_piece_data.getD 6 [])) ∧
    Cube.count (11 : Nat) = (if 6 = 6 then 3 else 4) :=
  have hm : (11 : Nat) ∈ scanned ((prepared cube_piece_data).getD 6 []) := by
    rw [prepared_getD 6 (by decide)]
    decide!
  ⟨by decide, hm, placement_cell_count 6 (by decide) _ (Or.inr hm)⟩

/-! ### Whole-cube rotations and canonical anchor placements -/

theorem mem_cells (cell : Nat × Nat × Nat) (h : InCube cell) : cell ∈ cells := by
  obtain ⟨x, y, z⟩ := cell
  obtain ⟨hx, hy, hz⟩ := h
  simp only at hx hy hz
  simp only [cells, List.mem_map, List.mem_range]
  refine ⟨9 * x + 3 * y + z, by omega, ?_⟩
  simp only [Prod.mk.injEq]
  omega

theorem src_inCube (axis : Nat) (cell : Nat × Nat × Nat) (h : InCube cell) :
    InCube (src axis cell) := by
  obtain ⟨hx, hy, hz⟩ := h
  unfold src InCube
  split
  · exact ⟨hx, hz, Nat.lt_of_le_of_lt (Nat.sub_le 2 _) (by decide)⟩
  · split
    · exact ⟨Nat.lt_of_le_of_lt (Nat.sub_le 2 _) (by decide), hy, hx⟩
    · exact ⟨hy, Nat.lt_of_le_of_lt (Nat.sub_le 2 _) (by decide), hz⟩

theorem pull_inCube (w : List Nat) (cell : Nat × Nat × Nat) (h : InCube cell) :
    InCube (pull w cell) := by
  induction w with
  | nil => exact h
  | cons a w ih => exact src_inCube a _ ih

theorem get_rotate (c : Cube) (axis : Nat) (ha : axis < 3) (cell : Nat × Nat × Nat)
    (h : InCube cell) :
    Cube.get (Cube.rotate c axis) cell.1 cell.2.1 cell.2.2 =
      Cube.get c (src axis cell).1 (src axis cell).2.1 (src axis cell).2.2 := by
  obtain ⟨hx, hy, hz⟩ := h
  have h3 : axis = 0 ∨ axis = 1 ∨ axis = 2 := by omega
  rcases h3 with rfl | rfl | rfl <;>
    simp [Cube.rotate, src, Cube.AXIS_X, Cube.AXIS_Y, Cube.AXIS_Z, Cube.get_ofCells _ _ _ _ hx hy hz]

theorem rotate_word_cons (c : Cube) (a : Nat) (w : List Nat) :
    rotate_word c (a :: w) = rotate_word (Cube.rotate c a) w := rfl

theorem get_rotate_word (w : List Nat) (hw : ∀ a ∈ w, a < 3) (c : Cube)
    (cell : Nat × Nat × Nat) (h : InCube cell) :
    Cube.get (rotate_word c w) cell.1 cell.2.1 cell.2.2 =
      Cube.get c (pull w cell).1 (pull w cell).2.1 (pull w cell).2.2 := by
  induction w generalizing c with
  | nil => rfl
  | cons a w ih =>
    rw [rotate_word_cons, ih (fun b hb => hw b (List.mem_cons_of_mem _ hb)), pull,
      get_rotate c a (hw a (List.mem_cons_self _ _)) _ (pull_inCube w cell h)]

theorem Cube.ext_get (c d : Cube) (hc : c < 2 ^ 27) (hd : d < 2 ^ 27)
    (h : ∀ cell, InCube cell → Cube.get c cell.1 cell.2.1 cell.2.2 =
      Cube.get d cell.1 cell.2.1 cell.2.2) : c = d := by
  apply Nat.eq_of_testBit_eq
  intro i
  by_cases hi : i < 27
  · have := h (i / 9, i / 3 % 3, i % 3) ⟨by simp only; omega, by simp only; omega,
      by simp only; omega⟩
    simp only [Cube.get] at this
    have e : 9 * (i / 9) + 3 * (i / 3 % 3) + i % 3 = i := by omega
    rw [e] at this
    exact this
  · have h2 : 2 ^ 27 ≤ 2 ^ i := Nat.pow_le_pow_right (by decide) (by omega)
    rw [Nat.testBit_lt_two_pow (Nat.lt_of_lt_of_le hc h2),
      Nat.testBit_lt_two_pow (Nat.lt_of_lt_of_le hd h2)]

theorem rotate_lt (c : Cube) (axis : Nat) (hc : c < 2 ^ 27) : Cube.rotate c axis < 2 ^ 27 := by
  unfold Cube.rotate
  split
  · exact Cube.ofCells_lt _
  · split
    · exact Cube.ofCells_lt _
    · split
      · exact Cube.ofCells_lt _
      · exact hc

theorem rotate_word_lt (w : List Nat) (c : Cube) (hc : c < 2 ^ 27) :
    rotate_word c w < 2 ^ 27 := by
  induction w generalizing c with
  | nil => exact hc
  | cons a w ih => exact ih _ (rotate_lt c a hc)

/-- Two words that move the cells alike turn every cube alike. -/
theorem rotate_word_congr (w v : List Nat) (hw : ∀ a ∈ w, a < 3) (hv : ∀ a ∈ v, a < 3)
    (h : ∀ cell ∈ cells, pull w cell = pull v cell) (c : Cube) (hc : c < 2 ^ 27) :
    rotate_word c w = rotate_word c v := by
  apply Cube.ext_get _ _ (rotate_word_lt w c hc) (rotate_word_lt v c hc)
  intro cell hcell
  rw [get_rotate_word w hw c cell hcell, get_rotate_word v hv c cell hcell,
    h cell (mem_cells cell hcell)]

theorem rotate_word_append (c : Cube) (w v : List Nat) :
    rotate_word c (w ++ v) = rotate_word (rotate_word c w) v := by
  simp [rotate_word, List.foldl_append]

theorem rotations_eq (c : Cube) : rotations c = words24.map (rotate_word c) := by
  simp [rotations, compute_rotations, compute_rotations_loop, words24, face_words, rotate_word,
    Cube.AXIS_X, Cube.AXIS_Z]

theorem word_axes : ∀ k < 24, ∀ a ∈ word k, a < 3 := by decide

theorem next_table_spec : ∀ k < 24, ∀ ax < 3,
    (next_table.getD k []).getD ax 0 < 24 ∧
    ∀ cell ∈ cells, pull (word k ++ [ax]) cell =
      pull (word ((next_table.getD k []).getD ax 0)) cell := by decide!

theorem inverse_table_spec : ∀ k < 24,
    inverse_table.getD k 0 < 24 ∧
    ∀ cell ∈ cells, pull (word k ++ word (inverse_table.getD k 0)) cell = cell := by decide!

theorem mem_rotations (c x : Cube) :
    x ∈ rotations c ↔ ∃ k, k < 24 ∧ x = rotate_word c (word k) := by
  rw [rotations_eq, List.mem_map]
  constructor
  · rintro ⟨w, hw, rfl⟩
    obtain ⟨k, hk, rfl⟩ := List.getElem_of_mem hw
    have hk24 : k < 24 := hk
    refine ⟨k, hk24, ?_⟩
    simp [word, List.getD_eq_getElem?_getD, List.getElem?_eq_getElem hk]
  · rintro ⟨k, hk, rfl⟩
    have hk2 : k < words24.length := hk
    refine ⟨word k, ?_, rfl⟩
    simp only [word, List.getD_eq_getElem?_getD, List.getElem?_eq_getElem hk2, Option.getD_some]
    exact List.getElem_mem hk2

theorem rotate_mem_rotations (c x : Cube) (hc : c < 2 ^ 27) (hx : x ∈ rotations c) (ax : Nat)
    (ha : ax < 3) : Cube.rotate x ax ∈ rotations c := by
  obtain ⟨k, hk, rfl⟩ := (mem_rotations c x).1 hx
  obtain ⟨h1, h2⟩ := next_table_spec k hk ax ha
  refine (mem_rotations c _).2 ⟨_, h1, ?_⟩
  have e : Cube.rotate (rotate_word c (word k)) ax = rotate_word c (word k ++ [ax]) := by
    rw [rotate_word_append]; rfl
  rw [e]
  apply rotate_word_congr _ _ _ (word_axes _ h1) h2 c hc
  intro a hm
  rcases List.mem_append.1 hm with hm | hm
  · exact word_axes k hk a hm
  · simp only [List.mem_singleton] at hm
    omega

theorem rotate_word_inverse (c : Cube) (hc : c < 2 ^ 27) (k : Nat) (hk : k < 24) :
    rotate_word (rotate_word c (word k)) (word (inverse_table.getD k 0)) = c := by
  obtain ⟨h1, h2⟩ := inverse_table_spec k hk
  rw [← rotate_word_append]
  have h := rotate_word_congr (word k ++ word (inverse_table.getD k 0)) [] ?_ (by simp) h2 c hc
  · exact h
  · intro a hm
    rcases List.mem_append.1 hm with hm | hm
    · exact word_axes k hk a hm
    · exact word_axes _ h1 a hm

theorem get_land (a b : Cube) (x y z : Nat) :
    Cube.get (a &&& b) x y z = (Cube.get a x y z && Cube.get b x y z) := by
  simp [Cube.get, Nat.testBit_and]

theorem rotate_lt_of_axis (c : Cube) (ax : Nat) (ha : ax < 3) : Cube.rotate c ax < 2 ^ 27 := by
  unfold Cube.rotate
  split
  · exact Cube.ofCells_lt _
  · split
    · exact Cube.ofCells_lt _
    · split
      · exact Cube.ofCells_lt _
      · simp only [Cube.AXIS_X, Cube.AXIS_Y, Cube.AXIS_Z] at *
        omega

theorem rotate_disjoint (a b : Cube) (ax : Nat) (h : a &&& b = Cube.empty) :
    Cube.rotate a ax &&& Cube.rotate b ax = Cube.empty := by
  by_cases ha : ax < 3
  · have hlt : Cube.rotate a ax &&& Cube.rotate b ax < 2 ^ 27 :=
      Nat.and_lt_two_pow _ (rotate_lt_of_axis b ax ha)
    apply Cube.ext_get _ _ hlt (by decide)
    intro cell hcell
    rw [get_land, get_rotate a ax ha cell hcell, get_rotate b ax ha cell hcell, ← get_land, h]
    simp [Cube.get, Cube.empty]
  · have e : ∀ c : Cube, Cube.rotate c ax = c := by
      intro c
      have h0 : ax ≠ 0 := by omega
      have h1 : ax ≠ 1 := by omega
      have h2 : ax ≠ 2 := by omega
      simp [Cube.rotate, Cube.AXIS_X, Cube.AXIS_Y, Cube.AXIS_Z, h0, h1, h2]
    rw [e, e, h]

theorem rotate_word_disjoint (w : List Nat) (a b : Cube) (h : a &&& b = Cube.empty) :
    rotate_word a w &&& rotate_word b w = Cube.empty := by
  induction w generalizing a b with
  | nil => exact h
  | cons ax w ih => exact ih _ _ (rotate_disjoint a b ax h)

theorem PairwiseDisjoint.rotate_word {t : List Cube} (h : PairwiseDisjoint t) (w : List Nat) :
    PairwiseDisjoint (t.map (fun x => Somato.rotate_word x w)) := by
  unfold PairwiseDisjoint at h ⊢
  rw [List.pairwise_map]
  exact h.imp (fun hab => rotate_word_disjoint w _ _ hab)

theorem placements_eq (cube : Cube) : placements cube = (positions cube).flatMap rotations := by
  unfold placements positions
  split
  · rfl
  · simp [List.flatMap_assoc]

theorem shift_lt (c : Cube) (axis : Nat) (hc : c < 2 ^ 27) : Cube.shift c axis < 2 ^ 27 := by
  unfold Cube.shift
  split
  · decide
  · split
    · exact Cube.ofCells_lt _
    · split
      · exact Cube.ofCells_lt _
      · split
        · exact Cube.ofCells_lt _
        · exact hc

theorem slides_lt (axis : Nat) (c : Cube) (hc : c < 2 ^ 27) : ∀ x ∈ slides axis c, x < 2 ^ 27 := by
  intro x hx
  have hx2 := (List.takeWhile_sublist _).subset hx
  simp only [List.mem_cons, List.mem_singleton, List.not_mem_nil, or_false] at hx2
  rcases hx2 with rfl | rfl | rfl
  · exact hc
  · exact shift_lt _ _ hc
  · exact shift_lt _ _ (shift_lt _ _ hc)

theorem positions_lt (cube : Cube) (hc : cube < 2 ^ 27) : ∀ s ∈ positions cube, s < 2 ^ 27 := by
  intro s hs
  unfold positions at hs
  split at hs
  · simp at hs
  · simp only [List.mem_flatMap] at hs
    obtain ⟨z, hz, y, hy, hx⟩ := hs
    exact slides_lt _ _ (slides_lt _ _ (slides_lt _ _ hc z hz) y hy) s hx

theorem ofData_lt (data : List (List (List Bool))) : Cube.ofData data < 2 ^ 27 :=
  Cube.ofCells_lt _

/-- The placements of a shape are closed under whole-cube rotations. -/
theorem rotate_word_mem_placements (data : List (List (List Bool))) (w : List Nat)
    (hw : ∀ a ∈ w, a < 3) (x : Cube) (hx : x ∈ placements (Cube.ofData data)) :
    rotate_word x w ∈ placements (Cube.ofData data) := by
  induction w generalizing x with
  | nil => exact hx
  | cons a w ih =>
    apply ih (fun b hb => hw b (List.mem_cons_of_mem _ hb))
    rw [placements_eq, List.mem_flatMap] at hx ⊢
    obtain ⟨s, hs, hxs⟩ := hx
    exact ⟨s, hs, rotate_mem_rotations s x (positions_lt _ (ofData_lt data) s hs) hxs a
      (hw a (List.mem_cons_self _ _))⟩

theorem mem_sort_insert (a x : Cube) (l : List Cube) :
    x ∈ sort_insert a l ↔ x = a ∨ x ∈ l := by
  induction l with
  | nil => simp [sort_insert]
  | cons b l ih =>
    unfold sort_insert
    split
    · simp only [List.mem_cons, ih]
      tauto
    · simp

theorem mem_sort (x : Cube) (l : List Cube) : x ∈ sort l ↔ x ∈ l := by
  induction l with
  | nil => simp [sort]
  | cons a l ih => simp [sort, mem_sort_insert, ih]

theorem mem_unique (x : Cube) (l : List Cube) : x ∈ unique l ↔ x ∈ l := by
  induction l with
  | nil => simp [unique]
  | cons a l ih =>
    cases l with
    | nil => simp [unique]
    | cons b l =>
      unfold unique
      simp only
      split
      · rename_i hab
        subst hab
        rw [ih]
        simp
      · simp only [List.mem_cons] at ih ⊢
        rw [ih]

theorem mem_column (data : List (List (List (List Bool)))) (i : Nat) (hi : i ≠ 0) (x : Cube) :
    x ∈ column data i ↔ x ∈ placements (Cube.ofData (data.getD i [])) := by
  simp [column, hi, mem_unique, mem_sort]

theorem anchor_positions :
    ∀ s ∈ positions (Cube.ofData (cube_piece_data.getD 0 [])),
      ∃ a ∈ raw_table.getD 0 [], a ∈ rotations s := by decide!

theorem raw_table_nonzero : ∀ c ∈ raw_table, ∀ x ∈ c, x ≠ Cube.empty := by decide!

theorem anchor_unrelated :
    ∀ a ∈ raw_table.getD 0 [], ∀ b ∈ raw_table.getD 0 [], a ≠ b → b ∉ rotations a := by decide!

theorem anchor_lt : ∀ a ∈ raw_table.getD 0 [], a < 2 ^ 27 := by decide

theorem solve_eq_raw :
    solve cube_piece_data =
      .ok ((tuples raw_table).filter (fun t => decide (PairwiseDisjoint t))) := by
  have hs : raw_table.map scanned = raw_table := by
    conv_rhs => rw [← List.map_id raw_table]
    apply List.map_congr_left
    intro c hc
    exact scanned_eq_self c (raw_table_nonzero c hc)
  rw [solve_eq]
  unfold prepared
  rw [pruned_solutions_eq, terminate_map_scanned, columns_eq_raw_table, hs]

theorem forall₂_of_getD {α β : Type} (R : α → β → Prop) (d1 : α) (d2 : β) :
    ∀ (l1 : List α) (l2 : List β), l1.length = l2.length →
      (∀ i, i < l1.length → R (l1.getD i d1) (l2.getD i d2)) → List.Forall₂ R l1 l2 := by
  intro l1
  induction l1 with
  | nil =>
    intro l2 hl _
    cases l2 with
    | nil => exact List.Forall₂.nil
    | cons b l2 => simp at hl
  | cons a l1 ih =>
    intro l2 hl h
    cases l2 with
    | nil => simp at hl
    | cons b l2 =>
      refine List.Forall₂.cons (h 0 (by simp)) (ih l2 (by simpa using hl) ?_)
      intro i hi
      have := h (i + 1) (by simp only [List.length_cons]; omega)
      simpa using this

theorem rotate_word_mem_rotations (a : Cube) (ha : a < 2 ^ 27) (w : List Nat) :
    rotate_word a w ∈ rotations a := by
  have h0 : a ∈ rotations a := (mem_rotations a a).2 ⟨0, by decide, rfl⟩
  suffices h : ∀ x, x ∈ rotations a → rotate_word x w ∈ rotations a from h a h0
  induction w with
  | nil => exact fun x hx => hx
  | cons ax w ih =>
    intro x hx
    apply ih
    by_cases hax : ax < 3
    · exact rotate_mem_rotations a x ha hx ax hax
    · have e : Cube.rotate x ax = x := by
        have h0 : ax ≠ 0 := by omega
        have h1 : ax ≠ 1 := by omega
        have h2 : ax ≠ 2 := by omega
        simp [Cube.rotate, Cube.AXIS_X, Cube.AXIS_Y, Cube.AXIS_Z, h0, h1, h2]
      rw [e]
      exact hx

/-- C6: after `filter_rotations`, `sort` and `unique`, no two distinct
placements of the anchor column are images of one another under one of the 24
rotations that `compute_rotations` generates, nor under any sequence of
quarter turns of the cube. -/
theorem anchor_canonical (a b : Cube) (ha : a ∈ column cube_piece_data 0)
    (hb : b ∈ column cube_piece_data 0) (hab : a ≠ b) :
    b ∉ rotations a ∧ ∀ w : List Nat, rotate_word a w ≠ b := by
  rw [column_eq_0] at ha hb
  have h1 := anchor_unrelated a ha b hb hab
  refine ⟨h1, ?_⟩
  intro w e
  apply h1
  rw [← e]
  exact rotate_word_mem_rotations a (anchor_lt a ha) w

/-- Witness for C6: the first two placements of the anchor column. -/
theorem anchor_canonical_witness :
    (531 : Nat) ∈ column cube_piece_data 0 ∧ (1050 : Nat) ∈ column cube_piece_data 0 ∧
    (531 : Nat) ≠ 1050 ∧
    ((1050 : Nat) ∉ rotations 531 ∧ ∀ w : List Nat, rotate_word 531 w ≠ 1050) :=
  have h1 : (531 : Nat) ∈ column cube_piece_data 0 := by rw [column_eq_0]; decide
  have h2 : (1050 : Nat) ∈ column cube_piece_data 0 := by rw [column_eq_0]; decide
  ⟨h1, h2, by decide, anchor_canonical 531 1050 h1 h2 (by decide)⟩

theorem anchor_rotates_into_column (x : Cube)
    (hx : x ∈ placements (Cube.ofData (cube_piece_data.getD 0 []))) :
    ∃ w : List Nat, (∀ a ∈ w, a < 3) ∧ rotate_word x w ∈ raw_table.getD 0 [] := by
  rw [placements_eq, List.mem_flatMap] at hx
  obtain ⟨s, hs, hxs⟩ := hx
  have hslt : s < 2 ^ 27 := positions_lt _ (ofData_lt _) s hs
  obtain ⟨k, hk, rfl⟩ := (mem_rotations s x).1 hxs
  obtain ⟨a, ha, has⟩ := anchor_positions s hs
  obtain ⟨j, hj, rfl⟩ := (mem_rotations s a).1 has
  have hinv := (inverse_table_spec k hk).1
  refine ⟨word (inverse_table.getD k 0) ++ word j, ?_, ?_⟩
  · intro b hb
    rcases List.mem_append.1 hb with hb | hb
    · exact word_axes _ hinv b hb
    · exact word_axes j hj b hb
  · rw [rotate_word_append, rotate_word_inverse s hslt k hk]
    exact ha

/-- C5: restricting the anchor to its canonical representatives loses no
solution up to rotation.  For every exact tiling of the cube by the seven
pieces, each at any of its translated and rotated placements, some sequence
of quarter turns of the whole cube maps the tiling, piece by piece, onto a
Solution of the Solution Set that `execute` computes. -/
theorem tiling_rotates_into_solutions (t : List Cube) (h : IsTiling t) :
    ∃ w : List Nat, (∀ a ∈ w, a < 3) ∧
      ∃ sols, solve cube_piece_data = .ok sols ∧ t.map (fun x => rotate_word x w) ∈ sols := by
  obtain ⟨hlen, hmem, hpd, _⟩ := h
  obtain ⟨w, hw, h0⟩ := anchor_rotates_into_column _ (hmem 0 (by decide))
  refine ⟨w, hw, _, solve_eq_raw, ?_⟩
  rw [List.mem_filter]
  refine ⟨?_, by simpa using hpd.rotate_word w⟩
  rw [mem_tuples]
  apply forall₂_of_getD _ Cube.empty []
  · rw [List.length_map, hlen]; rfl
  · intro i hi
    rw [List.length_map, hlen] at hi
    have hi2 : i < t.length := by rw [hlen]; exact hi
    have e : (t.map (fun x => rotate_word x w)).getD i Cube.empty =
        rotate_word (t.getD i Cube.empty) w := by
      simp [List.getD_eq_getElem?_getD, List.getElem?_eq_getElem hi2]
    rw [e]
    by_cases hi0 : i = 0
    · subst hi0
      exact h0
    · rw [← column_eq_raw i hi, mem_column _ i hi0]
      exact rotate_word_mem_placements _ w hw _ (hmem i hi)

theorem rotated_solution_placed :
    ∀ i, i < CUBE_PIECE_COUNT →
      ([2884608, 523, 13633536, 33628176, 16814144, 420, 67256320] : List Nat).getD i Cube.empty ∈
        placements (Cube.ofData (cube_piece_data.getD i [])) := by decide!

/-- Witness for C5: the first solution turned about the Z axis, a tiling that
is not itself in the Solution Set. -/
theorem tiling_rotates_into_solutions_witness :
    IsTiling [2884608, 523, 13633536, 33628176, 16814144, 420, 67256320] ∧
    ∃ w : List Nat, (∀ a ∈ w, a < 3) ∧
      ∃ sols, solve cube_piece_data = .ok sols ∧
        ([2884608, 523, 13633536, 33628176, 16814144, 420, 67256320] : List Nat).map
          (fun x => rotate_word x w) ∈ sols :=
  have h : IsTiling [2884608, 523, 13633536, 33628176, 16814144, 420, 67256320] :=
    ⟨by decide, rotated_solution_placed, by unfold PairwiseDisjoint; decide, by decide⟩
  ⟨h, tiling_rotates_into_solutions _ h⟩

/-! ### The background runner: `swap_result`, `execute` and the destructor -/

/-- C11: `swap_result` called while a run is in flight (`thread_` non-null)
fails its `g_return_if_fail` check and leaves both the runner, `solutions_`
included, and the vector of the caller unchanged. -/
theorem swap_result_in_flight_fails (t : PuzzleThread) (result : List Solution)
    (h : t.thread_ ≠ none) :
    PuzzleThread.swap_result t result = (t, result, [Event.return_if_fail]) ∧
    (PuzzleThread.swap_result t result).1.solutions_ = t.solutions_ ∧
    (PuzzleThread.swap_result t result).2.1 = result := by
  have e : PuzzleThread.swap_result t result = (t, result, [Event.return_if_fail]) := by
    simp [PuzzleThread.swap_result, h]
  rw [e]
  exact ⟨rfl, rfl, rfl⟩

/-- Witness for C11: a runner with worker 1 in flight and one accumulated
solution, called with a vector that holds another. -/
theorem swap_result_in_flight_fails_witness :
    (⟨[[1]], some 1⟩ : PuzzleThread).thread_ ≠ none ∧
    (PuzzleThread.swap_result ⟨[[1]], some 1⟩ [[2]] = (⟨[[1]], some 1⟩, [[2]], [Event.return_if_fail]) ∧
      (PuzzleThread.swap_result ⟨[[1]], some 1⟩ [[2]]).1.solutions_ =
        (⟨[[1]], some 1⟩ : PuzzleThread).solutions_ ∧
      (PuzzleThread.swap_result ⟨[[1]], some 1⟩ [[2]]).2.1 = [[2]]) :=
  ⟨by decide, swap_result_in_flight_fails ⟨[[1]], some 1⟩ [[2]] (by decide)⟩

/-- C12, as stated, fails: with no run in flight and a caller whose vector is
not empty, the copy of the runner is not empty after `swap_result`. -/
theorem swap_result_runner_not_empty :
    (⟨[[1]], none⟩ : PuzzleThread).thread_ = none ∧
    (PuzzleThread.swap_result ⟨[[1]], none⟩ [[2]]).2.1 = [[1]] ∧
    (PuzzleThread.swap_result ⟨[[1]], none⟩ [[2]]).1.solutions_ ≠ [] := by
  decide

/-- C12, amended: with no run in flight, after `swap_result` the vector of the
caller holds the Solution Set that the runner had accumulated and the copy of
the runner holds the previous contents of that vector; the copy of the runner
is empty exactly when the caller supplied an empty vector. -/
theorem swap_result_exchanges (t : PuzzleThread) (result : List Solution)
    (h : t.thread_ = none) :
    (PuzzleThread.swap_result t result).2.1 = t.solutions_ ∧
    (PuzzleThread.swap_result t result).1.solutions_ = result ∧
    (PuzzleThread.swap_result t result).1.thread_ = none ∧
    (PuzzleThread.swap_result t result).2.2 = [] ∧
    ((PuzzleThread.swap_result t result).1.solutions_ = [] ↔ result = []) := by
  have e : PuzzleThread.swap_result t result = ({ t with solutions_ := result }, t.solutions_, []) := by
    simp [PuzzleThread.swap_result, h]
  rw [e]
  exact ⟨rfl, rfl, h, rfl, Iff.rfl⟩

/-- Witness for C12 (amended): an idle runner with one solution and a caller
with an empty vector. -/
theorem swap_result_exchanges_witness :
    (⟨[[1]], none⟩ : PuzzleThread).thread_ = none ∧
    ((PuzzleThread.swap_result ⟨[[1]], none⟩ []).2.1 = (⟨[[1]], none⟩ : PuzzleThread).solutions_ ∧
    (PuzzleThread.swap_result ⟨[[1]], none⟩ []).1.solutions_ = [] ∧
    (PuzzleThread.swap_result ⟨[[1]], none⟩ []).1.thread_ = none ∧
    (PuzzleThread.swap_result ⟨[[1]], none⟩ []).2.2 = [] ∧
    ((PuzzleThread.swap_result ⟨[[1]], none⟩ []).1.solutions_ = [] ↔ ([] : List Solution) = [])) :=
  ⟨rfl, swap_result_exchanges ⟨[[1]], none⟩ [] rfl⟩

theorem completed_run_eq {ε : Type} (t : PuzzleThread) (handle : Nat)
    (body : Except ε PuzzleSolver) (h : t.thread_ = none) :
    ∃ t1, PuzzleThread.completed_run t handle body = some t1 ∧ t1.thread_ = none := by
  cases body <;>
    simp [PuzzleThread.completed_run, PuzzleThread.run, PuzzleThread.execute,
      PuzzleThread.on_thread_exit, h]

/-- C13, as stated, fails: after a completed run and a first `swap_result`,
a second `swap_result` without a new `run` does not fail; it passes the check
and exchanges the vectors again. -/
theorem second_swap_result_succeeds :
    PuzzleThread.completed_run PuzzleThread.new 1
      (Except.ok ⟨[], [[1]], []⟩ : Except Fault PuzzleSolver) = some ⟨[[1]], none⟩ ∧
    PuzzleThread.swap_result ⟨[[1]], none⟩ [] = (⟨[], none⟩, [[1]], []) ∧
    PuzzleThread.swap_result (PuzzleThread.swap_result ⟨[[1]], none⟩ []).1 [[2]] =
      (⟨[[2]], none⟩, [], []) ∧
    (PuzzleThread.swap_result (PuzzleThread.swap_result ⟨[[1]], none⟩ []).1 [[2]]).2.2 ≠
      [Event.return_if_fail] := by
  decide

/-- C13, amended: after a completed run whose result has been taken once with
`swap_result`, `thread_` is still null, so a second `swap_result` made without
a new `run` in between passes the check and does not fail: it hands the
caller what the runner holds, the previous contents of the vector of the first
call, and stores the vector of the second call in the runner. -/
theorem second_swap_result_exchanges {ε : Type} (t : PuzzleThread) (handle : Nat)
    (body : Except ε PuzzleSolver) (r1 r2 : List Solution) (h : t.thread_ = none) :
    ∃ t1, PuzzleThread.completed_run t handle body = some t1 ∧
      (PuzzleThread.swap_result t1 r1).2.2 = [] ∧
      PuzzleThread.swap_result (PuzzleThread.swap_result t1 r1).1 r2 = (⟨r2, none⟩, r1, []) := by
  obtain ⟨t1, h1, h2⟩ := completed_run_eq t handle body h
  refine ⟨t1, h1, ?_, ?_⟩ <;> simp [PuzzleThread.swap_result, h2]

/-- Witness for C13 (amended): a fresh runner, worker 1, a solver that found
one solution, and two callers with empty vectors. -/
theorem second_swap_result_exchanges_witness :
    PuzzleThread.new.thread_ = none ∧
    ∃ t1, PuzzleThread.completed_run PuzzleThread.new 1
        (Except.ok ⟨[], [[1]], []⟩ : Except Fault PuzzleSolver) = some t1 ∧
      (PuzzleThread.swap_result t1 []).2.2 = [] ∧
      PuzzleThread.swap_result (PuzzleThread.swap_result t1 []).1 [] = (⟨[], none⟩, [], []) :=
  ⟨rfl, second_swap_result_exchanges PuzzleThread.new 1 _ [] [] rfl⟩

/-- C14: every execution of the worker body `PuzzleThread::execute` emits
`signal_exit_` exactly once: once and nothing else when the pipeline completes,
and once, before the exception is rethrown, when the pipeline raises a
fault. -/
theorem execute_emits_exit_once {ε : Type} (t : PuzzleThread) :
    (∀ body : Except ε PuzzleSolver,
      (PuzzleThread.execute body t).2.1.count Event.signal_exit = 1) ∧
    (∀ solver : PuzzleSolver, PuzzleThread.execute (Except.ok solver : Except ε PuzzleSolver) t =
      ({ t with solutions_ := solver.solutions_ }, [Event.signal_exit], none)) ∧
    (∀ e : ε, PuzzleThread.execute (Except.error e : Except ε PuzzleSolver) t =
      (t, [Event.signal_exit, Event.rethrow], some e)) := by
  refine ⟨?_, fun _ => rfl, fun _ => rfl⟩
  intro body
  cases body <;> simp [PuzzleThread.execute]

/-- The destructor disconnects the exit handler and then, when a run is in
flight, joins the worker. -/
theorem destroy_joins (t : PuzzleThread) (handle : Nat) (h : t.thread_ = some handle) :
    PuzzleThread.destroy t = [Event.disconnect, Event.thread_join handle] := by
  simp [PuzzleThread.destroy, h]

theorem destroy_idle (t : PuzzleThread) (h : t.thread_ = none) :
    PuzzleThread.destroy t = [Event.disconnect] := by
  simp [PuzzleThread.destroy, h]

/-! ### The generator and the canonicalizer, function by function -/

theorem rotations_length (c : Cube) : (rotations c).length = 24 := by
  rw [rotations_eq, List.length_map]; rfl

theorem words24_distinct : (words24.map (rotate_word 531)).Nodup := by decide!

theorem words24_mem_axes : ∀ w ∈ words24, ∀ a ∈ w, a < 3 := by decide

theorem face_words_front : ∀ front ∈ [((1 : Nat), (1 : Nat), (0 : Nat)), (1, 1, 2)],
    (face_words.map (fun f => pull f front)).Nodup ∧
    ∀ f ∈ face_words, pull f front ∈
      [((1 : Nat), (1 : Nat), (0 : Nat)), (1, 1, 2), (1, 0, 1), (1, 2, 1), (0, 1, 1), (2, 1, 1)] := by
  decide

theorem words24_closed (w : List Nat) (hw : w ∈ words24) (ax : Nat) (ha : ax < 3) :
    ∃ v ∈ words24, ∀ d, d < 2 ^ 27 → Cube.rotate (rotate_word d w) ax = rotate_word d v := by
  obtain ⟨k, hk, rfl⟩ := List.getElem_of_mem hw
  have hk24 : k < 24 := hk
  have hwk : words24[k] = word k := by
    unfold word
    rw [List.getD_eq_getElem _ _ hk]
  obtain ⟨h1, h2⟩ := next_table_spec k hk24 ax ha
  refine ⟨word ((next_table.getD k []).getD ax 0), ?_, ?_⟩
  · unfold word
    rw [List.getD_eq_getElem _ _ (show (next_table.getD k []).getD ax 0 < words24.length from h1)]
    exact List.getElem_mem _
  · intro d hd
    rw [hwk]
    have e : Cube.rotate (rotate_word d (word k)) ax = rotate_word d (word k ++ [ax]) := by
      rw [rotate_word_append]; rfl
    rw [e]
    refine rotate_word_congr _ _ ?_ (word_axes _ h1) h2 d hd
    intro a hm
    rcases List.mem_append.1 hm with h | h
    · exact word_axes k hk24 a h
    · simp only [List.mem_singleton] at h; omega

theorem min_element_mem (m : Cube) (xs : List Cube) : min_element m xs ∈ m :: xs := by
  induction xs generalizing m with
  | nil => simp [min_element]
  | cons x xs ih =>
    unfold min_element
    split
    · have := ih x
      simp only [List.mem_cons] at this ⊢
      rcases this with h | h
      · exact Or.inr (Or.inl h)
      · exact Or.inr (Or.inr h)
    · have := ih m
      simp only [List.mem_cons] at this ⊢
      rcases this with h | h
      · exact Or.inl h
      · exact Or.inr (Or.inr h)

theorem min_element_le_self (m : Nat) (xs : List Nat) : min_element m xs ≤ m := by
  induction xs generalizing m with
  | nil => simp [min_element]
  | cons x xs ih =>
    unfold min_element
    split
    · rename_i h
      have h1 : x < m := by simpa [Cube.SortPredicate] using h
      exact Nat.le_trans (ih x) (Nat.le_of_lt h1)
    · exact ih m

theorem min_element_le (m : Nat) (xs : List Nat) : ∀ x ∈ m :: xs, min_element m xs ≤ x := by
  induction xs generalizing m with
  | nil => simp [min_element]
  | cons y xs ih =>
    intro x hx
    unfold min_element
    split
    · rename_i h
      have h1 : y < m := by simpa [Cube.SortPredicate] using h
      simp only [List.mem_cons] at hx
      rcases hx with rfl | rfl | hx
      · exact Nat.le_trans (min_element_le_self y xs) (Nat.le_of_lt h1)
      · exact min_element_le_self _ xs
      · exact ih y x (List.mem_cons_of_mem _ hx)
    · rename_i h
      have h1 : m ≤ y := by simpa [Cube.SortPredicate] using h
      simp only [List.mem_cons] at hx
      rcases hx with rfl | rfl | hx
      · exact min_element_le_self _ xs
      · exact Nat.le_trans (min_element_le_self m xs) h1
      · exact ih m x (List.mem_cons_of_mem _ hx)

theorem group_minima_length (k : Nat) (p : List Cube) : (group_minima k p).length = k := by
  induction k generalizing p with
  | zero => rfl
  | succ k ih => simp [group_minima, ih]

theorem group_minima_getD (k : Nat) (p : List Cube) (j : Nat) (hj : j < k) :
    (group_minima k p).getD j Cube.empty =
      min_element ((p.drop (24 * j)).headD Cube.empty) ((p.drop (24 * j)).take 24).tail := by
  induction k generalizing p j with
  | zero => omega
  | succ k ih =>
    cases j with
    | zero => simp [group_minima]
    | succ j =>
      simp only [group_minima, List.getD_cons_succ]
      rw [ih _ j (by omega), List.drop_drop]
      have e : 24 + 24 * j = 24 * (j + 1) := by omega
      rw [e]

/-- C18: for a store whose length `n` is a multiple of 24, `filter_rotations`
leaves a list of length `n / 24` whose `k`-th element is a member of the
`k`-th consecutive group of 24 input elements that no member of that group
precedes by `Cube::SortPredicate`: the minimum of the group. -/
theorem filter_rotations_group_minimum (store : PieceStore) (h : store.length % 24 = 0) :
    ∃ out, filter_rotations store = .ok out ∧ out.length = store.length / 24 ∧
      ∀ k, k < store.length / 24 →
        ((store.drop (24 * k)).take 24).length = 24 ∧
        out.getD k Cube.empty ∈ (store.drop (24 * k)).take 24 ∧
        ∀ x ∈ (store.drop (24 * k)).take 24,
          Cube.SortPredicate x (out.getD k Cube.empty) = false := by
  refine ⟨canonical store, filter_rotations_eq store, ?_, ?_⟩
  · simp [canonical, h, group_minima_length]
  · intro k hk
    have hlen : 24 * k + 24 ≤ store.length := by omega
    have hc : canonical store = group_minima (store.length / 24) store := by
      simp [canonical, h]
    rw [hc, group_minima_getD _ _ _ hk]
    have hl : ((store.drop (24 * k)).take 24).length = 24 := by
      simp only [List.length_take, List.length_drop]; omega
    generalize hg : store.drop (24 * k) = g at hl ⊢
    cases g with
    | nil => simp at hl
    | cons a g =>
      refine ⟨hl, ?_, ?_⟩
      · simpa using min_element_mem a (g.take 23)
      · intro x hx
        have := min_element_le a (g.take 23) x (by simpa using hx)
        simp only [List.headD_cons, List.take_succ_cons, List.tail_cons, Cube.SortPredicate,
          decide_eq_false_iff_not, Nat.not_lt]
        exact this

/-- Witness for C18: 24 entries, the smallest of them in the middle. -/
theorem filter_rotations_group_minimum_witness :
    (List.replicate 12 (5 : Cube) ++ [3] ++ List.replicate 11 7).length % 24 = 0 ∧
    ∃ out, filter_rotations (List.replicate 12 (5 : Cube) ++ [3] ++ List.replicate 11 7) = .ok out ∧
      out.length = (List.replicate 12 (5 : Cube) ++ [3] ++ List.replicate 11 7).length / 24 ∧
      ∀ k, k < (List.replicate 12 (5 : Cube) ++ [3] ++ List.replicate 11 7).length / 24 →
        (((List.replicate 12 (5 : Cube) ++ [3] ++ List.replicate 11 7).drop (24 * k)).take 24).length
          = 24 ∧
        out.getD k Cube.empty ∈
          ((List.replicate 12 (5 : Cube) ++ [3] ++ List.replicate 11 7).drop (24 * k)).take 24 ∧
        ∀ x ∈ ((List.replicate 12 (5 : Cube) ++ [3] ++ List.replicate 11 7).drop (24 * k)).take 24,
          Cube.SortPredicate x (out.getD k Cube.empty) = false :=
  ⟨by decide, filter_rotations_group_minimum _ (by decide)⟩

theorem flatMap_rotations_length (l : List Cube) : (l.flatMap rotations).length = 24 * l.length := by
  induction l with
  | nil => rfl
  | cons a l ih => simp [List.flatMap_cons, rotations_length, ih]; omega

theorem tuples_eq_nil (cols : List (List Cube)) (h : [] ∈ cols) : tuples cols = [] := by
  induction cols with
  | nil => simp at h
  | cons col rest ih =>
    simp only [List.mem_cons] at h
    rcases h with h | h
    · subst h; rfl
    · simp [tuples, ih h]

theorem placements_origin_empty (c : Cube) (h : Cube.get c 0 0 0 = false) : placements c = [] := by
  simp [placements, h]

theorem column_origin_empty (data : List (List (List (List Bool)))) (i : Nat)
    (h : Cube.get (Cube.ofData (data.getD i [])) 0 0 0 = false) : column data i = [] := by
  unfold column
  rw [placements_origin_empty _ h]
  split <;> simp [canonical, group_minima, sort, unique]

theorem solve_origin_empty (data : List (List (List (List Bool)))) (i : Nat)
    (hi : i < CUBE_PIECE_COUNT)
    (h : Cube.get (Cube.ofData (data.getD i [])) 0 0 0 = false) :
    ∃ s, executeOn data new = .ok s ∧ s.solutions_ = [] := by
  obtain ⟨st2, e⟩ := executeOn_eq data
  refine ⟨_, e, ?_⟩
  simp only
  unfold prepared
  rw [pruned_solutions_eq, terminate_map_scanned, tuples_eq_nil]
  · rfl
  · simp only [List.mem_map, List.mem_range]
    exact ⟨[], ⟨i, hi, column_origin_empty data i h⟩, rfl⟩

/-- C20: in `execute` on the built-in table neither precondition check
fails: each of the seven shapes of `cube_piece_data` has its cell `(0, 0, 0)`
set, and the raw placement list that `shuffle_cube_piece` builds for the anchor
piece in the empty first column of a fresh solver, which is what
`filter_rotations` receives, has a length that is a multiple of 24. -/
theorem execute_preconditions_hold :
    (∀ p, p < CUBE_PIECE_COUNT →
      Cube.get (Cube.ofData (cube_piece_data.getD p [])) 0 0 0 = true) ∧
    ∃ raw, shuffle_cube_piece (Cube.ofData (cube_piece_data.getD 0 []))
        (new.columns_.getD 0 []) = .ok raw ∧
      raw.length % 24 = 0 ∧
      filter_rotations raw = .ok (group_minima (raw.length / 24) raw) := by
  refine ⟨by decide, _, shuffle_cube_piece_eq _ _, ?_⟩
  have hl : ((new.columns_.getD 0 []) ++
      placements (Cube.ofData (cube_piece_data.getD 0 []))).length % 24 = 0 := by
    rw [placements_eq, List.length_append, flatMap_rotations_length]
    simp [new, CUBE_PIECE_COUNT]
  refine ⟨hl, ?_⟩
  rw [filter_rotations_eq]
  unfold canonical
  rw [if_neg (by rw [hl]; decide)]

/-! ### The 24 orientations, and a misplaced shape -/

/-- C16: for every cube `c`, `compute_rotations(c, store)` leaves the entries
of the store as they are and appends exactly 24 entries, the images of `c`
under 24 rotations of the cube.  These are words of quarter turns; they are
pairwise distinct as rotations; they contain the identity and are closed under
a further quarter turn about each axis, so they are the whole rotation group.
They consist of the six prefixes of the zigzag X, Y, X, Y, X, which bring six
different faces of the cube to the front, each followed by zero to three
quarter turns about Z. -/
theorem compute_rotations_orientations (c : Cube) (store : PieceStore) :
    compute_rotations c store = store ++ words24.map (rotate_word c) ∧
    (words24.map (rotate_word c)).length = 24 ∧
    (∀ w ∈ words24, ∀ a ∈ w, a < 3) ∧
    words24.Pairwise (fun w v => ∃ d, d < 2 ^ 27 ∧ rotate_word d w ≠ rotate_word d v) ∧
    [] ∈ words24 ∧
    (∀ w ∈ words24, ∀ ax, ax < 3 →
      ∃ v ∈ words24, ∀ d, d < 2 ^ 27 → Cube.rotate (rotate_word d w) ax = rotate_word d v) ∧
    words24 = face_words.flatMap (fun f =>
      [f, f ++ [Cube.AXIS_Z], f ++ [Cube.AXIS_Z, Cube.AXIS_Z],
        f ++ [Cube.AXIS_Z, Cube.AXIS_Z, Cube.AXIS_Z]]) ∧
    face_words = (List.range 6).map (fun n =>
      [Cube.AXIS_X, Cube.AXIS_Y, Cube.AXIS_X, Cube.AXIS_Y, Cube.AXIS_X].take n) ∧
    (∀ front ∈ [((1 : Nat), (1 : Nat), (0 : Nat)), (1, 1, 2)],
      (face_words.map (fun f => pull f front)).Nodup ∧
      ∀ f ∈ face_words, pull f front ∈
        [((1 : Nat), (1 : Nat), (0 : Nat)), (1, 1, 2), (1, 0, 1), (1, 2, 1), (0, 1, 1),
          (2, 1, 1)]) := by
  refine ⟨?_, by simp [words24, face_words], words24_mem_axes, ?_, by decide, words24_closed, rfl,
    by decide, face_words_front⟩
  · rw [compute_rotations_eq, rotations_eq]
  · have h := words24_distinct
    unfold List.Nodup at h
    rw [List.pairwise_map] at h
    exact h.imp (fun hne => ⟨531, by decide, hne⟩)

/-- C19, as stated, fails: `shuffle_cube_piece` called with a shape whose
origin cell is empty returns normally, and `execute` on a table with such a
shape continues the pipeline to its end with the empty Placement Set. -/
theorem shuffle_cube_piece_misplaced_returns :
    Cube.get 2 0 0 0 = false ∧
    shuffle_cube_piece 2 [] = .ok [] ∧
    Cube.get (Cube.ofData (misplaced_piece_data.getD 6 [])) 0 0 0 = false ∧
    shuffle_cube_piece (Cube.ofData (misplaced_piece_data.getD 6 [])) [] = .ok [] ∧
    ∃ s, executeOn misplaced_piece_data new = .ok s ∧ s.solutions_ = [] := by
  have h : Cube.get (Cube.ofData (misplaced_piece_data.getD 6 [])) 0 0 0 = false := by decide
  refine ⟨by decide, ?_, h, ?_, solve_origin_empty _ 6 (by decide) h⟩
  · rw [shuffle_cube_piece_eq, placements_origin_empty _ (by decide)]; rfl
  · rw [shuffle_cube_piece_eq, placements_origin_empty _ h]; rfl

/-- C19, amended: `shuffle_cube_piece` called with a shape whose origin cell
`(0, 0, 0)` is empty fails its `g_return_if_fail` check and returns normally
to its caller with the store as it was; `execute` on a table that holds such
a shape continues the pipeline with the empty Placement Set of that piece and
returns without a solution. -/
theorem shuffle_cube_piece_origin_empty (c : Cube) (store : PieceStore)
    (h : Cube.get c 0 0 0 = false) :
    shuffle_cube_piece c store = .ok store ∧
    ∀ (data : List (List (List (List Bool)))) (i : Nat), i < CUBE_PIECE_COUNT →
      Cube.ofData (data.getD i []) = c →
      column data i = [] ∧ ∃ s, executeOn data new = .ok s ∧ s.solutions_ = [] := by
  constructor
  · rw [shuffle_cube_piece_eq, placements_origin_empty _ h, List.append_nil]
  · intro data i hi hc
    subst hc
    exact ⟨column_origin_empty data i h, solve_origin_empty data i hi h⟩

/-- Witness for C19 (amended): the shape that consists of the cell
`(0, 0, 1)`, and a store that holds one cube. -/
theorem shuffle_cube_piece_origin_empty_witness :
    Cube.get 2 0 0 0 = false ∧
    (shuffle_cube_piece 2 [7] = .ok [7] ∧
    ∀ (data : List (List (List (List Bool)))) (i : Nat), i < CUBE_PIECE_COUNT →
      Cube.ofData (data.getD i []) = 2 →
      column data i = [] ∧ ∃ s, executeOn data new = .ok s ∧ s.solutions_ = []) :=
  ⟨by decide, shuffle_cube_piece_origin_empty 2 [7] (by decide)⟩

/-! ### The translations visited by `shuffle_cube_piece` -/

theorem Cube.fits_iff (c : Cube) (d : Nat × Nat × Nat) :
    Cube.fits c d = true ↔ ∀ x y z, x < 3 → y < 3 → z < 3 → Cube.get c x y z = true →
      x + d.1 < 3 ∧ y + d.2.1 < 3 ∧ z + d.2.2 < 3 := by
  unfold Cube.fits
  rw [List.all_eq_true]
  constructor
  · intro h x y z hx hy hz hg
    have := h (x, y, z) (mem_cells _ ⟨hx, hy, hz⟩)
    simp only [hg, Bool.not_true, Bool.false_or, Bool.and_eq_true, decide_eq_true_eq] at this
    exact ⟨this.1.1, this.1.2, this.2⟩
  · intro h cell hc
    simp only [cells, List.mem_map, List.mem_range] at hc
    obtain ⟨i, hi, rfl⟩ := hc
    cases hg : Cube.get c (i / 9) (i / 3 % 3) (i % 3)
    · simp
    · have := h _ _ _ (by omega) (by omega) (by omega) hg
      simp [this]

theorem Cube.get_translate (c : Cube) (d : Nat × Nat × Nat) (x y z : Nat) (hx : x < 3)
    (hy : y < 3) (hz : z < 3) :
    Cube.get (Cube.translate c d) x y z =
      (decide (d.1 ≤ x) && decide (d.2.1 ≤ y) && decide (d.2.2 ≤ z) &&
        Cube.get c (x - d.1) (y - d.2.1) (z - d.2.2)) := by
  unfold Cube.translate
  rw [Cube.get_ofCells _ _ _ _ hx hy hz]

theorem Cube.translate_lt (c : Cube) (d : Nat × Nat × Nat) : Cube.translate c d < 2 ^ 27 :=
  Cube.ofCells_lt _

theorem Cube.translate_translate (c : Cube) (d e : Nat × Nat × Nat) :
    Cube.translate (Cube.translate c e) d =
      Cube.translate c (d.1 + e.1, d.2.1 + e.2.1, d.2.2 + e.2.2) := by
  unfold Cube.translate
  apply Cube.ofCells_congr
  intro x y z hx hy hz
  rw [Cube.get_ofCells _ _ _ _ (by omega) (by omega) (by omega)]
  rw [Bool.eq_iff_iff]
  simp only [Bool.and_eq_true, decide_eq_true_eq, Nat.sub_sub]
  constructor
  · rintro ⟨⟨⟨h1, h2⟩, h3⟩, ⟨⟨⟨h4, h5⟩, h6⟩, h7⟩⟩
    exact ⟨⟨⟨by omega, by omega⟩, by omega⟩, h7⟩
  · rintro ⟨⟨⟨h1, h2⟩, h3⟩, h7⟩
    exact ⟨⟨⟨by omega, by omega⟩, by omega⟩, ⟨⟨⟨by omega, by omega⟩, by omega⟩, h7⟩⟩

theorem Cube.translate_zero (c : Cube) (hc : c < 2 ^ 27) : Cube.translate c (0, 0, 0) = c := by
  apply Cube.ext_get _ _ (Cube.translate_lt _ _) hc
  intro cell h
  obtain ⟨hx, hy, hz⟩ := h
  rw [Cube.get_translate _ _ _ _ _ hx hy hz]
  simp

theorem Cube.fits_add (c : Cube) (d e : Nat × Nat × Nat) :
    Cube.fits c (d.1 + e.1, d.2.1 + e.2.1, d.2.2 + e.2.2) = true ↔
      Cube.fits c e = true ∧ Cube.fits (Cube.translate c e) d = true := by
  simp only [Cube.fits_iff]
  constructor
  · intro h
    refine ⟨fun x y z hx hy hz hg => ?_, fun x y z hx hy hz hg => ?_⟩
    · have := h x y z hx hy hz hg
      omega
    · rw [Cube.get_translate _ _ _ _ _ hx hy hz] at hg
      simp only [Bool.and_eq_true, decide_eq_true_eq] at hg
      obtain ⟨⟨⟨h1, h2⟩, h3⟩, h4⟩ := hg
      have := h _ _ _ (by omega) (by omega) (by omega) h4
      omega
  · rintro ⟨h1, h2⟩ x y z hx hy hz hg
    have a := h1 x y z hx hy hz hg
    have b := h2 (x + e.1) (y + e.2.1) (z + e.2.2) (by omega) (by omega) (by omega)
      (by rw [Cube.get_translate _ _ _ _ _ (by omega) (by omega) (by omega)]; simp [hg])
    omega

theorem Cube.fits_zero (c : Cube) : Cube.fits c (0, 0, 0) = true := by
  rw [Cube.fits_iff]
  intro x y z hx hy hz _
  exact ⟨hx, hy, hz⟩

theorem Cube.translate_ne_zero (c : Cube) (d : Nat × Nat × Nat) (x y z : Nat) (hx : x < 3)
    (hy : y < 3) (hz : z < 3) (hg : Cube.get c x y z = true) (hf : Cube.fits c d = true) :
    Cube.get (Cube.translate c d) (x + d.1) (y + d.2.1) (z + d.2.2) = true ∧
      Cube.translate c d ≠ 0 := by
  have a := (Cube.fits_iff c d).1 hf x y z hx hy hz hg
  have h : Cube.get (Cube.translate c d) (x + d.1) (y + d.2.1) (z + d.2.2) = true := by
    rw [Cube.get_translate _ _ _ _ _ (by omega) (by omega) (by omega)]; simp [hg]
  refine ⟨h, fun e => ?_⟩
  rw [e, Cube.get_zero] at h
  exact Bool.false_ne_true h

theorem Cube.land_farFace (c : Cube) (axis : Nat) (ha : axis < 3) :
    c &&& Cube.farFace axis = 0 ↔ Cube.fits c (Cube.step axis 1) = true := by
  rw [Cube.fits_iff]
  have h3 : axis = 0 ∨ axis = 1 ∨ axis = 2 := by omega
  constructor
  · intro h x y z hx hy hz hg
    have h1 := congrArg (fun n => Nat.testBit n (9 * x + 3 * y + z)) h
    simp only [Nat.testBit_and, Nat.zero_testBit] at h1
    unfold Cube.get at hg
    rw [hg, Bool.true_and] at h1
    have e1 : (9 * x + 3 * y + z) / 9 = x := by omega
    have e2 : (9 * x + 3 * y + z) / 3 % 3 = y := by omega
    have e3 : (9 * x + 3 * y + z) % 3 = z := by omega
    have e4 : 9 * x + 3 * y + z < 27 := by omega
    rcases h3 with rfl | rfl | rfl <;>
      simp [Cube.farFace, Cube.ofCells, Cube.testBit_ofBits, Cube.AXIS_X, Cube.AXIS_Y,
        Cube.AXIS_Z, e1, e2, e3, e4] at h1 <;>
      simp [Cube.step, Cube.AXIS_X, Cube.AXIS_Y, Cube.AXIS_Z] <;> omega
  · intro h
    apply Nat.eq_of_testBit_eq
    intro i
    simp only [Nat.testBit_and, Nat.zero_testBit]
    cases hc : Nat.testBit c i
    · rfl
    · rw [Bool.true_and]
      by_cases hi : i < 27
      · have e : 9 * (i / 9) + 3 * (i / 3 % 3) + i % 3 = i := by omega
        have hg : Cube.get c (i / 9) (i / 3 % 3) (i % 3) = true := by
          unfold Cube.get; rw [e]; exact hc
        have := h _ _ _ (by omega) (by omega) (by omega) hg
        rcases h3 with rfl | rfl | rfl <;>
          simp [Cube.step, Cube.AXIS_X, Cube.AXIS_Y, Cube.AXIS_Z] at this <;>
          simp [Cube.farFace, Cube.ofCells, Cube.testBit_ofBits, Cube.AXIS_X, Cube.AXIS_Y,
            Cube.AXIS_Z, hi] <;> omega
      · have h3b : axis = 0 ∨ axis = 1 ∨ axis = 2 := h3
        rcases h3b with rfl | rfl | rfl <;>
          simp [Cube.farFace, Cube.ofCells, Cube.testBit_ofBits, Cube.AXIS_X, Cube.AXIS_Y,
            Cube.AXIS_Z, hi]

theorem Cube.shift_eq (c : Cube) (axis : Nat) (ha : axis < 3) :
    Cube.shift c axis =
      if Cube.fits c (Cube.step axis 1) = true then Cube.translate c (Cube.step axis 1)
      else 0 := by
  unfold Cube.shift
  by_cases hf : Cube.fits c (Cube.step axis 1) = true
  · have h0 := (Cube.land_farFace c axis ha).2 hf
    rw [if_neg (by simp [h0]), if_pos hf]
    have h3 : axis = 0 ∨ axis = 1 ∨ axis = 2 := by omega
    rcases h3 with rfl | rfl | rfl <;>
      simp only [Cube.AXIS_X, Cube.AXIS_Y, Cube.AXIS_Z, Cube.step, Cube.translate] <;>
      simp only [OfNat.ofNat_ne_zero, OfNat.zero_ne_ofNat, OfNat.ofNat_ne_one, OfNat.one_ne_ofNat,
        if_true, if_false, one_ne_zero, zero_ne_one] <;>
      apply Cube.ofCells_congr <;> intro x y z _ _ _ <;> simp
  · have h0 : c &&& Cube.farFace axis ≠ 0 := fun e => hf ((Cube.land_farFace c axis ha).1 e)
    rw [if_pos h0, if_neg hf]
    rfl

theorem Cube.step_zero (axis : Nat) : Cube.step axis 0 = (0, 0, 0) := by
  unfold Cube.step
  split
  · rfl
  · split <;> rfl

theorem Cube.step_two (axis : Nat) :
    Cube.step axis 2 = ((Cube.step axis 1).1 + (Cube.step axis 1).1,
      (Cube.step axis 1).2.1 + (Cube.step axis 1).2.1,
      (Cube.step axis 1).2.2 + (Cube.step axis 1).2.2) := by
  unfold Cube.step
  split
  · rfl
  · split <;> rfl

/-- The positions that one loop of `shuffle_cube_piece` visits are the shape
moved by 0, 1 and 2 cells along the axis, as far as it fits. -/
theorem slides_eq (axis : Nat) (ha : axis < 3) (c : Cube) (hc : c < 2 ^ 27) (x y z : Nat)
    (hx : x < 3) (hy : y < 3) (hz : z < 3) (hg : Cube.get c x y z = true) :
    slides axis c = ((List.range 3).filter (fun k => Cube.fits c (Cube.step axis k))).map
      (fun k => Cube.translate c (Cube.step axis k)) := by
  have hr : List.range 3 = [0, 1, 2] := rfl
  have hc0 : c ≠ 0 := by
    intro e
    rw [e, Cube.get_zero] at hg
    exact Bool.false_ne_true hg
  have f0 : Cube.fits c (Cube.step axis 0) = true := by rw [Cube.step_zero]; exact Cube.fits_zero c
  have e0 : Cube.translate c (Cube.step axis 0) = c := by
    rw [Cube.step_zero]; exact Cube.translate_zero c hc
  have h2 := Cube.fits_add c (Cube.step axis 1) (Cube.step axis 1)
  rw [← Cube.step_two] at h2
  have t2 := Cube.translate_translate c (Cube.step axis 1) (Cube.step axis 1)
  rw [← Cube.step_two] at t2
  rw [hr]
  unfold slides
  by_cases f1 : Cube.fits c (Cube.step axis 1) = true
  · obtain ⟨g1, n1⟩ := Cube.translate_ne_zero c _ x y z hx hy hz hg f1
    have a1 := (Cube.fits_iff c _).1 f1 x y z hx hy hz hg
    have s1 : Cube.shift c axis = Cube.translate c (Cube.step axis 1) := by
      rw [Cube.shift_eq c axis ha, if_pos f1]
    by_cases f2 : Cube.fits (Cube.translate c (Cube.step axis 1)) (Cube.step axis 1) = true
    · obtain ⟨_, n2⟩ := Cube.translate_ne_zero _ _ _ _ _ (by omega) (by omega) (by omega) g1 f2
      have s2 : Cube.shift (Cube.translate c (Cube.step axis 1)) axis =
          Cube.translate c (Cube.step axis 2) := by
        rw [Cube.shift_eq _ axis ha, if_pos f2, t2]
      have f2c : Cube.fits c (Cube.step axis 2) = true := h2.2 ⟨f1, f2⟩
      rw [t2] at n2
      have b0 : (c != 0) = true := bne_iff_ne.2 hc0
      have b1 : (Cube.translate c (Cube.step axis 1) != 0) = true := bne_iff_ne.2 n1
      have b2 : (Cube.translate c (Cube.step axis 2) != 0) = true := bne_iff_ne.2 n2
      simp [s1, s2, f0, f1, f2c, e0, b0, b1, b2, Cube.empty, List.takeWhile]
    · have s2 : Cube.shift (Cube.translate c (Cube.step axis 1)) axis = 0 := by
        rw [Cube.shift_eq _ axis ha, if_neg f2]
      have f2c : ¬ Cube.fits c (Cube.step axis 2) = true := fun h => f2 (h2.1 h).2
      have b0 : (c != 0) = true := bne_iff_ne.2 hc0
      have b1 : (Cube.translate c (Cube.step axis 1) != 0) = true := bne_iff_ne.2 n1
      simp [s1, s2, f0, f1, f2c, e0, b0, b1, Cube.empty, List.takeWhile]
  · have s1 : Cube.shift c axis = 0 := by
      rw [Cube.shift_eq c axis ha, if_neg f1]
    have f2c : ¬ Cube.fits c (Cube.step axis 2) = true := fun h => f1 (h2.1 h).1
    have b0 : (c != 0) = true := bne_iff_ne.2 hc0
    simp [s1, f0, f1, f2c, e0, b0, Cube.empty, List.takeWhile]

theorem flatMap_filter_skip {α β : Type} (l : List α) (q : α → Bool) (g : α → List β)
    (h : ∀ a ∈ l, q a = false → g a = []) : (l.filter q).flatMap g = l.flatMap g := by
  induction l with
  | nil => rfl
  | cons a l ih =>
    have ih2 := ih (fun b hb => h b (List.mem_cons_of_mem _ hb))
    cases hq : q a
    · rw [List.filter_cons_of_neg (by simp [hq]), ih2, List.flatMap_cons,
        h a (List.mem_cons_self _ _) hq, List.nil_append]
    · rw [List.filter_cons_of_pos hq, List.flatMap_cons, List.flatMap_cons, ih2]

theorem Cube.fits_mono (c : Cube) (dx dy dz : Nat) (h : Cube.fits c (dx, dy, dz) = true) :
    Cube.fits c (0, dy, dz) = true ∧ Cube.fits c (0, 0, dz) = true := by
  have a := (Cube.fits_add c (dx, 0, 0) (0, dy, dz)).1 (by simpa using h)
  have b := (Cube.fits_add c (0, dy, 0) (0, 0, dz)).1 (by simpa using a.1)
  exact ⟨a.1, b.1⟩

theorem slides_X_eq (c : Cube) (dy dz : Nat) (h0 : Cube.get c 0 0 0 = true)
    (hf : Cube.fits c (0, dy, dz) = true) :
    slides Cube.AXIS_X (Cube.translate c (0, dy, dz)) =
      ((List.range 3).filter (fun dx => Cube.fits c (dx, dy, dz))).map
        (fun dx => Cube.translate c (dx, dy, dz)) := by
  obtain ⟨g, _⟩ := Cube.translate_ne_zero c _ 0 0 0 (by decide) (by decide) (by decide) h0 hf
  have a := (Cube.fits_iff c _).1 hf 0 0 0 (by decide) (by decide) (by decide) h0
  rw [slides_eq Cube.AXIS_X (by decide) _ (Cube.translate_lt _ _) _ _ _ a.1 a.2.1 a.2.2 g]
  have k1 : ∀ dx, Cube.fits (Cube.translate c (0, dy, dz)) (Cube.step Cube.AXIS_X dx) =
      Cube.fits c (dx, dy, dz) := by
    intro dx
    rw [Bool.eq_iff_iff]
    have := Cube.fits_add c (dx, 0, 0) (0, dy, dz)
    simp only [Nat.add_zero, Nat.zero_add, hf, true_and] at this
    rw [this]
    rfl
  have k2 : ∀ dx, Cube.translate (Cube.translate c (0, dy, dz)) (Cube.step Cube.AXIS_X dx) =
      Cube.translate c (dx, dy, dz) := by
    intro dx
    have := Cube.translate_translate c (dx, 0, 0) (0, dy, dz)
    simp only [Nat.add_zero, Nat.zero_add] at this
    rw [← this]
    rfl
  simp only [k1, k2]

theorem slides_Y_eq (c : Cube) (dz : Nat) (h0 : Cube.get c 0 0 0 = true)
    (hf : Cube.fits c (0, 0, dz) = true) :
    slides Cube.AXIS_Y (Cube.translate c (0, 0, dz)) =
      ((List.range 3).filter (fun dy => Cube.fits c (0, dy, dz))).map
        (fun dy => Cube.translate c (0, dy, dz)) := by
  obtain ⟨g, _⟩ := Cube.translate_ne_zero c _ 0 0 0 (by decide) (by decide) (by decide) h0 hf
  have a := (Cube.fits_iff c _).1 hf 0 0 0 (by decide) (by decide) (by decide) h0
  rw [slides_eq Cube.AXIS_Y (by decide) _ (Cube.translate_lt _ _) _ _ _ a.1 a.2.1 a.2.2 g]
  have k1 : ∀ dy, Cube.fits (Cube.translate c (0, 0, dz)) (Cube.step Cube.AXIS_Y dy) =
      Cube.fits c (0, dy, dz) := by
    intro dy
    rw [Bool.eq_iff_iff]
    have := Cube.fits_add c (0, dy, 0) (0, 0, dz)
    simp only [Nat.add_zero, Nat.zero_add, hf, true_and] at this
    rw [this]
    rfl
  have k2 : ∀ dy, Cube.translate (Cube.translate c (0, 0, dz)) (Cube.step Cube.AXIS_Y dy) =
      Cube.translate c (0, dy, dz) := by
    intro dy
    have := Cube.translate_translate c (0, dy, 0) (0, 0, dz)
    simp only [Nat.add_zero, Nat.zero_add] at this
    rw [← this]
    rfl
  simp only [k1, k2]

theorem slides_Z_eq (c : Cube) (hc : c < 2 ^ 27) (h0 : Cube.get c 0 0 0 = true) :
    slides Cube.AXIS_Z c =
      ((List.range 3).filter (fun dz => Cube.fits c (0, 0, dz))).map
        (fun dz => Cube.translate c (0, 0, dz)) := by
  rw [slides_eq Cube.AXIS_Z (by decide) c hc 0 0 0 (by decide) (by decide) (by decide) h0]
  rfl

/-- The positions that `shuffle_cube_piece` visits are the shape moved by the
offsets at which it fits, in the order of the offsets. -/
theorem positions_eq (c : Cube) (hc : c < 2 ^ 27) (h0 : Cube.get c 0 0 0 = true) :
    positions c = (offsets.filter (Cube.fits c)).map (Cube.translate c) := by
  unfold positions
  rw [if_neg (by simp [h0]), slides_Z_eq c hc h0, List.flatMap_map]
  have inner : ∀ dz ∈ (List.range 3).filter (fun dz => Cube.fits c (0, 0, dz)),
      (slides Cube.AXIS_Y (Cube.translate c (0, 0, dz))).flatMap (slides Cube.AXIS_X) =
        (List.range 3).flatMap (fun dy =>
          ((List.range 3).filter (fun dx => Cube.fits c (dx, dy, dz))).map
            (fun dx => Cube.translate c (dx, dy, dz))) := by
    intro dz hdz
    have hf : Cube.fits c (0, 0, dz) = true := (List.mem_filter.1 hdz).2
    rw [slides_Y_eq c dz h0 hf, List.flatMap_map]
    rw [flatMap_congr_mem _ _ _ (fun dy hdy => slides_X_eq c dy dz h0 (List.mem_filter.1 hdy).2)]
    apply flatMap_filter_skip
    intro dy _ hq
    have : (List.range 3).filter (fun dx => Cube.fits c (dx, dy, dz)) = [] := by
      rw [List.filter_eq_nil_iff]
      intro dx _ h
      rw [(Cube.fits_mono c dx dy dz h).1] at hq
      exact Bool.noConfusion hq
    rw [this]
    rfl
  rw [flatMap_congr_mem _ _ _ inner, flatMap_filter_skip]
  · unfold offsets
    simp only [List.filter_flatMap, List.filter_map, List.map_flatMap, List.map_map]
    rfl
  · intro dz _ hq
    have : ∀ dy, (List.range 3).filter (fun dx => Cube.fits c (dx, dy, dz)) = [] := by
      intro dy
      rw [List.filter_eq_nil_iff]
      intro dx _ h
      rw [(Cube.fits_mono c dx dy dz h).2] at hq
      exact Bool.noConfusion hq
    simp [this]

theorem offsets_ordered : offsets.Pairwise (fun a b =>
    a.2.2 < b.2.2 ∨ (a.2.2 = b.2.2 ∧ (a.2.1 < b.2.1 ∨ (a.2.1 = b.2.1 ∧ a.1 < b.1)))) := by
  decide

theorem mem_offsets (d : Nat × Nat × Nat) : d ∈ offsets ↔ d.1 < 3 ∧ d.2.1 < 3 ∧ d.2.2 < 3 := by
  obtain ⟨dx, dy, dz⟩ := d
  simp only [offsets, List.mem_flatMap, List.mem_map, List.mem_range, Prod.mk.injEq]
  constructor
  · rintro ⟨z, hz, y, hy, x, hx, rfl, rfl, rfl⟩
    exact ⟨hx, hy, hz⟩
  · rintro ⟨hx, hy, hz⟩
    exact ⟨dz, hz, dy, hy, dx, hx, rfl, rfl, rfl⟩

/-- C17: for a shape `c` of the 3×3×3 volume whose cell `(0, 0, 0)` is set,
`shuffle_cube_piece(c, store)` returns and appends, for each offset
`(dx, dy, dz)` at which the moved shape remains fully inside the cube, the 24
orientations of the shape moved by that offset, one group of 24 after the
other.  The offsets are taken in nested order, `dz` outermost and `dx`
innermost, each once, the zero offset included, and none that fits is left
out; the number of appended entries is 24 times the number of such offsets. -/
theorem shuffle_cube_piece_offsets (c : Cube) (store : PieceStore) (hc : c < 2 ^ 27)
    (h0 : Cube.get c 0 0 0 = true) :
    shuffle_cube_piece c store = .ok (store ++
      (offsets.filter (Cube.fits c)).flatMap (fun d => rotations (Cube.translate c d))) ∧
    (∀ d, Cube.fits c d = true → d ∈ offsets) ∧
    offsets.Pairwise (fun a b =>
      a.2.2 < b.2.2 ∨ (a.2.2 = b.2.2 ∧ (a.2.1 < b.2.1 ∨ (a.2.1 = b.2.1 ∧ a.1 < b.1)))) ∧
    (offsets.filter (Cube.fits c)).Nodup ∧
    (0, 0, 0) ∈ offsets.filter (Cube.fits c) ∧
    (∀ d, (rotations (Cube.translate c d)).length = 24) ∧
    ((offsets.filter (Cube.fits c)).flatMap (fun d => rotations (Cube.translate c d))).length =
      24 * (offsets.filter (Cube.fits c)).length := by
  have e : placements c =
      (offsets.filter (Cube.fits c)).flatMap (fun d => rotations (Cube.translate c d)) := by
    rw [placements_eq, positions_eq c hc h0, List.flatMap_map]
  refine ⟨?_, ?_, offsets_ordered, ?_, ?_, fun d => rotations_length _, ?_⟩
  · rw [shuffle_cube_piece_eq, e]
  · intro d hd
    have := (Cube.fits_iff c d).1 hd 0 0 0 (by decide) (by decide) (by decide) h0
    rw [mem_offsets]
    omega
  · refine List.Nodup.filter _ ?_
    refine offsets_ordered.imp ?_
    rintro ⟨a1, a2, a3⟩ ⟨b1, b2, b3⟩ h he
    simp only [Prod.mk.injEq] at he
    simp only at h
    omega
  · rw [List.mem_filter, mem_offsets]
    exact ⟨by decide, Cube.fits_zero c⟩
  · rw [← List.flatMap_map (Cube.translate c) rotations, flatMap_rotations_length,
      List.length_map]

/-- Witness for C17: the shape of the last piece, the cells `(0, 0, 0)`,
`(0, 0, 1)` and `(0, 1, 0)`, and an empty store. -/
theorem shuffle_cube_piece_offsets_witness :
    (11 : Nat) < 2 ^ 27 ∧ Cube.get 11 0 0 0 = true ∧
    (shuffle_cube_piece 11 [] = .ok ([] ++
      (offsets.filter (Cube.fits 11)).flatMap (fun d => rotations (Cube.translate 11 d))) ∧
    (∀ d, Cube.fits 11 d = true → d ∈ offsets) ∧
    offsets.Pairwise (fun a b =>
      a.2.2 < b.2.2 ∨ (a.2.2 = b.2.2 ∧ (a.2.1 < b.2.1 ∨ (a.2.1 = b.2.1 ∧ a.1 < b.1)))) ∧
    (offsets.filter (Cube.fits 11)).Nodup ∧
    (0, 0, 0) ∈ offsets.filter (Cube.fits 11) ∧
    (∀ d, (rotations (Cube.translate 11 d)).length = 24) ∧
    ((offsets.filter (Cube.fits 11)).flatMap (fun d => rotations (Cube.translate 11 d))).length =
      24 * (offsets.filter (Cube.fits 11)).length) :=
  ⟨by decide, by decide, shuffle_cube_piece_offsets 11 [] (by decide) (by decide)⟩

/-! ### The pruning step, the published result, and the bounds of the search -/

theorem getD_map_filter (rest : List PieceStore) (q : Cube → Bool) (i : Nat) :
    (rest.map (fun store => store.filter q)).getD i [] = (rest.getD i []).filter q := by
  simp only [List.getD_eq_getElem?_getD, List.getElem?_map]
  cases rest[i]? <;> simp

/-- C21: with `common` the AND of the placements of the anchor column, taken
from `~Cube()` on: if `common` is not empty, the pruning step leaves column 0
as it is and replaces each column `i ≥ 1` by the subsequence, in unchanged
order, of its placements whose AND with `common` is empty; if `common` is
empty no column is changed.  The number of columns is kept, and `execute`
passes the pruned columns, each with its sentinel appended, to `recurse`. -/
theorem prune_removes_overlapping (columns : ColumnStore) :
    (prune columns).length = columns.length ∧
    (prune columns).getD 0 [] = columns.getD 0 [] ∧
    ((columns.getD 0 []).foldl Intersect Cube.full ≠ Cube.empty →
      ∀ i, 1 ≤ i →
        (prune columns).getD i [] = (columns.getD i []).filter (fun c =>
          decide (c &&& (columns.getD 0 []).foldl Intersect Cube.full = Cube.empty)) ∧
        ((prune columns).getD i []).Sublist (columns.getD i [])) ∧
    ((columns.getD 0 []).foldl Intersect Cube.full = Cube.empty → prune columns = columns) ∧
    (∀ data, executeOn data new = recurse CUBE_PIECE_COUNT 0 Cube.empty
      ⟨terminate (prune ((List.range CUBE_PIECE_COUNT).map (column data))), [], new.state_⟩) := by
  refine ⟨prune_length columns, ?_, ?_, ?_, fun data => executeOn_start data⟩
  · cases columns with
    | nil => simp [prune]
    | cons c0 rest => rw [prune_cons]; split <;> rfl
  · intro hc i hi
    have e : (prune columns).getD i [] = (columns.getD i []).filter (fun c =>
        decide (c &&& (columns.getD 0 []).foldl Intersect Cube.full = Cube.empty)) := by
      cases columns with
      | nil => simp [prune]
      | cons c0 rest =>
        rw [prune_cons, if_pos (by simpa using hc)]
        obtain ⟨j, rfl⟩ : ∃ j, i = j + 1 := ⟨i - 1, by omega⟩
        simp only [List.getD_cons_succ, List.getD_cons_zero]
        rw [getD_map_filter]
        congr 1
        funext c
        unfold DoesIntersect
        by_cases hx : c &&& List.foldl Intersect Cube.full c0 = Cube.empty <;> simp [hx]
    refine ⟨e, ?_⟩
    rw [e]
    exact List.filter_sublist _
  · intro hc
    cases columns with
    | nil => simp [prune]
    | cons c0 rest =>
      rw [prune_cons, if_neg (by simpa using hc)]

/-- C23: a faulted run publishes no partial result, and a normal run
replaces the result: when the pipeline raises a fault inside
`PuzzleThread::execute` the runner, `solutions_` included, is what it was before
the run; after a normal run `solutions_` is the Solution Set of the solver,
whatever it held before.  The pipeline of a fresh solver on the built-in table
completes, so there the runner holds the Solution Set of that solver. -/
theorem execute_publishes_whole_result (t : PuzzleThread) :
    (∀ e : Fault, (PuzzleThread.execute (Except.error e : Except Fault PuzzleSolver) t).1 = t) ∧
    (∀ solver : PuzzleSolver,
      (PuzzleThread.execute (Except.ok solver : Except Fault PuzzleSolver) t).1.solutions_ =
        solver.solutions_) ∧
    (∃ solver, PuzzleSolver.execute new = .ok solver ∧
      (PuzzleThread.execute (PuzzleSolver.execute new) t).1.solutions_ = solver.solutions_) := by
  refine ⟨fun _ => rfl, fun _ => rfl, ?_⟩
  obtain ⟨solver, hs⟩ : ∃ solver, PuzzleSolver.execute new = .ok solver := by
    obtain ⟨st2, h⟩ := executeOn_eq cube_piece_data
    exact ⟨_, h⟩
  refine ⟨solver, hs, ?_⟩
  rw [hs]
  rfl

/-- C24: for seven columns that each end with an empty cube, and a `state_`
of seven entries, `recurse(0, Cube())` returns within a nesting depth of seven
calls and without a fault: it reads no column beyond its end, and indexes
neither `columns_` nor `state_` outside their bounds.  The columns are left
as they are and `state_` keeps its seven entries. -/
theorem recurse_terminates_in_bounds (cols : ColumnStore) (hlen : cols.length = CUBE_PIECE_COUNT)
    (hz : ∀ column ∈ cols, column.getLast? = some Cube.empty) (sols : List Solution)
    (st : Solution) (hst : st.length = CUBE_PIECE_COUNT) :
    ∃ s, recurse CUBE_PIECE_COUNT 0 Cube.empty ⟨cols, sols, st⟩ = .ok s ∧
      s.columns_ = cols ∧ s.state_.length = CUBE_PIECE_COUNT := by
  have h := recurse_appends cols hlen (fun c hc => List.mem_of_getLast?_eq_some (hz c hc))
    CUBE_PIECE_COUNT Cube.empty [] (by decide) (by simp) ⟨cols, sols, st⟩ ⟨rfl, hst, rfl⟩
  obtain ⟨s2, e2, hs2, _⟩ := h
  exact ⟨s2, e2, hs2.1, hs2.2.1⟩

/-- Witness for C24: seven columns of one placement each, which together fill
no more than seven cells, and their sentinels. -/
theorem recurse_terminates_in_bounds_witness :
    ([[1, 0], [2, 0], [4, 0], [8, 0], [16, 0], [32, 0], [64, 0]] : ColumnStore).length =
      CUBE_PIECE_COUNT ∧
    (∀ column ∈ ([[1, 0], [2, 0], [4, 0], [8, 0], [16, 0], [32, 0], [64, 0]] : ColumnStore),
      column.getLast? = some Cube.empty) ∧
    (List.replicate 7 Cube.empty).length = CUBE_PIECE_COUNT ∧
    ∃ s, recurse CUBE_PIECE_COUNT 0 Cube.empty
        ⟨[[1, 0], [2, 0], [4, 0], [8, 0], [16, 0], [32, 0], [64, 0]], [],
          List.replicate 7 Cube.empty⟩ = .ok s ∧
      s.columns_ = [[1, 0], [2, 0], [4, 0], [8, 0], [16, 0], [32, 0], [64, 0]] ∧
      s.state_.length = CUBE_PIECE_COUNT :=
  ⟨by decide, by decide, by decide,
    recurse_terminates_in_bounds _ (by decide) (by decide) [] _ (by decide)⟩

/-! ### The runner as a transition system -/

theorem run_thread (t : PuzzleThread) (handle : Nat) :
    (t.thread_ ≠ none → PuzzleThread.run t handle = (t, [Event.return_if_fail])) ∧
    (t.thread_ = none → PuzzleThread.run t handle =
      ({ t with thread_ := some handle }, [Event.thread_create handle])) := by
  constructor <;> intro h <;> simp [PuzzleThread.run, h]

theorem swap_result_thread (t : PuzzleThread) (result : List Solution) :
    (PuzzleThread.swap_result t result).1.thread_ = t.thread_ := by
  unfold PuzzleThread.swap_result
  split <;> rfl

theorem execute_thread (body : Except Fault PuzzleSolver) (t : PuzzleThread) :
    (PuzzleThread.execute body t).1.thread_ = t.thread_ := by
  cases body <;> rfl

theorem workers_of_thread (w : World) (h : w.workers.map Prod.fst = w.runner.thread_.toList) :
    (w.runner.thread_ = none ∧ w.workers = []) ∨
    ∃ handle b, w.runner.thread_ = some handle ∧ w.workers = [(handle, b)] := by
  cases ht : w.runner.thread_ with
  | none =>
    rw [ht] at h
    exact Or.inl ⟨rfl, by simpa using h⟩
  | some handle =>
    rw [ht] at h
    right
    cases hw : w.workers with
    | nil => rw [hw] at h; simp at h
    | cons x rest =>
      rw [hw] at h
      simp only [List.map_cons, Option.toList_some, List.cons.injEq, List.map_eq_nil_iff] at h
      obtain ⟨h1, h2⟩ := h
      obtain ⟨x1, x2⟩ := x
      simp only at h1
      subst h1 h2
      exact ⟨x1, x2, rfl, rfl⟩

/-- One call keeps the workers in step with `thread_`. -/
theorem step_workers (w w1 : World) (call : Call)
    (h : w.workers.map Prod.fst = w.runner.thread_.toList) (hs : World.step w call = some w1) :
    w1.workers.map Prod.fst = w1.runner.thread_.toList := by
  rcases workers_of_thread w h with ⟨ht, hw⟩ | ⟨handle, b, ht, hw⟩
  · cases call with
    | run k =>
      simp only [World.step, (run_thread w.runner k).2 ht, List.mem_singleton, if_true,
        Option.some.injEq] at hs
      subst hs
      simp [hw]
    | swap_result r =>
      simp only [World.step, Option.some.injEq] at hs
      subst hs
      simp [swap_result_thread, ht, hw]
    | execute body =>
      simp [World.step, hw] at hs
    | on_thread_exit =>
      simp [World.step, hw] at hs
  · cases call with
    | run k =>
      simp only [World.step, (run_thread w.runner k).1 (by simp [ht]), List.mem_singleton,
        Option.some.injEq] at hs
      subst hs
      simp [hw, ht]
    | swap_result r =>
      simp only [World.step, Option.some.injEq] at hs
      subst hs
      simp [swap_result_thread, ht, hw]
    | execute body =>
      simp only [World.step] at hs
      split at hs
      · exact Option.noConfusion hs
      · simp only [Option.some.injEq] at hs
        subst hs
        simp only [execute_thread, ht, hw, List.map_cons, List.map_nil, Option.toList_some]
        split <;> rfl
    | on_thread_exit =>
      simp only [World.step, PuzzleThread.on_thread_exit, ht] at hs
      split at hs
      · simp only [Option.some.injEq] at hs
        subst hs
        simp [hw]
      · exact Option.noConfusion hs

theorem run_workers (calls : List Call) (w : World) (h : World.run calls = some w) :
    w.workers.map Prod.fst = w.runner.thread_.toList := by
  induction calls generalizing w with
  | nil =>
    simp only [World.run, Option.some.injEq] at h
    subst h
    rfl
  | cons call calls ih =>
    simp only [World.run] at h
    split at h
    · exact Option.noConfusion h
    · rename_i w0 h0
      exact step_workers w0 w call (ih w0 h0) h

/-- The handler, statement by statement: the worker is joined, `thread_` is
null when `signal_done_` is emitted, and what the slots do comes last. -/
theorem on_thread_exit_eq (slots : PuzzleThread → PuzzleThread × List Event) (t : PuzzleThread)
    (handle : Nat) (h : t.thread_ = some handle) :
    PuzzleThread.on_thread_exit slots t =
      some ((slots { t with thread_ := none }).1,
        [Event.thread_join handle, Event.signal_done] ++ (slots { t with thread_ := none }).2) := by
  simp [PuzzleThread.on_thread_exit, h]

/-- C22: `on_thread_exit` joins the worker and resets `thread_` to null
before it emits `signal_done_`: whatever the slots of the signal do, they act
on a runner whose `thread_` is null, after the join; a slot that calls
`swap_result` or `run` passes the check.  In every state that a sequence of
calls on a fresh runner reaches, the threads created and not joined are the
one that `thread_` holds, or none when `thread_` is null; while such a thread
exists `run` and `swap_result` fail their check and change nothing; a pending
exit notification is delivered without a null `thread_`; and when it has been
delivered `thread_` is null and no unjoined thread exists. -/
theorem done_after_join (calls : List Call) (w : World) (h : World.run calls = some w) :
    w.workers.map Prod.fst = w.runner.thread_.toList ∧
    (w.workers ≠ [] → ∀ (handle : Nat) (result : List Solution),
      PuzzleThread.run w.runner handle = (w.runner, [Event.return_if_fail]) ∧
      PuzzleThread.swap_result w.runner result = (w.runner, result, [Event.return_if_fail])) ∧
    (w.workers.any (fun x => x.2) = true → ∃ w1, World.step w Call.on_thread_exit = some w1) ∧
    (∀ w1, World.step w Call.on_thread_exit = some w1 →
      ∃ handle, w.workers = [(handle, true)] ∧ w.runner.thread_ = some handle ∧
        w1.runner.thread_ = none ∧ w1.workers = []) ∧
    (∀ (handle : Nat), w.runner.thread_ = some handle →
      w.workers.map Prod.fst = [handle] ∧
      (∀ slots : PuzzleThread → PuzzleThread × List Event,
        PuzzleThread.on_thread_exit slots w.runner =
          some ((slots { w.runner with thread_ := none }).1,
            [Event.thread_join handle, Event.signal_done] ++
              (slots { w.runner with thread_ := none }).2)) ∧
      (∀ result : List Solution,
        PuzzleThread.on_thread_exit
            (fun r => ((PuzzleThread.swap_result r result).1, (PuzzleThread.swap_result r result).2.2))
            w.runner =
          some (⟨result, none⟩, [Event.thread_join handle, Event.signal_done])) ∧
      (∀ next : Nat,
        PuzzleThread.on_thread_exit (fun r => PuzzleThread.run r next) w.runner =
          some (⟨w.runner.solutions_, some next⟩,
            [Event.thread_join handle, Event.signal_done, Event.thread_create next]))) := by
  have inv := run_workers calls w h
  refine ⟨inv, ?_, ?_, ?_, ?_⟩
  · intro hne handle result
    rcases workers_of_thread w inv with ⟨_, hw⟩ | ⟨k, b, ht, _⟩
    · exact absurd hw hne
    · exact ⟨(run_thread w.runner handle).1 (by simp [ht]),
        by simp [PuzzleThread.swap_result, ht]⟩
  · intro hany
    rcases workers_of_thread w inv with ⟨_, hw⟩ | ⟨k, b, ht, hw⟩
    · simp [hw] at hany
    · simp [World.step, hany, PuzzleThread.on_thread_exit, ht]
  · intro w1 hs
    rcases workers_of_thread w inv with ⟨_, hw⟩ | ⟨k, b, ht, hw⟩
    · simp [World.step, hw] at hs
    · simp only [World.step, PuzzleThread.on_thread_exit, ht] at hs
      split at hs
      · rename_i hany
        simp only [Option.some.injEq] at hs
        subst hs
        have hb : b = true := by simpa [hw] using hany
        subst hb
        exact ⟨k, hw, ht, rfl, by simp [hw]⟩
      · exact Option.noConfusion hs
  · intro handle ht
    refine ⟨by rw [inv, ht]; rfl, fun slots => on_thread_exit_eq slots _ _ ht, ?_, ?_⟩
    · intro result
      rw [on_thread_exit_eq _ _ _ ht]
      simp [PuzzleThread.swap_result]
    · intro next
      rw [on_thread_exit_eq _ _ _ ht]
      simp [PuzzleThread.run]

/-- Witness for C22: a fresh runner after `run()` and after the body of the
worker, which found one solution, has run. -/
theorem done_after_join_witness :
    World.run [Call.execute (.ok ⟨[], [[1]], []⟩), Call.run 1] =
      some ⟨⟨[[1]], some 1⟩, [(1, true)]⟩ ∧
    ((⟨⟨[[1]], some 1⟩, [(1, true)]⟩ : World).workers.map Prod.fst =
      (⟨⟨[[1]], some 1⟩, [(1, true)]⟩ : World).runner.thread_.toList ∧
    ((⟨⟨[[1]], some 1⟩, [(1, true)]⟩ : World).workers ≠ [] →
      ∀ (handle : Nat) (result : List Solution),
      PuzzleThread.run (⟨⟨[[1]], some 1⟩, [(1, true)]⟩ : World).runner handle =
        ((⟨⟨[[1]], some 1⟩, [(1, true)]⟩ : World).runner, [Event.return_if_fail]) ∧
      PuzzleThread.swap_result (⟨⟨[[1]], some 1⟩, [(1, true)]⟩ : World).runner result =
        ((⟨⟨[[1]], some 1⟩, [(1, true)]⟩ : World).runner, result, [Event.return_if_fail])) ∧
    ((⟨⟨[[1]], some 1⟩, [(1, true)]⟩ : World).workers.any (fun x => x.2) = true →
      ∃ w1, World.step ⟨⟨[[1]], some 1⟩, [(1, true)]⟩ Call.on_thread_exit = some w1) ∧
    (∀ w1, World.step ⟨⟨[[1]], some 1⟩, [(1, true)]⟩ Call.on_thread_exit = some w1 →
      ∃ handle, (⟨⟨[[1]], some 1⟩, [(1, true)]⟩ : World).workers = [(handle, true)] ∧
        (⟨⟨[[1]], some 1⟩, [(1, true)]⟩ : World).runner.thread_ = some handle ∧
        w1.runner.thread_ = none ∧ w1.workers = []) ∧
    (∀ (handle : Nat), (⟨⟨[[1]], some 1⟩, [(1, true)]⟩ : World).runner.thread_ = some handle →
      (⟨⟨[[1]], some 1⟩, [(1, true)]⟩ : World).workers.map Prod.fst = [handle] ∧
      (∀ slots : PuzzleThread → PuzzleThread × List Event,
        PuzzleThread.on_thread_exit slots (⟨⟨[[1]], some 1⟩, [(1, true)]⟩ : World).runner =
          some ((slots { (⟨⟨[[1]], some 1⟩, [(1, true)]⟩ : World).runner with thread_ := none }).1,
            [Event.thread_join handle, Event.signal_done] ++
              (slots { (⟨⟨[[1]], some 1⟩, [(1, true)]⟩ : World).runner with
                thread_ := none }).2)) ∧
      (∀ result : List Solution,
        PuzzleThread.on_thread_exit
            (fun r => ((PuzzleThread.swap_result r result).1, (PuzzleThread.swap_result r result).2.2))
            (⟨⟨[[1]], some 1⟩, [(1, true)]⟩ : World).runner =
          some (⟨result, none⟩, [Event.thread_join handle, Event.signal_done])) ∧
      (∀ next : Nat,
        PuzzleThread.on_thread_exit (fun r => PuzzleThread.run r next)
            (⟨⟨[[1]], some 1⟩, [(1, true)]⟩ : World).runner =
          some (⟨(⟨⟨[[1]], some 1⟩, [(1, true)]⟩ : World).runner.solutions_, some next⟩,
            [Event.thread_join handle, Event.signal_done, Event.thread_create next])))) :=
  ⟨rfl, done_after_join [Call.execute (.ok ⟨[], [[1]], []⟩), Call.run 1] _ rfl⟩

/-- The order of the statements of the handler shows: had `signal_done_` been
emitted before `thread_` is reset, a slot that calls `swap_result` would fail
its check, which it does not. -/
theorem on_thread_exit_slot_swaps :
    PuzzleThread.on_thread_exit
      (fun r => ((PuzzleThread.swap_result r []).1, (PuzzleThread.swap_result r []).2.2))
      ⟨[[1]], some 1⟩ = some (⟨[], none⟩, [Event.thread_join 1, Event.signal_done]) ∧
    (PuzzleThread.swap_result ⟨[[1]], some 1⟩ []).2.2 = [Event.return_if_fail] := by
  decide

/-! ### The order of the Solution Set, and its rotations -/

theorem sort_insert_sorted (a : Nat) (l : List Nat) (h : l.Pairwise (fun x y => x ≤ y)) :
    (sort_insert a l).Pairwise (fun x y => x ≤ y) := by
  induction l with
  | nil => simp [sort_insert]
  | cons b l ih =>
    unfold sort_insert
    rw [List.pairwise_cons] at h
    split
    · rename_i hb
      have hba : b < a := by simpa [Cube.SortPredicate] using hb
      rw [List.pairwise_cons]
      refine ⟨?_, ih h.2⟩
      intro x hx
      rcases (mem_sort_insert a x l).1 hx with rfl | hx
      · exact Nat.le_of_lt hba
      · exact h.1 x hx
    · rename_i hb
      have hab : a ≤ b := by simpa [Cube.SortPredicate] using hb
      rw [List.pairwise_cons, List.pairwise_cons]
      refine ⟨?_, h⟩
      intro x hx
      rcases List.mem_cons.1 hx with rfl | hx
      · exact hab
      · exact Nat.le_trans hab (h.1 x hx)

theorem sort_sorted (l : List Nat) : (sort l).Pairwise (fun x y => x ≤ y) := by
  induction l with
  | nil => simp [sort]
  | cons a l ih => exact sort_insert_sorted a _ ih

theorem unique_strict (l : List Nat) (h : l.Pairwise (fun x y => x ≤ y)) :
    (unique l).Pairwise (fun x y => x < y) := by
  induction l with
  | nil => simp [unique]
  | cons x rest ih =>
    rw [List.pairwise_cons] at h
    cases rest with
    | nil => simp [unique]
    | cons y r =>
      have hu : unique (x :: y :: r) =
          if x = y then unique (y :: r) else x :: unique (y :: r) := rfl
      rw [hu]
      split
      · exact ih h.2
      · rename_i hxy
        rw [List.pairwise_cons]
        refine ⟨?_, ih h.2⟩
        intro z hz
        have hz2 := (mem_unique z (y :: r)).1 hz
        have hxy2 : x ≤ y := h.1 y (List.mem_cons_self _ _)
        have hyz : y ≤ z := by
          rcases List.mem_cons.1 hz2 with rfl | hz3
          · exact Nat.le_refl _
          · exact (List.pairwise_cons.1 h.2).1 z hz3
        exact Nat.lt_of_lt_of_le (Nat.lt_of_le_of_ne hxy2 hxy) hyz

theorem column_strict (data : List (List (List (List Bool)))) (i : Nat) :
    (column data i).Pairwise (fun x y => x < y) :=
  unique_strict _ (sort_sorted _)

theorem lex_lt_cons_same (c : Nat) (s t : List Nat) : lex_lt (c :: s) (c :: t) = lex_lt s t := by
  have h1 : Nat.blt c c = false := by
    cases h : Nat.blt c c
    · rfl
    · rw [Nat.blt_eq] at h; omega
  have h2 : Nat.beq c c = true := by rw [Nat.beq_eq]
  simp [lex_lt, h1, h2]

theorem lex_lt_cons_lt (c d : Nat) (h : c < d) (s t : List Nat) :
    lex_lt (c :: s) (d :: t) = true := by
  have h1 : Nat.blt c d = true := by rw [Nat.blt_eq]; exact h
  simp [lex_lt, h1]

/-- The choices from strictly increasing columns come in strictly increasing
lexicographic order. -/
theorem tuples_strict (cols : List (List Nat)) (h : ∀ c ∈ cols, c.Pairwise (fun x y => x < y)) :
    (tuples cols).Pairwise (fun s t => lex_lt s t = true) := by
  induction cols with
  | nil => simp [tuples]
  | cons col rest ih =>
    have ih2 := ih (fun c hc => h c (List.mem_cons_of_mem _ hc))
    unfold tuples
    rw [List.pairwise_flatMap]
    constructor
    · intro c _
      rw [List.pairwise_map]
      refine ih2.imp ?_
      intro s t hst
      rw [lex_lt_cons_same]
      exact hst
    · refine (h col (List.mem_cons_self _ _)).imp ?_
      intro c d hcd x hx y hy
      obtain ⟨s, _, rfl⟩ := List.mem_map.1 hx
      obtain ⟨t, _, rfl⟩ := List.mem_map.1 hy
      exact lex_lt_cons_lt c d hcd s t

theorem prune_sublist (cols : ColumnStore) :
    ∀ c ∈ prune cols, ∃ c0 ∈ cols, c.Sublist c0 := by
  intro c hc
  cases cols with
  | nil => simp [prune] at hc
  | cons c0 rest =>
    rw [prune_cons] at hc
    split at hc
    · rcases List.mem_cons.1 hc with rfl | hc
      · exact ⟨c, List.mem_cons_self _ _, List.Sublist.refl _⟩
      · obtain ⟨st, hst, rfl⟩ := List.mem_map.1 hc
        exact ⟨st, List.mem_cons_of_mem _ hst, List.filter_sublist _⟩
    · exact ⟨c, hc, List.Sublist.refl _⟩

/-- On every piece table the Solution Set is strictly increasing in the
lexicographic order of the masks. -/
theorem solve_strict (data : List (List (List (List Bool)))) :
    ∃ sols, solve data = .ok sols ∧ sols.Pairwise (fun s t => lex_lt s t = true) := by
  refine ⟨_, solve_eq data, ?_⟩
  refine List.Pairwise.sublist (List.filter_sublist _) ?_
  apply tuples_strict
  intro c hc
  unfold prepared at hc
  rw [terminate_map_scanned] at hc
  obtain ⟨c1, hc1, rfl⟩ := List.mem_map.1 hc
  obtain ⟨c0, hc0, hsub⟩ := prune_sublist _ c1 hc1
  obtain ⟨i, _, rfl⟩ := List.mem_map.1 hc0
  have h1 : (scanned c1).Sublist c1 := List.takeWhile_sublist _
  exact List.Pairwise.sublist (h1.trans hsub) (column_strict data i)


theorem exists_getD_ne (s t : List Nat) (hl : s.length = t.length) (hne : s ≠ t) :
    ∃ k, k < s.length ∧ s.getD k 0 ≠ t.getD k 0 := by
  by_contra hcon
  apply hne
  apply List.ext_getElem hl
  intro n h1 h2
  by_contra hx
  apply hcon
  refine ⟨n, h1, ?_⟩
  rw [List.getD_eq_getElem _ _ h1, List.getD_eq_getElem _ _ h2]
  exact hx

/-- C25: the Solution Set that `execute` computes, on the built-in table and
on every other piece table, holds no Solution twice: it is strictly increasing
in the lexicographic order that `Cube::SortPredicate` induces, column 0 most
significant, and any two entries at different positions differ in one of their
seven placements. -/
theorem solutions_strictly_increasing (data : List (List (List (List Bool)))) :
    ∃ sols, solve data = .ok sols ∧
      sols.Pairwise (fun s t => lex_lt s t = true) ∧
      ∀ i j, i < j → j < sols.length →
        ∃ k, k < CUBE_PIECE_COUNT ∧
          (sols.getD i []).getD k Cube.empty ≠ (sols.getD j []).getD k Cube.empty := by
  obtain ⟨sols, hs, hp⟩ := solve_strict data
  refine ⟨sols, hs, hp, ?_⟩
  intro i j hij hj
  have hi : i < sols.length := by omega
  rw [List.getD_eq_getElem _ _ hi, List.getD_eq_getElem _ _ hj]
  have hlt := List.pairwise_iff_getElem.1 hp i j hi hj hij
  have hli := solve_length _ _ hs _ (List.getElem_mem hi)
  have hlj := solve_length _ _ hs _ (List.getElem_mem hj)
  have hne : sols[i] ≠ sols[j] := by
    intro e
    rw [e, lex_lt_irrefl] at hlt
    exact Bool.false_ne_true hlt
  obtain ⟨k, hk, hd⟩ := exists_getD_ne _ _ (by rw [hli, hlj]) hne
  exact ⟨k, by rw [← hli]; exact hk, hd⟩

theorem anchor_stabilizer :
    ∀ a ∈ raw_table.getD 0 [], ∀ k < 24, rotate_word a (word k) = a → k = 0 := by decide!

theorem mem_tuples_cons (col : List Cube) (rest : List (List Cube)) (t : List Cube)
    (h : t ∈ tuples (col :: rest)) : ∃ a t1, t = a :: t1 ∧ a ∈ col := by
  simp only [tuples, List.mem_flatMap, List.mem_map] at h
  obtain ⟨a, ha, t1, _, rfl⟩ := h
  exact ⟨a, t1, rfl, ha⟩

theorem solution_anchor (s : List Cube)
    (h : s ∈ (tuples raw_table).filter (fun t => decide (PairwiseDisjoint t))) :
    ∃ a s1, s = a :: s1 ∧ a ∈ raw_table.getD 0 [] := by
  have e : raw_table = raw_table.getD 0 [] :: raw_table.tail := rfl
  have h1 := (List.mem_filter.1 h).1
  rw [e] at h1
  exact mem_tuples_cons _ _ _ h1

/-- C26: no two distinct Solutions of the Solution Set that `execute`
computes on `cube_piece_data` are related by a whole-cube rotation: for
distinct solutions `s` and `t` and each of the 24 rotations that
`compute_rotations` generates, the rotation applied to the seven placements of
`s` does not give `t`. -/
theorem solutions_not_rotations :
    ∃ sols, solve cube_piece_data = .ok sols ∧
      ∀ s ∈ sols, ∀ t ∈ sols, s ≠ t →
        ∀ w ∈ words24, s.map (fun c => rotate_word c w) ≠ t := by
  refine ⟨_, solve_eq_raw, ?_⟩
  intro s hs t ht hne w hw hmap
  obtain ⟨a, s1, rfl, ha⟩ := solution_anchor s hs
  obtain ⟨b, t1, rfl, hb⟩ := solution_anchor t ht
  obtain ⟨k, hk, rfl⟩ := List.getElem_of_mem hw
  have hk24 : k < 24 := hk
  have hwk : words24[k] = word k := by
    unfold word
    rw [List.getD_eq_getElem _ _ hk]
  rw [hwk] at hmap
  simp only [List.map_cons, List.cons.injEq] at hmap
  obtain ⟨h1, h2⟩ := hmap
  have hab : a = b := by
    by_contra hab
    exact anchor_unrelated a ha b hb hab ((mem_rotations a b).2 ⟨k, hk24, h1.symm⟩)
  subst hab
  have hk0 := anchor_stabilizer a ha k hk24 h1
  subst hk0
  apply hne
  rw [← h2]
  have hid : (fun c => rotate_word c (word 0)) = id := by
    funext c
    rfl
  rw [hid, List.map_id]

end Somato
